import Mathlib

/-!
# CVariant (xbmc/utils/Variant.cpp)

A shallow embedding of Kodi's dynamically typed value container and the
verification of its specification.

* A `CVariant` object is a tag `m_type` together with the one member of the
  union `m_data` which that tag selects.  The embedding is the corresponding
  sum type: one constructor per tag, carrying the selected member.
* `int64_t` / `uint64_t` payloads are integers / naturals; conversions between
  them are written with explicit wrap-around.  `unsigned int` results are
  reduced modulo `2 ^ 32`.
* `std::string` and `std::wstring` are sequences of characters.
* `std::vector<CVariant>` is a list; `std::map<std::string, CVariant>` is the
  list of its entries in iteration order (ascending keys, no key twice).
* `double` is the IEEE-754 binary64 bit pattern, with the comparison of that
  format.  Arithmetic conversions of doubles and the text parsers of the C
  library are not part of Variant.cpp and are parameters (`CRuntime`).
* A member function is a function of the value of `*this` (and of its
  arguments) to the new value of `*this` and the result.  Where the code tests
  the identity of objects (`this == &rhs`) the outcome of the test is an
  argument.  A returned `CVariant&` is a `Slot`: an entry or element of `*this`,
  or the static `ConstNullVariant`.
* Statements about several objects are evaluated in a `Store`, which gives
  every complete object (the static `ConstNullVariant` among them) its value.
  Allocation failure is not modelled.
-/

/-! ## Scalars -/

/-- The bit pattern of an IEEE-754 binary64 value (`double`). -/
structure Double where
  bits : Nat
deriving DecidableEq, Repr

namespace Double

/-- The biased exponent field (11 bits). -/
def exponent (d : Double) : Nat := (d.bits / 2 ^ 52) % 2 ^ 11

/-- The fraction field (52 bits). -/
def fraction (d : Double) : Nat := d.bits % 2 ^ 52

/-- Sign bit. -/
def sign (d : Double) : Nat := (d.bits / 2 ^ 63) % 2

/-- Not-a-number: exponent all ones, fraction not zero. -/
def isNaN (d : Double) : Bool := d.exponent == 2 ^ 11 - 1 && d.fraction != 0

/-- Positive or negative zero. -/
def isZero (d : Double) : Bool := d.exponent == 0 && d.fraction == 0

/-- The built-in `==` of two doubles: a NaN equals nothing, the two zeros are
equal, every other value equals only itself. -/
def eq (a b : Double) : Bool :=
  !a.isNaN && !b.isNaN &&
    ((a.isZero && b.isZero) ||
      (a.sign == b.sign && a.exponent == b.exponent && a.fraction == b.fraction))

/-- The literal `0.0`. -/
def zero : Double := ⟨0⟩

/-- A quiet NaN. -/
def nan : Double := ⟨0x7FF8000000000000⟩

end Double

/-- Conversion to `int64_t` of an integer value (two's complement wrap-around). -/
def toInt64 (i : Int) : Int := (i + 2 ^ 63) % 2 ^ 64 - 2 ^ 63

/-- Conversion to `uint64_t` of an integer value (wrap-around). -/
def toUInt64 (i : Int) : Nat := (i % 2 ^ 64).toNat

/-- Conversion to `unsigned int` (wrap-around). -/
def toUInt32 (n : Nat) : Nat := n % 2 ^ 32

/-- Conversion to `int32_t` of an integer value (two's complement wrap-around). -/
def toInt32 (i : Int) : Int := (i + 2 ^ 31) % 2 ^ 32 - 2 ^ 31

/-! ## The data model -/

/-- The tags of a variant (`CVariant::VariantType`). -/
inductive VariantType where
  | VariantTypeInteger
  | VariantTypeUnsignedInteger
  | VariantTypeBoolean
  | VariantTypeString
  | VariantTypeWideString
  | VariantTypeDouble
  | VariantTypeArray
  | VariantTypeObject
  | VariantTypeNull
  | VariantTypeConstNull
deriving DecidableEq, Repr

/-- A variant: its tag and the member of `m_data` which the tag selects.
`array` holds the elements of `*m_data.array` in order, `object` the entries
of `*m_data.map` in iteration order. -/
inductive CVariant where
  | integer (integer : Int)
  | unsignedinteger (unsignedinteger : Nat)
  | boolean (boolean : Bool)
  | dvalue (dvalue : Double)
  | string (string : String)
  | wstring (wstring : String)
  | array (array : List CVariant)
  | object (map : List (String × CVariant))
  | null
  | constNull

/-- The elements of a `VariantArray`. -/
abbrev VariantArray := List CVariant

/-- The entries of a `VariantMap`, in iteration order. -/
abbrev VariantMap := List (String × CVariant)

namespace CVariant

/-- The tag `m_type`. -/
def m_type : CVariant → VariantType
  | integer _ => .VariantTypeInteger
  | unsignedinteger _ => .VariantTypeUnsignedInteger
  | boolean _ => .VariantTypeBoolean
  | dvalue _ => .VariantTypeDouble
  | string _ => .VariantTypeString
  | wstring _ => .VariantTypeWideString
  | array _ => .VariantTypeArray
  | object _ => .VariantTypeObject
  | null => .VariantTypeNull
  | constNull => .VariantTypeConstNull

/-- The accessor `type()`. -/
def type (self : CVariant) : VariantType := self.m_type

/-! ## Constructors -/

/-- The constructor `CVariant(VariantType type)`. -/
def ofType : VariantType → CVariant
  | .VariantTypeInteger => integer 0
  | .VariantTypeUnsignedInteger => unsignedinteger 0
  | .VariantTypeBoolean => boolean false
  | .VariantTypeDouble => dvalue Double.zero
  | .VariantTypeString => string ""
  | .VariantTypeWideString => wstring ""
  | .VariantTypeArray => array []
  | .VariantTypeObject => object []
  | .VariantTypeNull => null
  | .VariantTypeConstNull => constNull

/-- The default constructor `CVariant()`, which delegates to
`CVariant(VariantTypeNull)`. -/
def default : CVariant := ofType .VariantTypeNull

/-- The constructors `CVariant(int)` and `CVariant(int64_t)`. -/
def ofInt64 (integer : Int) : CVariant := .integer integer

/-- The constructors `CVariant(unsigned int)` and `CVariant(uint64_t)`. -/
def ofUInt64 (unsignedinteger : Nat) : CVariant := .unsignedinteger unsignedinteger

/-- The constructor `CVariant(double)`. -/
def ofDouble (value : Double) : CVariant := .dvalue value

/-- The constructor `CVariant(bool)`. -/
def ofBool (boolean : Bool) : CVariant := .boolean boolean

/-- The constructors `CVariant(const std::string&)` and `CVariant(std::string&&)`. -/
def ofString (str : String) : CVariant := .string str

/-- The constructors `CVariant(const std::wstring&)` and `CVariant(std::wstring&&)`. -/
def ofWString (str : String) : CVariant := .wstring str

/-! ## Type predicates -/

/-- The predicate `isSignedInteger()`. -/
def isSignedInteger (self : CVariant) : Bool := self.m_type == .VariantTypeInteger

/-- The predicate `isUnsignedInteger()`. -/
def isUnsignedInteger (self : CVariant) : Bool := self.m_type == .VariantTypeUnsignedInteger

/-- The predicate `isInteger()`. -/
def isInteger (self : CVariant) : Bool := self.isSignedInteger || self.isUnsignedInteger

/-- The predicate `isBoolean()`. -/
def isBoolean (self : CVariant) : Bool := self.m_type == .VariantTypeBoolean

/-- The predicate `isDouble()`. -/
def isDouble (self : CVariant) : Bool := self.m_type == .VariantTypeDouble

/-- The predicate `isString()`. -/
def isString (self : CVariant) : Bool := self.m_type == .VariantTypeString

/-- The predicate `isWideString()`. -/
def isWideString (self : CVariant) : Bool := self.m_type == .VariantTypeWideString

/-- The predicate `isArray()`. -/
def isArray (self : CVariant) : Bool := self.m_type == .VariantTypeArray

/-- The predicate `isObject()`. -/
def isObject (self : CVariant) : Bool := self.m_type == .VariantTypeObject

/-- The predicate `isNull()`. -/
def isNull (self : CVariant) : Bool :=
  self.m_type == .VariantTypeNull || self.m_type == .VariantTypeConstNull

end CVariant

/-! ## Numeric text (the free functions at the top of Variant.cpp) -/

/-- The functions of the C and C++ runtime which Variant.cpp calls and does
not define.  A parser receives the characters of the C string it is given and
returns its result together with the number of characters `end - str` it
consumed. -/
structure CRuntime where
  /-- `strtoll(str, &end, 0)`, also `_strtoi64`. -/
  strtoll : List Char → Int × Nat
  /-- `strtoull(str, &end, 0)`, also `_strtoui64`. -/
  strtoull : List Char → Nat × Nat
  /-- `wcstoll(str, &end, 0)`, also `_wcstoi64`. -/
  wcstoll : List Char → Int × Nat
  /-- `wcstoull(str, &end, 0)`, also `_wcstoui64`. -/
  wcstoull : List Char → Nat × Nat
  /-- `strtod(str, &end)`. -/
  strtod : List Char → Double × Nat
  /-- `wcstod(str, &end)`. -/
  wcstod : List Char → Double × Nat
  /-- The cast `(int64_t)d` of a double. -/
  doubleToInt64 : Double → Int
  /-- The cast `(uint64_t)d` of a double. -/
  doubleToUInt64 : Double → Nat
  /-- The cast `(double)i` of an `int64_t`. -/
  int64ToDouble : Int → Double
  /-- The cast `(double)u` of a `uint64_t`. -/
  uint64ToDouble : Nat → Double
  /-- `std::to_string(double)`. -/
  doubleToString : Double → String
  /-- `std::to_wstring(double)`. -/
  doubleToWString : Double → String

/-- The preprocessor state that selects the definition of `strtoll` and its
three companions (lines 15-29 of Variant.cpp). -/
structure BuildConfig where
  /-- `strtoll` is already a preprocessor symbol (`#ifndef strtoll` fails). -/
  strtollDefined : Bool
  /-- `TARGET_WINDOWS` is defined. -/
  targetWindows : Bool
  /-- `TARGET_DARWIN` is defined. -/
  targetDarwin : Bool

/-- Whether the block of lines 22-27 is taken, which rewrites the four integer
parsers into a cast of the floating-point parser. -/
def BuildConfig.parsesThroughDouble (cfg : BuildConfig) : Bool :=
  !cfg.strtollDefined && !cfg.targetWindows && !cfg.targetDarwin

/-- The expression `strtoll(str, &end, 0)` after preprocessing. -/
def strtoll (rt : CRuntime) (cfg : BuildConfig) (str : List Char) : Int × Nat :=
  if cfg.parsesThroughDouble then ((rt.strtod str).map rt.doubleToInt64 id) else rt.strtoll str

/-- The expression `strtoull(str, &end, 0)` after preprocessing. -/
def strtoull (rt : CRuntime) (cfg : BuildConfig) (str : List Char) : Nat × Nat :=
  if cfg.parsesThroughDouble then ((rt.strtod str).map rt.doubleToUInt64 id) else rt.strtoull str

/-- The expression `wcstoll(str, &end, 0)` after preprocessing. -/
def wcstoll (rt : CRuntime) (cfg : BuildConfig) (str : List Char) : Int × Nat :=
  if cfg.parsesThroughDouble then ((rt.wcstod str).map rt.doubleToInt64 id) else rt.wcstoll str

/-- The expression `wcstoull(str, &end, 0)` after preprocessing. -/
def wcstoull (rt : CRuntime) (cfg : BuildConfig) (str : List Char) : Nat × Nat :=
  if cfg.parsesThroughDouble then ((rt.wcstod str).map rt.doubleToUInt64 id) else rt.wcstoull str

/-- The value `std::string::npos`, the largest `size_t`. -/
def npos : Nat := 2 ^ 64 - 1

/-- The member `find_last_not_of(set)`: the index of the last character that
is not in `set`, or `npos` when there is none. -/
def find_last_not_of (str : List Char) (set : List Char) : Nat :=
  match str.reverse.dropWhile (fun c => set.contains c) with
  | [] => npos
  | c :: rest => (c :: rest).length - 1

/-- Both overloads of `trimRight`: erase everything from index
`find_last_not_of(" \n\r\t") + 1` on, the sum taken in `size_t`. -/
def trimRight (str : String) : String :=
  String.mk (str.data.take ((find_last_not_of str.data [' ', '\n', '\r', '\t'] + 1) % 2 ^ 64))

/-- The characters which a C function reads from `tmp.c_str()`: those before
the first NUL. -/
def c_str (tmp : String) : List Char := tmp.data.takeWhile (fun c => c != '\x00')

/-- The character `*end`, for `end` at offset `n` of `tmp.c_str()`; the buffer
is the content of `tmp` followed by the terminating NUL. -/
def charAt (tmp : String) (n : Nat) : Char := (tmp.data ++ ['\x00']).getD n '\x00'

/-- The function `str2int64(const std::string&, int64_t)`.  The parsers always
set `end`, so the test `end == NULL` is false. -/
def str2int64 (rt : CRuntime) (cfg : BuildConfig) (str : String) (fallback : Int) : Int :=
  let tmp := trimRight str
  let (result, endOffset) := strtoll rt cfg (c_str tmp)
  if charAt tmp endOffset = '\x00' then result else fallback

/-- The function `str2int64(const std::wstring&, int64_t)`. -/
def wstr2int64 (rt : CRuntime) (cfg : BuildConfig) (str : String) (fallback : Int) : Int :=
  let tmp := trimRight str
  let (result, endOffset) := wcstoll rt cfg (c_str tmp)
  if charAt tmp endOffset = '\x00' then result else fallback

/-- The function `str2uint64(const std::string&, uint64_t)`. -/
def str2uint64 (rt : CRuntime) (cfg : BuildConfig) (str : String) (fallback : Nat) : Nat :=
  let tmp := trimRight str
  let (result, endOffset) := strtoull rt cfg (c_str tmp)
  if charAt tmp endOffset = '\x00' then result else fallback

/-- The function `str2uint64(const std::wstring&, uint64_t)`. -/
def wstr2uint64 (rt : CRuntime) (cfg : BuildConfig) (str : String) (fallback : Nat) : Nat :=
  let tmp := trimRight str
  let (result, endOffset) := wcstoull rt cfg (c_str tmp)
  if charAt tmp endOffset = '\x00' then result else fallback

/-- The function `str2double(const std::string&, double)`. -/
def str2double (rt : CRuntime) (str : String) (fallback : Double) : Double :=
  let tmp := trimRight str
  let (result, endOffset) := rt.strtod (c_str tmp)
  if charAt tmp endOffset = '\x00' then result else fallback

/-- The function `str2double(const std::wstring&, double)`. -/
def wstr2double (rt : CRuntime) (str : String) (fallback : Double) : Double :=
  let tmp := trimRight str
  let (result, endOffset) := rt.wcstod (c_str tmp)
  if charAt tmp endOffset = '\x00' then result else fallback

namespace CVariant

/-! ## Conversions -/

/-- The accessor `asInteger(int64_t fallback)`. -/
def asInteger (rt : CRuntime) (cfg : BuildConfig) (self : CVariant) (fallback : Int) : Int :=
  match self with
  | integer i => i
  | unsignedinteger u => toInt64 u
  | dvalue d => rt.doubleToInt64 d
  | string s => str2int64 rt cfg s fallback
  | wstring w => wstr2int64 rt cfg w fallback
  | _ => fallback

/-- The accessor `asInteger32(int32_t fallback)`. -/
def asInteger32 (rt : CRuntime) (cfg : BuildConfig) (self : CVariant) (fallback : Int) : Int :=
  toInt32 (asInteger rt cfg self fallback)

/-- The accessor `asUnsignedInteger(uint64_t fallback)`. -/
def asUnsignedInteger (rt : CRuntime) (cfg : BuildConfig) (self : CVariant) (fallback : Nat) :
    Nat :=
  match self with
  | unsignedinteger u => u
  | integer i => toUInt64 i
  | dvalue d => rt.doubleToUInt64 d
  | string s => str2uint64 rt cfg s fallback
  | wstring w => wstr2uint64 rt cfg w fallback
  | _ => fallback

/-- The accessor `asUnsignedInteger32(uint32_t fallback)`. -/
def asUnsignedInteger32 (rt : CRuntime) (cfg : BuildConfig) (self : CVariant) (fallback : Nat) :
    Nat :=
  toUInt32 (asUnsignedInteger rt cfg self fallback)

/-- The accessor `asDouble(double fallback)`. -/
def asDouble (rt : CRuntime) (self : CVariant) (fallback : Double) : Double :=
  match self with
  | dvalue d => d
  | integer i => rt.int64ToDouble i
  | unsignedinteger u => rt.uint64ToDouble u
  | string s => str2double rt s fallback
  | wstring w => wstr2double rt w fallback
  | _ => fallback

/-- The accessor `asBoolean(bool fallback)`. -/
def asBoolean (self : CVariant) (fallback : Bool) : Bool :=
  match self with
  | boolean b => b
  | integer i => i != 0
  | unsignedinteger u => u != 0
  | dvalue d => !(Double.eq d Double.zero)
  | string s => if s.isEmpty || s == "0" || s == "false" then false else true
  | wstring w => if w.isEmpty || w == "0" || w == "false" then false else true
  | _ => fallback

/-- The accessor `asString(const std::string& fallback) const&`. -/
def asString (rt : CRuntime) (self : CVariant) (fallback : String) : String :=
  match self with
  | string s => s
  | boolean b => if b then "true" else "false"
  | integer i => toString i
  | unsignedinteger u => toString u
  | dvalue d => rt.doubleToString d
  | _ => fallback

/-- The value returned by `asString(const std::string& fallback) &&`: the
string moved out of the variant when the tag is String, the copying conversion
otherwise. -/
def asString_rvalue (rt : CRuntime) (self : CVariant) (fallback : String) : String :=
  match self with
  | string s => s
  | _ => asString rt self fallback

/-- The accessor `asWideString(const std::wstring& fallback) const&`. -/
def asWideString (rt : CRuntime) (self : CVariant) (fallback : String) : String :=
  match self with
  | wstring w => w
  | boolean b => if b then "true" else "false"
  | integer i => toString i
  | unsignedinteger u => toString u
  | dvalue d => rt.doubleToWString d
  | _ => fallback

/-- The value returned by `asWideString(const std::wstring& fallback) &&`. -/
def asWideString_rvalue (rt : CRuntime) (self : CVariant) (fallback : String) : String :=
  match self with
  | wstring w => w
  | _ => asWideString rt self fallback

/-! ## Containers -/

/-- The comparison `std::less<std::string>` which orders a `VariantMap`:
lexicographic comparison of the characters. -/
def key_less (a b : String) : Prop := a.data < b.data

instance (a b : String) : Decidable (key_less a b) := by
  unfold key_less
  infer_instance

/-- The member `find(key)` of a `VariantMap`: the mapped value of the entry
with that key, if there is one. -/
def map_find : VariantMap → String → Option CVariant
  | [], _ => none
  | (k, x) :: m, key => if k = key then some x else map_find m key

/-- The member `insert` of a `VariantMap`: the entry is put at its place in the
key order unless an entry with an equivalent key is there already. -/
def map_insert (key : String) (value : CVariant) : VariantMap → VariantMap
  | [] => [(key, value)]
  | (k, x) :: m =>
    if key_less key k then (key, value) :: (k, x) :: m
    else if key_less k key then (k, x) :: map_insert key value m
    else (k, x) :: m

/-- The map after `(*m_data.map)[key]`: an absent key is inserted with a
default-constructed `CVariant`. -/
def map_index (m : VariantMap) (key : String) : VariantMap :=
  map_insert key default m

/-- The member `erase(key)` of a `VariantMap`. -/
def map_erase (m : VariantMap) (key : String) : VariantMap :=
  m.filter (fun e => e.1 != key)

/-- Replacement of the mapped value of `key` (a write through a reference to
that entry). -/
def map_set : VariantMap → String → CVariant → VariantMap
  | [], _, _ => []
  | (k, x) :: m, key, value =>
    if k = key then (k, value) :: m else (k, x) :: map_set m key value

/-- The keys of a `VariantMap` ascend strictly, as the iteration of a
`std::map` does. -/
def keysAscending (m : VariantMap) : Prop := List.Pairwise (fun e f => key_less e.1 f.1) m

/-- The exception `std::out_of_range` of `std::vector::at`. -/
inductive Exception where
  | out_of_range
deriving DecidableEq, Repr

/-- The member `at(n)` of a `VariantArray`: the index of the element referred
to, or the exception when `n` is not below the number of elements. -/
def vector_at (a : VariantArray) (n : Nat) : Except Exception Nat :=
  if n < a.length then .ok n else .error .out_of_range

/-! ## Size -/

/-- The member `size()`; the result type is `unsigned int`. -/
def size (self : CVariant) : Nat :=
  match self with
  | object m => toUInt32 m.length
  | array a => toUInt32 a.length
  | string s => toUInt32 s.length
  | wstring w => toUInt32 w.length
  | _ => 0

/-- The member `empty()`. -/
def empty (self : CVariant) : Bool :=
  match self with
  | object m => m.isEmpty
  | array a => a.isEmpty
  | string s => s.isEmpty
  | wstring w => w.isEmpty
  | null => true
  | _ => false

/-- The member `isMember(key)`. -/
def isMember (self : CVariant) (key : String) : Bool :=
  match self with
  | object m => (map_find m key).isSome
  | _ => false

/-- The entries of the map of an Object; no entries for the other tags. -/
def entries : CVariant → VariantMap
  | object m => m
  | _ => []

/-! ## Equality -/

mutual
/-- The member `operator==`.  The last three lines are the `default: break;`
of the switch (Null and ConstNull) and the failed test `m_type == rhs.m_type`,
which all reach `return false`. -/
def operator_eq : CVariant → CVariant → Bool
  | integer i, integer j => i == j
  | unsignedinteger i, unsignedinteger j => i == j
  | boolean a, boolean b => a == b
  | dvalue a, dvalue b => Double.eq a b
  | string a, string b => a == b
  | wstring a, wstring b => a == b
  | array a, array b => a.length == b.length && vector_equal a b
  | object m, object n => m.length == n.length && map_equal m n
  | null, null => false
  | constNull, constNull => false
  | _, _ => false
/-- The algorithm `std::equal` over two `VariantArray`s, as `operator==` of
`std::vector` calls it once the sizes agree. -/
def vector_equal : VariantArray → VariantArray → Bool
  | x :: xs, y :: ys => operator_eq x y && vector_equal xs ys
  | _, _ => true
/-- The algorithm `std::equal` over two `VariantMap`s; entries are compared
with `operator==` of `std::pair`. -/
def map_equal : VariantMap → VariantMap → Bool
  | (k, x) :: m, (l, y) :: n => (k == l && operator_eq x y) && map_equal m n
  | _, _ => true
end

/-- Payloads that are equal by value, in the words of the specification: the
same integer, boolean or text, doubles that compare equal, arrays of equal
length whose elements at the same position are `==`, objects with the same
keys whose values at the same key are `==`; the payload-free tags need nothing
more than to match. -/
def PayloadsEqual : CVariant → CVariant → Prop
  | integer i, integer j => i = j
  | unsignedinteger i, unsignedinteger j => i = j
  | boolean a, boolean b => a = b
  | dvalue a, dvalue b => Double.eq a b = true
  | string a, string b => a = b
  | wstring a, wstring b => a = b
  | array a, array b =>
    a.length = b.length ∧
      ∀ (i : Nat) x y, a[i]? = some x → b[i]? = some y → operator_eq x y = true
  | object m, object n =>
    (∀ key, (map_find m key).isSome = (map_find n key).isSome) ∧
      ∀ key x y, map_find m key = some x → map_find n key = some y → operator_eq x y = true
  | null, null => True
  | constNull, constNull => True
  | _, _ => False

/-- The entries of an Object are in the order of a `std::map`; nothing is
asked of the other tags. -/
def mapOrdered : CVariant → Prop
  | object m => keysAscending m
  | _ => True

instance (v : CVariant) : Decidable (mapOrdered v) := by
  cases v <;> unfold mapOrdered <;> try unfold keysAscending
  all_goals infer_instance

mutual
/-- A Null- or ConstNull-tagged value occurs in the variant: the variant
itself, an element of an array or a value of an object, at any depth. -/
def containsNull : CVariant → Bool
  | null => true
  | constNull => true
  | array a => containsNullArray a
  | object m => containsNullMap m
  | _ => false
/-- A null occurs in an element. -/
def containsNullArray : VariantArray → Bool
  | [] => false
  | x :: xs => containsNull x || containsNullArray xs
/-- A null occurs in a mapped value. -/
def containsNullMap : VariantMap → Bool
  | [] => false
  | (_, x) :: m => containsNull x || containsNullMap m
end

mutual
/-- A Double holding a NaN occurs in the variant, at any depth. -/
def containsNaN : CVariant → Bool
  | dvalue d => d.isNaN
  | array a => containsNaNArray a
  | object m => containsNaNMap m
  | _ => false
/-- A NaN occurs in an element. -/
def containsNaNArray : VariantArray → Bool
  | [] => false
  | x :: xs => containsNaN x || containsNaNArray xs
/-- A NaN occurs in a mapped value. -/
def containsNaNMap : VariantMap → Bool
  | [] => false
  | (_, x) :: m => containsNaN x || containsNaNMap m
end

/-! ## Copy and move -/

/-- The member `cleanup()`: the payload is released and the tag set to Null. -/
def cleanup (_self : CVariant) : CVariant := null

mutual
/-- The copy assignment `operator=(const CVariant &rhs)`, at the object `*this`
of value `self`; `same` tells whether `rhs` is that very object
(`this == &rhs`).  Past the guard the object is cleaned up, takes the tag of
`rhs` and a copy of the payload which that tag selects. -/
def operator_assign (self rhs : CVariant) (same : Bool) : CVariant :=
  if self.m_type == .VariantTypeConstNull || same then self
  else
    -- cleanup(); m_type = rhs.m_type; switch (m_type)
    let _released := cleanup self
    match rhs with
    | integer i => integer i
    | unsignedinteger u => unsignedinteger u
    | boolean b => boolean b
    | dvalue d => dvalue d
    | string s => string s
    | wstring w => wstring w
    | array a => array (VariantArray_copy a)
    | object m => object (VariantMap_copy m)
    | null => null
    | constNull => constNull
/-- The range constructor `VariantArray(begin, end)`: every element is copy
constructed, that is, starts with tag Null and is assigned the original. -/
def VariantArray_copy : VariantArray → VariantArray
  | [] => []
  | x :: xs => operator_assign null x false :: VariantArray_copy xs
/-- The range constructor `VariantMap(begin, end)`. -/
def VariantMap_copy : VariantMap → VariantMap
  | [] => []
  | (k, x) :: m => (k, operator_assign null x false) :: VariantMap_copy m
end

/-- The copy constructor `CVariant(const CVariant &variant)`:
`m_type = VariantTypeNull; *this = variant;`. -/
def copy_construct (variant : CVariant) : CVariant :=
  operator_assign null variant false

/-- The move assignment `operator=(CVariant&& rhs)`: the new values of `*this`
and of `rhs`; `same` tells whether `rhs` is `*this`. -/
def operator_assign_move (self rhs : CVariant) (same : Bool) : CVariant × CVariant :=
  if self.m_type == .VariantTypeConstNull || same then (self, rhs)
  else
    let _released := if self.m_type != .VariantTypeNull then cleanup self else self
    -- m_type = rhs.m_type; m_data = rhs.m_data; rhs.m_type = VariantTypeNull
    (rhs, null)

/-- The move constructor `CVariant(CVariant&& rhs)`: the new object and the
new value of `rhs`. -/
def move_construct (rhs : CVariant) : CVariant × CVariant :=
  operator_assign_move null rhs false

/-! ## Mutation -/

/-- The member `reserve(length)`; reserving capacity does not change the
elements. -/
def reserve (self : CVariant) (_length : Nat) : CVariant :=
  let self := if self.m_type == .VariantTypeNull then array [] else self
  match self with
  | array a => array a
  | _ => self

/-- The member `push_back(const CVariant &variant)`; `same` tells whether
`variant` is `*this`, in which case the element is a copy of `*this` as it is
when `std::vector::push_back` reads it. -/
def push_back (self variant : CVariant) (same : Bool) : CVariant :=
  let self := if self.m_type == .VariantTypeNull then array [] else self
  match self with
  | array a => array (a ++ [copy_construct (if same then self else variant)])
  | _ => self

/-- The member `push_back(CVariant &&variant)`, for a `variant` that is not
`*this`: the new values of `*this` and of `variant`. -/
def push_back_move (self variant : CVariant) : CVariant × CVariant :=
  let self := if self.m_type == .VariantTypeNull then array [] else self
  match self with
  | array a => (array (a ++ [(move_construct variant).1]), (move_construct variant).2)
  | _ => (self, variant)

/-- The member `append(const CVariant &variant)`. -/
def append (self variant : CVariant) (same : Bool) : CVariant := push_back self variant same

/-- The member `append(CVariant&& variant)`. -/
def append_move (self variant : CVariant) : CVariant × CVariant := push_back_move self variant

/-- The member `clear()`. -/
def clear (self : CVariant) : CVariant :=
  match self with
  | object _ => object []
  | array _ => array []
  | string _ => string ""
  | wstring _ => wstring ""
  | _ => self

/-- The member `erase(const std::string &key)`. -/
def erase_key (self : CVariant) (key : String) : CVariant :=
  match self with
  | null => object []
  | object m => object (map_erase m key)
  | _ => self

/-- The member `erase(unsigned int position)`. -/
def erase_position (self : CVariant) (position : Nat) : CVariant :=
  let self := if self.m_type == .VariantTypeNull then array [] else self
  match self with
  | array a => if position < size (array a) then array (a.eraseIdx position) else array a
  | _ => self

/-! ## Element access -/

/-- The object which a reference returned by `operator[]` designates: an entry
of the map of `*this`, an element of the array of `*this`, or the static
object `ConstNullVariant`. -/
inductive Slot where
  | member (key : String)
  | element (position : Nat)
  | sentinel
deriving DecidableEq, Repr

/-- The member `operator[](const std::string& key) &`: the new value of `*this`
and the object the returned reference designates. -/
def operator_index_key (self : CVariant) (key : String) : CVariant × Slot :=
  let self := if self.m_type == .VariantTypeNull then object [] else self
  match self with
  | object m => (object (map_index m key), .member key)
  | _ => (self, .sentinel)

/-- The member `operator[](const std::string& key) const&`. -/
def operator_index_key_const (self : CVariant) (key : String) : Slot :=
  match self with
  | object m => if (map_find m key).isSome then .member key else .sentinel
  | _ => .sentinel

/-- The members `operator[](unsigned int position) &` and
`operator[](unsigned int position) const&`, which have the same body. -/
def operator_index_position (self : CVariant) (position : Nat) : Except Exception Slot :=
  match self with
  | array a =>
    if size (array a) > position then (vector_at a position).map Slot.element
    else .ok .sentinel
  | _ => .ok .sentinel

/-- The member `operator[](unsigned int position) &&`, which returns by value:
the new value of `*this` and the returned variant.  The result is move
constructed from the element, or copy constructed from the static object, whose
current value is `sentinel`. -/
def operator_index_position_rvalue (sentinel self : CVariant) (position : Nat) :
    Except Exception (CVariant × CVariant) :=
  match self with
  | array a =>
    if size (array a) > position then
      (vector_at a position).map fun n =>
        (array (a.set n (move_construct (a.getD n null)).2), (move_construct (a.getD n null)).1)
    else .ok (self, copy_construct sentinel)
  | _ => .ok (self, copy_construct sentinel)

/-- The value of the object a slot designates, given the value `sentinel` of
the static object and the value `self` of `*this`. -/
def Slot.read (sentinel self : CVariant) : Slot → Option CVariant
  | .member key => match self with
    | object m => map_find m key
    | _ => none
  | .element position => match self with
    | array a => a[position]?
    | _ => none
  | .sentinel => some sentinel

end CVariant

/-! ## Objects and their identity -/

/-- The address of a complete `CVariant` object (a variable or the static
sentinel). -/
abbrev Addr := Nat

/-- The state of a program: the value of the complete object at every address.
Complete objects own their payload exclusively, so they do not overlap. -/
abbrev Store := Addr → CVariant

/-- The address of the static member `CVariant::ConstNullVariant`. -/
def ConstNullVariant : Addr := 0

/-- An lvalue of type `CVariant`: a complete object, or an entry or element of
the payload of one. -/
inductive Ref where
  | object (a : Addr)
  | member (a : Addr) (key : String)
  | element (a : Addr) (position : Nat)
deriving DecidableEq, Repr

/-- The complete object an lvalue is (part of). -/
def Ref.root : Ref → Addr
  | .object a => a
  | .member a _ => a
  | .element a _ => a

/-- The lvalue which a slot of the object at `this` is. -/
def CVariant.Slot.toRef (this : Addr) : CVariant.Slot → Ref
  | .member key => .member this key
  | .element position => .element this position
  | .sentinel => .object ConstNullVariant

namespace Store

/-- The store in which the static sentinel has the value it is initialised
with (`CVariant::ConstNullVariant = CVariant::VariantTypeConstNull`) and
every other object is default constructed. -/
def initial : Store := fun a =>
  if a = ConstNullVariant then CVariant.ofType .VariantTypeConstNull else CVariant.default

/-- The value of an lvalue, if the entry or element exists. -/
def read (st : Store) : Ref → Option CVariant
  | .object a => some (st a)
  | .member a key => match st a with
    | .object m => CVariant.map_find m key
    | _ => none
  | .element a position => match st a with
    | .array xs => xs[position]?
    | _ => none

/-- The store after a write through an lvalue. -/
def write (st : Store) : Ref → CVariant → Store
  | .object a, v => Function.update st a v
  | .member a key, v => match st a with
    | .object m => Function.update st a (.object (CVariant.map_set m key v))
    | _ => st
  | .element a position, v => match st a with
    | .array xs => Function.update st a (.array (xs.set position v))
    | _ => st

/-- A call `r.f(...)` of a member function whose effect is the change `f` of
`*this`. -/
def call (st : Store) (r : Ref) (f : CVariant → CVariant) : Store :=
  match st.read r with
  | some v => st.write r (f v)
  | none => st

/-- The statement `this = rhs` (copy assignment).  The two lvalues are either
the same or parts of separate complete objects; an assignment between an
object and one of its own parts has no defined behaviour in C++ and is not
described. -/
def operator_assign (st : Store) (this rhs : Ref) : Store :=
  match st.read this, st.read rhs with
  | some t, some r => st.write this (CVariant.operator_assign t r (decide (this = rhs)))
  | _, _ => st

/-- The statement `this = std::move(rhs)` (move assignment), under the same
proviso. -/
def operator_assign_move (st : Store) (this rhs : Ref) : Store :=
  match st.read this, st.read rhs with
  | some t, some r =>
    let res := CVariant.operator_assign_move t r (decide (this = rhs))
    (st.write rhs res.2).write this res.1
  | _, _ => st

/-- The declaration `CVariant a(b);` of a new object at address `a`. -/
def copy_construct (st : Store) (a : Addr) (variant : Ref) : Store :=
  match st.read variant with
  | some v => Function.update st a (CVariant.copy_construct v)
  | none => st

/-- The declaration `CVariant a(std::move(b));` of a new object at address `a`. -/
def move_construct (st : Store) (a : Addr) (rhs : Ref) : Store :=
  match st.read rhs with
  | some v =>
    Function.update (st.write rhs (CVariant.move_construct v).2) a (CVariant.move_construct v).1
  | none => st

/-- The expression `v[key]` on the non-const object at `this`: the store after
it and the lvalue it denotes. -/
def index_key (st : Store) (this : Addr) (key : String) : Store × Ref :=
  (Function.update st this (CVariant.operator_index_key (st this) key).1,
    (CVariant.operator_index_key (st this) key).2.toRef this)

/-- The expression `v[key]` on the const object at `this`: the store after it
(a const member changes nothing) and the lvalue it denotes. -/
def index_key_const (st : Store) (this : Addr) (key : String) : Store × Ref :=
  (st, (CVariant.operator_index_key_const (st this) key).toRef this)

/-- The expression `v[position]` on the object at `this`, const or not: the
store after it (the body assigns nothing) and the lvalue it denotes, or the
exception of `at`. -/
def index_position (st : Store) (this : Addr) (position : Nat) :
    Except CVariant.Exception (Store × Ref) :=
  (CVariant.operator_index_position (st this) position).map
    fun (slot : CVariant.Slot) => (st, slot.toRef this)

/-- The expression `std::move(v)[position]` on the object at `this`: the store
after it and the variant returned by value, or the exception of `at`. -/
def index_position_rvalue (st : Store) (this : Addr) (position : Nat) :
    Except CVariant.Exception (Store × CVariant) :=
  (CVariant.operator_index_position_rvalue (st ConstNullVariant) (st this) position).map
    fun (res : CVariant × CVariant) => (Function.update st this res.1, res.2)

/-- The statement `v[key] = x` for the object `v` at `this` and the object `x`
at `rhs`. -/
def assign_key (st : Store) (this : Addr) (key : String) (rhs : Ref) : Store :=
  (st.index_key this key).1.operator_assign (st.index_key this key).2 rhs

/-- The sentinel has the tag it is initialised with. -/
def sentinelIntact (st : Store) : Prop :=
  (st ConstNullVariant).m_type = .VariantTypeConstNull

instance (st : Store) : Decidable (sentinelIntact st) := by
  unfold sentinelIntact
  infer_instance

/-- The statement `v.push_back(std::move(x))` for the objects at `this` and
`variant`. -/
def push_back_move (st : Store) (this variant : Addr) : Store :=
  Function.update
    (Function.update st this (CVariant.push_back_move (st this) (st variant)).1)
    variant (CVariant.push_back_move (st this) (st variant)).2

end Store

/-- A statement which calls a mutating member of a `CVariant` object `v`; the
arguments are other objects, named by their addresses. -/
inductive Call where
  /-- `v = x` -/
  | assign (rhs : Addr)
  /-- `v = std::move(x)` -/
  | assign_move (rhs : Addr)
  /-- `v.push_back(x)` -/
  | push_back (variant : Addr)
  /-- `v.push_back(std::move(x))` -/
  | push_back_move (variant : Addr)
  /-- `v.append(x)` -/
  | append (variant : Addr)
  /-- `v.append(std::move(x))` -/
  | append_move (variant : Addr)
  /-- `v.reserve(length)` -/
  | reserve (length : Nat)
  /-- `v.erase(key)` -/
  | erase_key (key : String)
  /-- `v.erase(position)` -/
  | erase_position (position : Nat)
  /-- `v.clear()` -/
  | clear
  /-- `v[key]`, non-const -/
  | index_key (key : String)
  /-- `v[position]`, non-const -/
  | index_position (position : Nat)
  /-- `v[key] = x` -/
  | assign_key (key : String) (rhs : Addr)
deriving DecidableEq, Repr

/-- The object a statement moves from, if it is a move. -/
def Call.moveSource : Call → Option Addr
  | .assign_move rhs => some rhs
  | .push_back_move variant => some variant
  | .append_move variant => some variant
  | _ => none

namespace Store

/-- The store after a statement on the object at `this`. -/
def exec (st : Store) (this : Addr) : Call → Store
  | .assign rhs => st.operator_assign (.object this) (.object rhs)
  | .assign_move rhs => st.operator_assign_move (.object this) (.object rhs)
  | .push_back variant =>
    st.call (.object this) (fun v => CVariant.push_back v (st variant) (decide (variant = this)))
  | .push_back_move variant => st.push_back_move this variant
  | .append variant =>
    st.call (.object this) (fun v => CVariant.append v (st variant) (decide (variant = this)))
  | .append_move variant => st.push_back_move this variant
  | .reserve length => st.call (.object this) (fun v => CVariant.reserve v length)
  | .erase_key key => st.call (.object this) (fun v => CVariant.erase_key v key)
  | .erase_position position =>
    st.call (.object this) (fun v => CVariant.erase_position v position)
  | .clear => st.call (.object this) CVariant.clear
  | .index_key key => (st.index_key this key).1
  | .index_position _ => st
  | .assign_key key rhs => st.assign_key this key (.object rhs)

end Store

/-- A store for examples: a nested array at address 1, an object at address 2,
a string at address 3, an integer at address 4, the sentinel at its address and
default-constructed variants elsewhere. -/
def exampleStore : Store :=
  Function.update
    (Function.update
      (Function.update
        (Function.update Store.initial 1
          (.array [.integer 1, .object [("k", .null)]]))
        2 (.object [("a", .array [.boolean true]), ("b", .string "x")]))
      3 (.string "text"))
    4 (.integer 7)

/-! ## Further members -/

namespace CVariant

/-- The member `operator[](const std::string& key) &&`, which returns by value:
the new value of `*this` and the returned variant.  For an Object the entry is
obtained with `(*m_data.map)[key]`, which inserts an absent key, and the result
is move constructed from it; otherwise the result is copy constructed from the
static object, whose current value is `sentinel`. -/
def operator_index_key_rvalue (sentinel self : CVariant) (key : String) :
    CVariant × CVariant :=
  match self with
  | object m =>
    (object (map_set (map_index m key) key
        (move_construct ((map_find (map_index m key) key).getD null)).2),
      (move_construct ((map_find (map_index m key) key).getD null)).1)
  | _ => (self, copy_construct sentinel)

/-- The number of entries of an Object, of elements of an Array, of characters
of a String or WideString; 0 for the other tags. -/
def count : CVariant → Nat
  | object m => m.length
  | array a => a.length
  | string s => s.length
  | wstring w => w.length
  | _ => 0

/-- A narrow string of `2 ^ 32` characters. -/
def longText : String := String.mk (List.replicate (2 ^ 32) 'a')

end CVariant

namespace Store

/-- The expression `std::move(v)[key]` on the object at `this`: the store after
it and the variant returned by value. -/
def index_key_rvalue (st : Store) (this : Addr) (key : String) : Store × CVariant :=
  (Function.update st this
      (CVariant.operator_index_key_rvalue (st ConstNullVariant) (st this) key).1,
    (CVariant.operator_index_key_rvalue (st ConstNullVariant) (st this) key).2)

/-- The statement `a.swap(b)` for the objects at `this` and `rhs`: the tag and
the union of `*this` are saved, `*this` takes those of `rhs`, and `rhs` takes
the saved ones. -/
def swap (st : Store) (this rhs : Addr) : Store :=
  Function.update (Function.update st this (st rhs)) rhs (st this)

end Store

/-! ## The C library

The functions which `CRuntime` leaves open, as the C standard describes them
in the "C" locale with IEEE-754 doubles rounded to nearest. -/

namespace Double

/-- The double of the opposite sign. -/
def negate (d : Double) : Double := ⟨(d.bits + 2 ^ 63) % 2 ^ 64⟩

/-- The position of the leading bit of `n` among at most `fuel` bits. -/
def floorLog2Fuel : Nat → Nat → Nat
  | 0, _ => 0
  | fuel + 1, n => if n < 2 then 0 else floorLog2Fuel fuel (n / 2) + 1

/-- The position of the leading bit of a positive number, the integer part of
its binary logarithm; 0 for 0. -/
def floorLog2 (n : Nat) : Nat := floorLog2Fuel n n

/-- The quotient `num / den` rounded to the nearest integer, a tie to the even
one. -/
def roundHalfEven (num den : Nat) : Nat :=
  if 2 * (num % den) < den then num / den
  else if den < 2 * (num % den) then num / den + 1
  else if num / den % 2 = 0 then num / den
  else num / den + 1

/-- The double nearest to the rational `num / den` (`den` positive), a tie to
the one with even significand; infinity when the rounded value is out of
range.  The quotient is counted in units of `2 ^ (-1074)`, `s` is the number of
low bits which a 53-bit significand cannot hold. -/
def ofRat (num den : Nat) : Double :=
  let n := num * 2 ^ 1074
  let k := floorLog2 n - floorLog2 den
  let e := if den * 2 ^ k ≤ n then k else k - 1
  let s := e - 52
  ⟨min (s * 2 ^ 52 + roundHalfEven n (den * 2 ^ s)) (2047 * 2 ^ 52)⟩

/-- The conversion `(double)n` of a natural number. -/
def ofNat (n : Nat) : Double := ofRat n 1

/-- The conversion `(double)i` of an integer. -/
def ofInt (i : Int) : Double := if i < 0 then negate (ofNat i.natAbs) else ofNat i.natAbs

/-- The positive infinity. -/
def infinity : Double := ⟨2047 * 2 ^ 52⟩

/-- The integer part of a finite double (rounding toward zero); `none` for an
infinity or a NaN. -/
def truncate (d : Double) : Option Int :=
  if d.exponent = 2047 then none
  else
    let magnitude : Nat :=
      if d.exponent = 0 then 0
      else if 1075 ≤ d.exponent then (2 ^ 52 + d.fraction) * 2 ^ (d.exponent - 1075)
      else (2 ^ 52 + d.fraction) / 2 ^ (1075 - d.exponent)
    some (if d.sign = 1 then -(magnitude : Int) else magnitude)

/-- The text which `printf("%f")` gives: the value rounded to six decimals. -/
def toFixed (d : Double) : String :=
  let sign := if d.sign = 1 then "-" else ""
  if d.exponent = 2047 then sign ++ (if d.fraction = 0 then "inf" else "nan")
  else
    let m := if d.exponent = 0 then d.fraction else 2 ^ 52 + d.fraction
    let e := max d.exponent 1
    let micro :=
      if 1075 ≤ e then m * 2 ^ (e - 1075) * 10 ^ 6 else roundHalfEven (m * 10 ^ 6) (2 ^ (1075 - e))
    let decimals := Nat.toDigits 10 (micro % 10 ^ 6)
    sign ++ toString (micro / 10 ^ 6) ++ "." ++
      String.mk (List.replicate (6 - decimals.length) '0' ++ decimals)

end Double

namespace libc

/-- The function `isspace`: the space and the controls from horizontal tab to
carriage return. -/
def isspace (c : Char) : Bool := c.toNat = 32 || (9 ≤ c.toNat && c.toNat ≤ 13)

/-- The function `tolower`: a capital letter becomes the small one. -/
def tolower (c : Char) : Char :=
  if 65 ≤ c.toNat ∧ c.toNat ≤ 90 then Char.ofNat (c.toNat + 32) else c

/-- The value of a character as a digit: `0` to `9`, then the letters of
either case from ten on; 36 for a character that is a digit in no base. -/
def digitValue (c : Char) : Nat :=
  if 48 ≤ c.toNat ∧ c.toNat ≤ 57 then c.toNat - 48
  else if 97 ≤ c.toNat ∧ c.toNat ≤ 122 then c.toNat - 87
  else if 65 ≤ c.toNat ∧ c.toNat ≤ 90 then c.toNat - 55
  else 36

/-- Whether a character is a digit of the base. -/
def isDigitIn (base : Nat) (c : Char) : Bool := digitValue c < base

/-- The number which a run of digits denotes in the base. -/
def digitsValue (base : Nat) (digits : List Char) : Nat :=
  digits.foldl (fun acc c => acc * base + digitValue c) 0

/-- Whether the text starts with a minus sign. -/
def isMinus (s : List Char) : Bool := s.head? == some '-'

/-- The length of the optional sign at the start of the text. -/
def signLength (s : List Char) : Nat :=
  if s.head? == some '-' || s.head? == some '+' then 1 else 0

/-- Whether the text starts with `0x` or `0X`. -/
def startsHex (s : List Char) : Bool :=
  s.head? == some '0' && ((s.drop 1).head? == some 'x' || (s.drop 1).head? == some 'X')

/-- The subject sequence of an integer with base 0, after the white space and
the sign: the number it denotes and its length.  `0x` with a hexadecimal digit
after it starts a hexadecimal constant, another leading `0` an octal one. -/
def integerSubject (s : List Char) : Option (Nat × Nat) :=
  if startsHex s && ((s.drop 2).head?.map (isDigitIn 16)).getD false then
    some (digitsValue 16 ((s.drop 2).takeWhile (isDigitIn 16)),
      2 + ((s.drop 2).takeWhile (isDigitIn 16)).length)
  else
    let base := if s.head? == some '0' then 8 else 10
    if (s.takeWhile (isDigitIn base)).isEmpty then none
    else some (digitsValue base (s.takeWhile (isDigitIn base)),
      (s.takeWhile (isDigitIn base)).length)

/-- The function `strtoll(str, &end, 0)`: the value, clamped to the range of
`long long`, and the offset of `end`; zero and offset 0 when no conversion can
be made. -/
def strtoll (str : List Char) : Int × Nat :=
  let s := str.dropWhile isspace
  match integerSubject (s.drop (signLength s)) with
  | none => (0, 0)
  | some (magnitude, length) =>
    (if isMinus s then max (-(magnitude : Int)) (-(2 ^ 63)) else min (magnitude : Int) (2 ^ 63 - 1),
      (str.length - s.length) + signLength s + length)

/-- The function `strtoull(str, &end, 0)`: a value above the range gives
`ULLONG_MAX`, a minus sign negates in the unsigned type. -/
def strtoull (str : List Char) : Nat × Nat :=
  let s := str.dropWhile isspace
  match integerSubject (s.drop (signLength s)) with
  | none => (0, 0)
  | some (magnitude, length) =>
    (if 2 ^ 64 ≤ magnitude then 2 ^ 64 - 1
      else if isMinus s then (2 ^ 64 - magnitude) % 2 ^ 64 else magnitude,
      (str.length - s.length) + signLength s + length)

/-- The exponent part of a floating constant, introduced by the letter
`lower` or `upper`: whether it is negative, its value and its length; of length
0 when the text has none. -/
def exponentPart (lower upper : Char) (s : List Char) : Bool × Nat × Nat :=
  if (s.head? == some lower || s.head? == some upper) &&
      !((s.drop (1 + signLength (s.drop 1))).takeWhile (isDigitIn 10)).isEmpty then
    (isMinus (s.drop 1),
      digitsValue 10 ((s.drop (1 + signLength (s.drop 1))).takeWhile (isDigitIn 10)),
      1 + signLength (s.drop 1) +
        ((s.drop (1 + signLength (s.drop 1))).takeWhile (isDigitIn 10)).length)
  else (false, 0, 0)

/-- A floating constant in the base 10 or 16 without its prefix: digits with an
optional point among them, then an optional exponent, a power of
`radix`.  The result is the value and the length. -/
def floatConstant (base radix : Nat) (lower upper : Char) (s : List Char) :
    Option (Double × Nat) :=
  let whole := s.takeWhile (isDigitIn base)
  let point := (s.drop whole.length).head? == some '.'
  let part := if point then (s.drop (whole.length + 1)).takeWhile (isDigitIn base) else []
  if whole.isEmpty && part.isEmpty then none
  else
    let length := whole.length + (if point then 1 else 0) + part.length
    let (negative, exponent, exponentLength) := exponentPart lower upper (s.drop length)
    let num := digitsValue base (whole ++ part)
    let den := base ^ part.length
    some (if negative then Double.ofRat num (den * radix ^ exponent)
        else Double.ofRat (num * radix ^ exponent) den,
      length + exponentLength)

/-- The length of the optional `(n-char-sequence)` after `NAN`. -/
def nanSequence (s : List Char) : Nat :=
  let inner := (s.drop 1).takeWhile (fun c => isDigitIn 36 c || c == '_')
  if s.head? == some '(' && (s.drop (1 + inner.length)).head? == some ')' then inner.length + 2
  else 0

/-- The subject sequence of a floating-point number after the white space and
the sign: `INF`, `INFINITY` or `NAN` in any case, a hexadecimal constant with a
binary exponent, or a decimal constant. -/
def floatSubject (s : List Char) : Option (Double × Nat) :=
  if (s.take 8).map tolower = ['i', 'n', 'f', 'i', 'n', 'i', 't', 'y'] then
    some (Double.infinity, 8)
  else if (s.take 3).map tolower = ['i', 'n', 'f'] then some (Double.infinity, 3)
  else if (s.take 3).map tolower = ['n', 'a', 'n'] then
    some (Double.nan, 3 + nanSequence (s.drop 3))
  else if startsHex s && (floatConstant 16 2 'p' 'P' (s.drop 2)).isSome then
    (floatConstant 16 2 'p' 'P' (s.drop 2)).map (fun r => (r.1, 2 + r.2))
  else floatConstant 10 10 'e' 'E' s

/-- The function `strtod(str, &end)`: the double nearest to the number, and
the offset of `end`; zero and offset 0 when no conversion can be made. -/
def strtod (str : List Char) : Double × Nat :=
  let s := str.dropWhile isspace
  match floatSubject (s.drop (signLength s)) with
  | none => (Double.zero, 0)
  | some (magnitude, length) =>
    (if isMinus s then magnitude.negate else magnitude,
      (str.length - s.length) + signLength s + length)

/-- The cast `(int64_t)d` on x86-64: the integer part when it is in range,
`INT64_MIN` otherwise. -/
def doubleToInt64 (d : Double) : Int :=
  match d.truncate with
  | some t => if -(2 ^ 63) ≤ t ∧ t < 2 ^ 63 then t else -(2 ^ 63)
  | none => -(2 ^ 63)

/-- The cast `(uint64_t)d` on x86-64: the integer part when it is in range,
the wrapped value of a negative one down to `INT64_MIN`. -/
def doubleToUInt64 (d : Double) : Nat :=
  match d.truncate with
  | some t =>
    if 0 ≤ t ∧ t < 2 ^ 64 then t.toNat
    else if -(2 ^ 63) ≤ t ∧ t < 0 then (t + 2 ^ 64).toNat
    else if t < 0 then 2 ^ 63 else 0
  | none => if d.sign = 1 || d.isNaN then 2 ^ 63 else 0

/-- A runtime made of these functions; the wide functions read the same
characters as the narrow ones. -/
def runtime : CRuntime where
  strtoll := strtoll
  strtoull := strtoull
  wcstoll := strtoll
  wcstoull := strtoull
  strtod := strtod
  wcstod := strtod
  doubleToInt64 := doubleToInt64
  doubleToUInt64 := doubleToUInt64
  int64ToDouble := Double.ofInt
  uint64ToDouble := Double.ofNat
  doubleToString := Double.toFixed
  doubleToWString := Double.toFixed

end libc

/-- A build for Linux: `strtoll` is a function and no macro, neither
`TARGET_WINDOWS` nor `TARGET_DARWIN` is defined. -/
def BuildConfig.linux : BuildConfig := ⟨false, false, false⟩

/-- A build for macOS: `TARGET_DARWIN` is defined. -/
def BuildConfig.darwin : BuildConfig := ⟨false, false, true⟩

/-- The parsers of the runtime leave `end` inside the C string `text`: none
reports more characters consumed than the text has. -/
def CRuntime.EndsInside (rt : CRuntime) (text : List Char) : Prop :=
  (rt.strtoll text).2 ≤ text.length ∧ (rt.strtoull text).2 ≤ text.length ∧
  (rt.wcstoll text).2 ≤ text.length ∧ (rt.wcstoull text).2 ≤ text.length ∧
  (rt.strtod text).2 ≤ text.length ∧ (rt.wcstod text).2 ≤ text.length

instance (rt : CRuntime) (text : List Char) : Decidable (rt.EndsInside text) := by
  unfold CRuntime.EndsInside
  infer_instance

namespace libc

/-- Whether a character can continue a numeric token after decimal digits: a
digit, the point, the marker of an exponent, or the `x` of a hexadecimal
constant. -/
def continuesNumber (c : Char) : Bool :=
  isDigitIn 10 c || c == '.' || c == 'e' || c == 'E' || c == 'x' || c == 'X'

end libc

/-- The function `strtod` of the runtime reads a decimal integer as the C
standard says and rounds it correctly: on white space, an optional sign and
decimal digits, followed by nothing or by a character that cannot continue the
number, it returns the double nearest to the integer and leaves `end` after
the last digit. -/
def CRuntime.ReadsIntegers (rt : CRuntime) : Prop :=
  ∀ ws sign digits rest : List Char,
    (∀ c ∈ ws, libc.isspace c = true) → (sign = [] ∨ sign = ['-'] ∨ sign = ['+']) →
    digits ≠ [] → (∀ c ∈ digits, libc.isDigitIn 10 c = true) →
    (∀ c ∈ rest.head?, libc.continuesNumber c = false) →
    rt.strtod (ws ++ sign ++ digits ++ rest) =
      (if sign = ['-'] then (Double.ofNat (libc.digitsValue 10 digits)).negate
        else Double.ofNat (libc.digitsValue 10 digits), (ws ++ sign ++ digits).length)

/-- The cast `(int64_t)d` of the runtime gives the integer part of a double
whenever that lies in the range of `int64_t`, which is where the language
defines the cast. -/
def CRuntime.TruncatesInRange (rt : CRuntime) : Prop :=
  ∀ (d : Double) (t : Int), d.truncate = some t → -(2 ^ 63) ≤ t → t < 2 ^ 63 →
    rt.doubleToInt64 d = t

/-- The integer which an optional sign and decimal digits denote. -/
def literalValue (sign digits : List Char) : Int :=
  if sign = ['-'] then -(libc.digitsValue 10 digits : Int) else libc.digitsValue 10 digits

namespace CVariant

mutual
/-- A Double occurs in the variant: the variant itself, an element of an array
or a value of an object, at any depth. -/
def containsDouble : CVariant → Bool
  | dvalue _ => true
  | array a => containsDoubleArray a
  | object m => containsDoubleMap m
  | _ => false
/-- A Double occurs in an element. -/
def containsDoubleArray : VariantArray → Bool
  | [] => false
  | x :: xs => containsDouble x || containsDoubleArray xs
/-- A Double occurs in a mapped value. -/
def containsDoubleMap : VariantMap → Bool
  | [] => false
  | (_, x) :: m => containsDouble x || containsDoubleMap m
end

end CVariant

/-- The store after a sequence of assignments to the lvalue `this`, each one a
copy assignment (`false`) or a move assignment (`true`) from an lvalue. -/
def Store.assignAll (st : Store) (this : Ref) (xs : List (Bool × Ref)) : Store :=
  xs.foldl (fun s (x : Bool × Ref) =>
    if x.1 then s.operator_assign_move this x.2 else s.operator_assign this x.2) st

/-! # Theorems -/

namespace CVariant

/-- C1. Matching-accessor round trip: a variant built from an `int64_t`, a
`uint64_t`, a `bool`, a narrow string or a wide string gives that value back
through `asInteger`, `asUnsignedInteger`, `asBoolean`, `asString` (both
overloads) and `asWideString` (both overloads) respectively, whatever the
fallback, the runtime and the build configuration. -/
theorem matching_accessor_round_trip (rt : CRuntime) (cfg : BuildConfig)
    (i fbi : Int) (u fbu : Nat) (b fbb : Bool) (s fbs w fbw : String) :
    asInteger rt cfg (ofInt64 i) fbi = i ∧
    asUnsignedInteger rt cfg (ofUInt64 u) fbu = u ∧
    asBoolean (ofBool b) fbb = b ∧
    asString rt (ofString s) fbs = s ∧
    asString_rvalue rt (ofString s) fbs = s ∧
    asWideString rt (ofWString w) fbw = w ∧
    asWideString_rvalue rt (ofWString w) fbw = w :=
  ⟨rfl, rfl, rfl, rfl, rfl, rfl, rfl⟩

/-! ## Equality -/

theorem vector_equal_get (a b : VariantArray) (h : vector_equal a b = true) :
    ∀ (i : Nat) x y, a[i]? = some x → b[i]? = some y → operator_eq x y = true := by
  induction a generalizing b with
  | nil => intro i x y hx; simp at hx
  | cons p ps ih =>
    cases b with
    | nil => intro i x y _ hy; simp at hy
    | cons q qs =>
      simp only [vector_equal, Bool.and_eq_true] at h
      intro i x y hx hy
      cases i with
      | zero =>
        simp only [List.getElem?_cons_zero, Option.some.injEq] at hx hy
        subst hx; subst hy; exact h.1
      | succ n =>
        simp only [List.getElem?_cons_succ] at hx hy
        exact ih qs h.2 n x y hx hy

theorem map_equal_find (m n : VariantMap) (hl : m.length = n.length)
    (h : map_equal m n = true) (key : String) :
    (map_find m key).isSome = (map_find n key).isSome ∧
      ∀ x y, map_find m key = some x → map_find n key = some y → operator_eq x y = true := by
  induction m generalizing n with
  | nil =>
    cases n with
    | nil => simp [map_find]
    | cons q qs => simp at hl
  | cons p ps ih =>
    cases n with
    | nil => simp at hl
    | cons q qs =>
      obtain ⟨k, x⟩ := p
      obtain ⟨l, y⟩ := q
      simp only [map_equal, Bool.and_eq_true, beq_iff_eq] at h
      obtain ⟨⟨hk, hxy⟩, hrest⟩ := h
      subst hk
      simp only [List.length_cons, Nat.add_right_cancel_iff] at hl
      by_cases hkey : k = key
      · simp only [map_find, hkey, if_true, Option.isSome_some, Option.some.injEq, true_and]
        intro x' y' hx hy
        subst hx; subst hy; exact hxy
      · simp only [map_find, hkey, if_false]
        exact ih qs hl hrest

/-- C2. Equality is sound and tag-sensitive: when `a == b` is true the tags of
`a` and `b` are the same and their payloads are equal by value (same integer,
same boolean, same text, arrays of equal length with pairwise `==` elements,
objects with the same keys and pairwise `==` values); hence two variants with
different tags are never equal. -/
theorem operator_eq_sound (a b : CVariant) :
    (operator_eq a b = true → a.m_type = b.m_type ∧ PayloadsEqual a b) ∧
    (a.m_type ≠ b.m_type → operator_eq a b = false) := by
  have key : operator_eq a b = true → a.m_type = b.m_type ∧ PayloadsEqual a b := by
    intro h
    cases a <;> cases b <;> simp only [operator_eq, Bool.false_eq_true] at h
    case integer.integer i j => simpa [m_type, PayloadsEqual] using h
    case unsignedinteger.unsignedinteger i j => simpa [m_type, PayloadsEqual] using h
    case boolean.boolean i j => simpa [m_type, PayloadsEqual] using h
    case dvalue.dvalue i j => simpa [m_type, PayloadsEqual] using h
    case string.string i j => simpa [m_type, PayloadsEqual] using h
    case wstring.wstring i j => simpa [m_type, PayloadsEqual] using h
    case array.array xs ys =>
      simp only [Bool.and_eq_true, beq_iff_eq] at h
      exact ⟨rfl, h.1, vector_equal_get xs ys h.2⟩
    case object.object m n =>
      simp only [Bool.and_eq_true, beq_iff_eq] at h
      refine ⟨rfl, fun key => (map_equal_find m n h.1 h.2 key).1, fun key x y hx hy => ?_⟩
      exact (map_equal_find m n h.1 h.2 key).2 x y hx hy
  refine ⟨key, fun hne => ?_⟩
  cases hab : operator_eq a b
  · rfl
  · exact absurd (key hab).1 hne

/-- C2, at concrete inputs: two equal objects satisfy the conclusion, and the
variants Integer 0, UnsignedInteger 0, Boolean false, Null and ConstNull are
pairwise unequal. -/
theorem operator_eq_sound_witness :
    (operator_eq (object [("a", array [integer 1, string "x"])])
        (object [("a", array [integer 1, string "x"])]) = true ∧
      PayloadsEqual (object [("a", array [integer 1, string "x"])])
        (object [("a", array [integer 1, string "x"])])) ∧
    operator_eq (ofInt64 0) (ofUInt64 0) = false ∧
    operator_eq (ofInt64 0) (ofBool false) = false ∧
    operator_eq (ofUInt64 0) (ofBool false) = false ∧
    operator_eq default (ofType .VariantTypeConstNull) = false :=
  ⟨⟨rfl, ((operator_eq_sound (object [("a", array [integer 1, string "x"])])
      (object [("a", array [integer 1, string "x"])])).1 rfl).2⟩,
    (operator_eq_sound (ofInt64 0) (ofUInt64 0)).2 (by decide),
    (operator_eq_sound (ofInt64 0) (ofBool false)).2 (by decide),
    (operator_eq_sound (ofUInt64 0) (ofBool false)).2 (by decide),
    (operator_eq_sound default (ofType .VariantTypeConstNull)).2 (by decide)⟩

theorem key_less_iff (a b : String) : key_less a b ↔ a < b := by
  unfold key_less
  exact String.lt_iff_toList_lt.symm

theorem key_less_irrefl (a : String) : ¬ key_less a a := by
  rw [key_less_iff]; exact lt_irrefl a

theorem key_less_asymm (a b : String) : key_less a b → ¬ key_less b a := by
  rw [key_less_iff, key_less_iff]; exact lt_asymm

theorem key_less_trans (a b c : String) : key_less a b → key_less b c → key_less a c := by
  rw [key_less_iff, key_less_iff, key_less_iff]; exact lt_trans

theorem key_less_total (a b : String) : key_less a b ∨ a = b ∨ key_less b a := by
  rw [key_less_iff, key_less_iff]; exact lt_trichotomy a b

theorem map_find_isSome_mem (m : VariantMap) (key : String)
    (h : (map_find m key).isSome = true) : ∃ e ∈ m, e.1 = key := by
  induction m with
  | nil => simp [map_find] at h
  | cons p ps ih =>
    obtain ⟨k, x⟩ := p
    by_cases hk : k = key
    · exact ⟨(k, x), List.mem_cons_self _ _, hk⟩
    · simp only [map_find, hk, if_false] at h
      obtain ⟨e, he, hke⟩ := ih h
      exact ⟨e, List.mem_cons_of_mem _ he, hke⟩

theorem map_find_head_absent (k : String) (x : CVariant) (m : VariantMap)
    (h : keysAscending ((k, x) :: m)) : map_find m k = none := by
  cases hf : map_find m k with
  | none => rfl
  | some y =>
    have hs : (map_find m k).isSome = true := by simp [hf]
    obtain ⟨e, he, hke⟩ := map_find_isSome_mem m k hs
    have hlt : key_less k e.1 := (List.pairwise_cons.mp h).1 e he
    rw [hke] at hlt
    exact absurd hlt (key_less_irrefl k)

theorem map_equal_of_find (m n : VariantMap) (hm : keysAscending m) (hn : keysAscending n)
    (hk : ∀ key, (map_find m key).isSome = (map_find n key).isSome)
    (hv : ∀ key x y, map_find m key = some x → map_find n key = some y →
      operator_eq x y = true) :
    m.length = n.length ∧ map_equal m n = true := by
  induction m generalizing n with
  | nil =>
    cases n with
    | nil => simp [map_equal]
    | cons q qs =>
      obtain ⟨l, y⟩ := q
      have := hk l
      simp [map_find] at this
  | cons p ps ih =>
    obtain ⟨k, x⟩ := p
    cases n with
    | nil =>
      have := hk k
      simp [map_find] at this
    | cons q qs =>
      obtain ⟨l, y⟩ := q
      have hkl : k = l := by
        by_contra hne
        have h1 := hk k
        have h2 := hk l
        have hne' : ¬ l = k := fun h => hne h.symm
        simp only [map_find, if_true, hne, hne', if_false, Option.isSome_some] at h1 h2
        obtain ⟨e, he, hke⟩ := map_find_isSome_mem qs k h1.symm
        obtain ⟨f, hf, hlf⟩ := map_find_isSome_mem ps l h2
        have hlk : key_less l k := by
          have := (List.pairwise_cons.mp hn).1 e he
          rwa [hke] at this
        have hkl' : key_less k l := by
          have := (List.pairwise_cons.mp hm).1 f hf
          rwa [hlf] at this
        exact key_less_asymm _ _ hlk hkl'
      subst hkl
      have hxy : operator_eq x y = true := hv k x y (by simp [map_find]) (by simp [map_find])
      have hps : map_find ps k = none := map_find_head_absent k x ps hm
      have hqs : map_find qs k = none := map_find_head_absent k y qs hn
      have htail := ih qs (List.pairwise_cons.mp hm).2 (List.pairwise_cons.mp hn).2
        (fun key => by
          by_cases hkey : k = key
          · subst hkey; rw [hps, hqs]
          · have := hk key
            simpa only [map_find, hkey, if_false] using this)
        (fun key x' y' hx hy => by
          have hkey : ¬ k = key := by
            intro h; subst h; rw [hps] at hx; exact Option.noConfusion hx
          exact hv key x' y' (by simpa only [map_find, hkey, if_false] using hx)
            (by simpa only [map_find, hkey, if_false] using hy))
      refine ⟨by simp [htail.1], ?_⟩
      simp [map_equal, hxy, htail.2]

theorem vector_equal_of_get (a b : VariantArray) (hl : a.length = b.length)
    (h : ∀ (i : Nat) x y, a[i]? = some x → b[i]? = some y → operator_eq x y = true) :
    vector_equal a b = true := by
  induction a generalizing b with
  | nil => cases b <;> simp [vector_equal]
  | cons p ps ih =>
    cases b with
    | nil => simp at hl
    | cons q qs =>
      simp only [List.length_cons, Nat.add_right_cancel_iff] at hl
      have h0 := h 0 p q (by simp) (by simp)
      have ht := ih qs hl (fun i x y hx hy => h (i + 1) x y (by simpa using hx) (by simpa using hy))
      simp [vector_equal, h0, ht]

theorem Double_eq_self (d : Double) (h : d.isNaN = false) : Double.eq d d = true := by
  simp [Double.eq, h]

mutual
theorem operator_eq_self : ∀ v : CVariant, containsNull v = false → containsNaN v = false →
    operator_eq v v = true
  | integer i, _, _ => by simp [operator_eq]
  | unsignedinteger u, _, _ => by simp [operator_eq]
  | boolean b, _, _ => by simp [operator_eq]
  | dvalue d, _, hd => by
    simp only [containsNaN] at hd
    simp [operator_eq, Double_eq_self d hd]
  | string s, _, _ => by simp [operator_eq]
  | wstring w, _, _ => by simp [operator_eq]
  | array a, hn, hd => by
    simp only [containsNull] at hn
    simp only [containsNaN] at hd
    simp [operator_eq, vector_equal_self a hn hd]
  | object m, hn, hd => by
    simp only [containsNull] at hn
    simp only [containsNaN] at hd
    simp [operator_eq, map_equal_self m hn hd]
  | null, hn, _ => by simp [containsNull] at hn
  | constNull, hn, _ => by simp [containsNull] at hn
theorem vector_equal_self : ∀ a : VariantArray, containsNullArray a = false →
    containsNaNArray a = false → vector_equal a a = true
  | [], _, _ => by simp [vector_equal]
  | x :: xs, hn, hd => by
    simp only [containsNullArray, Bool.or_eq_false_iff] at hn
    simp only [containsNaNArray, Bool.or_eq_false_iff] at hd
    simp [vector_equal, operator_eq_self x hn.1 hd.1, vector_equal_self xs hn.2 hd.2]
theorem map_equal_self : ∀ m : VariantMap, containsNullMap m = false →
    containsNaNMap m = false → map_equal m m = true
  | [], _, _ => by simp [map_equal]
  | (k, x) :: m, hn, hd => by
    simp only [containsNullMap, Bool.or_eq_false_iff] at hn
    simp only [containsNaNMap, Bool.or_eq_false_iff] at hd
    simp [map_equal, operator_eq_self x hn.1 hd.1, map_equal_self m hn.2 hd.2]
end

/-- C3, as the code has it. Equality is complete away from the payload-free
tags: two variants with the same tag, other than Null and ConstNull, whose
payloads are equal by value (doubles compared as doubles, the entries of
objects in map order) are `==`; and a variant in which no Null- or
ConstNull-tagged value and no NaN occurs at any depth is equal to itself. -/
theorem operator_eq_complete (a b : CVariant) :
    (a.isNull = false → a.m_type = b.m_type → mapOrdered a → mapOrdered b →
      PayloadsEqual a b → operator_eq a b = true) ∧
    (containsNull a = false → containsNaN a = false → operator_eq a a = true) := by
  refine ⟨?_, operator_eq_self a⟩
  cases a <;> cases b <;> intro hnull htag ha hb hp <;> simp only [PayloadsEqual] at hp
  case integer.integer i j => simp [operator_eq, hp]
  case unsignedinteger.unsignedinteger i j => simp [operator_eq, hp]
  case boolean.boolean i j => simp [operator_eq, hp]
  case dvalue.dvalue i j => simp [operator_eq, hp]
  case string.string i j => simp [operator_eq, hp]
  case wstring.wstring i j => simp [operator_eq, hp]
  case array.array xs ys =>
    simp [operator_eq, hp.1, vector_equal_of_get xs ys hp.1 hp.2]
  case object.object m n =>
    have := map_equal_of_find m n ha hb hp.1 hp.2
    simp [operator_eq, this.1, this.2]
  case null.null => simp [isNull, m_type] at hnull
  case constNull.constNull => simp [isNull, m_type] at hnull

/-- C3, at concrete inputs: two objects with the same entries are equal, and
a nested variant without nulls and NaNs is equal to itself. -/
theorem operator_eq_complete_witness :
    operator_eq (object [("a", integer 1), ("b", string "x")])
      (object [("a", integer 1), ("b", string "x")]) = true ∧
    operator_eq (array [object [("k", dvalue Double.zero)], boolean true])
      (array [object [("k", dvalue Double.zero)], boolean true]) = true :=
  ⟨(operator_eq_complete (object [("a", integer 1), ("b", string "x")])
      (object [("a", integer 1), ("b", string "x")])).1 rfl rfl (by decide) (by decide)
      ⟨fun _ => rfl, fun key x y hx hy => by
        by_cases h1 : "a" = key
        · simp only [map_find, h1, if_true, Option.some.injEq] at hx hy
          subst hx; subst hy; rfl
        · by_cases h2 : "b" = key
          · simp only [map_find, h1, h2, if_true, if_false, Option.some.injEq] at hx hy
            subst hx; subst hy; rfl
          · simp [map_find, h1, h2] at hx⟩,
    (operator_eq_complete (array [object [("k", dvalue Double.zero)], boolean true])
      (array [object [("k", dvalue Double.zero)], boolean true])).2 rfl rfl⟩

/-- C3 fails as stated: two default-constructed variants have the same tag
and nothing to compare, and are not `==`; a variant holding a NaN is not `==`
to itself. -/
theorem operator_eq_default_default :
    default.m_type = default.m_type ∧ PayloadsEqual default default ∧
    operator_eq default default = false ∧
    operator_eq (ofType .VariantTypeConstNull) (ofType .VariantTypeConstNull) = false ∧
    operator_eq (ofDouble Double.nan) (ofDouble Double.nan) = false :=
  ⟨rfl, trivial, rfl, rfl, by decide⟩

/-! ## Copy -/

mutual
theorem operator_assign_null : ∀ v : CVariant, operator_assign null v false = v
  | integer _ => by simp [operator_assign, m_type]
  | unsignedinteger _ => by simp [operator_assign, m_type]
  | boolean _ => by simp [operator_assign, m_type]
  | dvalue _ => by simp [operator_assign, m_type]
  | string _ => by simp [operator_assign, m_type]
  | wstring _ => by simp [operator_assign, m_type]
  | array a => by simp [operator_assign, m_type, VariantArray_copy_eq a]
  | object m => by simp [operator_assign, m_type, VariantMap_copy_eq m]
  | null => by simp [operator_assign, m_type]
  | constNull => by simp [operator_assign, m_type]
theorem VariantArray_copy_eq : ∀ a : VariantArray, VariantArray_copy a = a
  | [] => by simp [VariantArray_copy]
  | x :: xs => by simp [VariantArray_copy, operator_assign_null x, VariantArray_copy_eq xs]
theorem VariantMap_copy_eq : ∀ m : VariantMap, VariantMap_copy m = m
  | [] => by simp [VariantMap_copy]
  | (k, x) :: m => by simp [VariantMap_copy, operator_assign_null x, VariantMap_copy_eq m]
end

theorem copy_construct_eq (v : CVariant) : copy_construct v = v :=
  operator_assign_null v

theorem operator_assign_eq (t v : CVariant) (ht : t.m_type ≠ .VariantTypeConstNull) :
    operator_assign t v false = v := by
  have h := operator_assign_null v
  cases v <;> simp [operator_assign, ht] <;> simpa [operator_assign, m_type] using h

theorem operator_assign_guard (t v : CVariant) (same : Bool)
    (ht : t.m_type = .VariantTypeConstNull) : operator_assign t v same = t := by
  cases v <;> simp [operator_assign, ht]

theorem operator_assign_same (t v : CVariant) : operator_assign t v true = t := by
  cases v <;> simp [operator_assign]

end CVariant

namespace Store

theorem write_frame (st : Store) (r : Ref) (v : CVariant) (c : Addr) (hc : c ≠ r.root) :
    (st.write r v) c = st c := by
  cases r with
  | object a => simp only [Ref.root] at hc; simp [write, Function.update_noteq hc]
  | member a key =>
    simp only [Ref.root] at hc
    cases hst : st a <;> simp [write, hst, Function.update_noteq hc]
  | element a position =>
    simp only [Ref.root] at hc
    cases hst : st a <;> simp [write, hst, Function.update_noteq hc]

theorem operator_assign_frame (st : Store) (this rhs : Ref) (c : Addr) (hc : c ≠ this.root) :
    (st.operator_assign this rhs) c = st c := by
  cases h1 : st.read this <;> cases h2 : st.read rhs <;> simp only [operator_assign, h1, h2]
  exact write_frame st this _ c hc

theorem operator_assign_sentinel (st : Store) (a : Addr) (rhs : Ref)
    (ha : (st a).m_type = .VariantTypeConstNull) : st.operator_assign (.object a) rhs = st := by
  unfold operator_assign
  split
  · rename_i t r h1 h2
    simp only [read, Option.some.injEq] at h1
    subst h1
    simp only [write, CVariant.operator_assign_guard _ _ _ ha, Function.update_eq_self]
  · rfl

theorem operator_index_key_constNull (v : CVariant) (key : String)
    (h : v.m_type = .VariantTypeConstNull) :
    CVariant.operator_index_key v key = (v, .sentinel) := by
  cases v <;> simp [CVariant.m_type] at h
  rfl

theorem index_key_intact (st : Store) (this : Addr) (key : String) (hs : st.sentinelIntact) :
    (st.index_key this key).1.sentinelIntact := by
  unfold sentinelIntact index_key
  by_cases h : ConstNullVariant = this
  · subst h
    simp only [Function.update_same, operator_index_key_constNull _ key hs]
    exact hs
  · simp only [Function.update_noteq h]
    exact hs

theorem index_key_frame (st : Store) (this c : Addr) (key : String) (hc : c ≠ this) :
    (st.index_key this key).1 c = st c := by
  simp [index_key, Function.update_noteq hc]

theorem assign_key_frame (st : Store) (this c : Addr) (key : String) (rhs : Addr)
    (hc : c ≠ this) (hs : st.sentinelIntact ∨ c ≠ ConstNullVariant) :
    (st.assign_key this key (.object rhs)) c = st c := by
  unfold assign_key
  have hf := index_key_frame st this c key hc
  cases hv : (CVariant.operator_index_key (st this) key).2 with
  | member k =>
    have hr : (st.index_key this key).2 = .member this k := by
      simp [index_key, hv, CVariant.Slot.toRef]
    rw [hr, operator_assign_frame _ _ _ c (by simpa [Ref.root] using hc)]
    exact hf
  | element n =>
    have hr : (st.index_key this key).2 = .element this n := by
      simp [index_key, hv, CVariant.Slot.toRef]
    rw [hr, operator_assign_frame _ _ _ c (by simpa [Ref.root] using hc)]
    exact hf
  | sentinel =>
    have hr : (st.index_key this key).2 = .object ConstNullVariant := by
      simp [index_key, hv, CVariant.Slot.toRef]
    rcases hs with hs | hs
    · rw [hr, operator_assign_sentinel _ _ _ (index_key_intact st this key hs)]
      exact hf
    · rw [hr, operator_assign_frame _ _ _ c (by simpa [Ref.root] using hs)]
      exact hf

theorem exec_frame (st : Store) (this c : Addr) (call : Call) (hc : c ≠ this)
    (hs : st.sentinelIntact ∨ c ≠ ConstNullVariant) (hm : call.moveSource ≠ some c) :
    (st.exec this call) c = st c := by
  cases call with
  | assign rhs => simp [exec, operator_assign, read, write, Function.update_noteq hc]
  | assign_move rhs =>
    have hr : c ≠ rhs := fun h => hm (by simp [Call.moveSource, h])
    simp [exec, operator_assign_move, read, write, Function.update_noteq hc,
      Function.update_noteq hr]
  | push_back x => simp [exec, call, read, write, Function.update_noteq hc]
  | push_back_move x =>
    have hr : c ≠ x := fun h => hm (by simp [Call.moveSource, h])
    simp [exec, push_back_move, Function.update_noteq hc, Function.update_noteq hr]
  | append x => simp [exec, call, read, write, Function.update_noteq hc]
  | append_move x =>
    have hr : c ≠ x := fun h => hm (by simp [Call.moveSource, h])
    simp [exec, push_back_move, Function.update_noteq hc, Function.update_noteq hr]
  | reserve n => simp [exec, call, read, write, Function.update_noteq hc]
  | erase_key k => simp [exec, call, read, write, Function.update_noteq hc]
  | erase_position n => simp [exec, call, read, write, Function.update_noteq hc]
  | clear => simp [exec, call, read, write, Function.update_noteq hc]
  | index_key k => simp [exec, index_key, Function.update_noteq hc]
  | index_position n => simp [exec]
  | assign_key k rhs => exact assign_key_frame st this c k rhs hc hs

/-- C4. Copy assignment and copy construction: for separate objects `a` and
`b` with `a` not ConstNull-tagged, after `a = b`, and likewise after
`CVariant a(b)`, the value of `a` is the value of `b` (same tag, same payload
at every depth) and `b` is unchanged; afterwards no statement on `a` other
than a move out of `b` (so no `push_back`, `append`, `a[key] = x`, `erase`,
`clear`, `reserve` or assignment) changes `b`.  The last part supposes that
`b` is not a static sentinel which has lost its ConstNull tag, the object that
`a[key] = x` writes to when `a` is not an Object. -/
theorem copy_assignment_independent (st : Store) (a b : Addr) (hab : a ≠ b)
    (ha : (st a).m_type ≠ .VariantTypeConstNull) :
    (st.exec a (.assign b)) a = st b ∧ (st.exec a (.assign b)) b = st b ∧
    (st.copy_construct a (.object b)) a = st b ∧ (st.copy_construct a (.object b)) b = st b ∧
    ∀ call : Call, call.moveSource ≠ some b → st.sentinelIntact ∨ b ≠ ConstNullVariant →
      ((st.exec a (.assign b)).exec a call) b = st b ∧
      ((st.copy_construct a (.object b)).exec a call) b = st b := by
  have hba : b ≠ a := fun h => hab h.symm
  have hdec : decide (Ref.object a = Ref.object b) = false := by simp [hab]
  have h1 : st.exec a (.assign b) = Function.update st a (st b) := by
    simp only [exec, operator_assign, read, write, hdec, CVariant.operator_assign_eq _ _ ha]
  have h2 : st.copy_construct a (.object b) = Function.update st a (st b) := by
    simp only [copy_construct, read, CVariant.copy_construct_eq]
  rw [h1, h2]
  refine ⟨by simp, by simp [Function.update_noteq hba], by simp,
    by simp [Function.update_noteq hba], fun call hm hs => ?_⟩
  have hs1 : sentinelIntact (Function.update st a (st b)) ∨ b ≠ ConstNullVariant := by
    rcases hs with hs | hs
    · left
      have h0 : ConstNullVariant ≠ a := by
        intro h
        rw [← h] at ha
        exact ha hs
      unfold sentinelIntact
      rw [Function.update_noteq h0]
      exact hs
    · exact Or.inr hs
  have := exec_frame (Function.update st a (st b)) a b call hba hs1 hm
  rw [Function.update_noteq hba] at this
  exact ⟨this, this⟩

/-- C4, at a concrete store: the array at address 1 is assigned the object
at address 2. -/
theorem copy_assignment_independent_witness :
    (exampleStore.exec 1 (.assign 2)) 1 = exampleStore 2 ∧
    (exampleStore.exec 1 (.assign 2)) 2 = exampleStore 2 ∧
    (exampleStore.copy_construct 1 (.object 2)) 1 = exampleStore 2 ∧
    (exampleStore.copy_construct 1 (.object 2)) 2 = exampleStore 2 ∧
    ∀ call : Call, call.moveSource ≠ some 2 →
      exampleStore.sentinelIntact ∨ (2 : Addr) ≠ ConstNullVariant →
      ((exampleStore.exec 1 (.assign 2)).exec 1 call) 2 = exampleStore 2 ∧
      ((exampleStore.copy_construct 1 (.object 2)).exec 1 call) 2 = exampleStore 2 :=
  copy_assignment_independent exampleStore 1 2 (by decide) (by decide)

/-! ## Move -/

theorem write_object_self (st : Store) (a : Addr) : st.write (.object a) (st a) = st := by
  simp [write]

/-- C5. Move assignment and move construction: for separate objects `t` and
`s`, with `t` not ConstNull-tagged, `t = std::move(s)` gives `t` the value `s`
had (whatever the tag of `s`, ConstNull included) and leaves `s` with tag Null,
`empty()` true and `size()` 0, and so does `CVariant t(std::move(s))`; when `t`
is ConstNull-tagged or `t` and `s` are the same object, the move assignment
changes nothing. -/
theorem move_assignment_transfers (st : Store) (t s : Addr) :
    (t ≠ s → (st t).m_type ≠ .VariantTypeConstNull →
      (st.exec t (.assign_move s)) t = st s ∧
      ((st.exec t (.assign_move s)) s).m_type = .VariantTypeNull ∧
      ((st.exec t (.assign_move s)) s).empty = true ∧
      ((st.exec t (.assign_move s)) s).size = 0) ∧
    (t ≠ s →
      (st.move_construct t (.object s)) t = st s ∧
      ((st.move_construct t (.object s)) s).m_type = .VariantTypeNull ∧
      ((st.move_construct t (.object s)) s).empty = true ∧
      ((st.move_construct t (.object s)) s).size = 0) ∧
    ((st t).m_type = .VariantTypeConstNull ∨ t = s → st.exec t (.assign_move s) = st) := by
  refine ⟨fun hts ht => ?_, fun hts => ?_, fun h => ?_⟩
  · have hst : s ≠ t := fun h => hts h.symm
    have hdec : decide (Ref.object t = Ref.object s) = false := by simp [hts]
    have hm : CVariant.operator_assign_move (st t) (st s) false = (st s, .null) := by
      simp [CVariant.operator_assign_move, ht]
    simp only [exec, operator_assign_move, read, write, hdec, hm, Function.update_same,
      Function.update_noteq hst]
    exact ⟨trivial, rfl, rfl, rfl⟩
  · have hst : s ≠ t := fun h => hts h.symm
    have hm : CVariant.move_construct (st s) = (st s, .null) := by
      simp [CVariant.move_construct, CVariant.operator_assign_move, CVariant.m_type]
    simp only [move_construct, read, write, hm, Function.update_same,
      Function.update_noteq hst]
    exact ⟨trivial, rfl, rfl, rfl⟩
  · have hm : CVariant.operator_assign_move (st t) (st s) (decide (Ref.object t = Ref.object s))
        = (st t, st s) := by
      rcases h with h | h
      · simp [CVariant.operator_assign_move, h]
      · simp [CVariant.operator_assign_move, h]
    simp only [exec, operator_assign_move, read, hm, write_object_self]

/-- C5, at a concrete store: the object at address 2 is moved into the array
at address 1; a move into the sentinel and a self-move change nothing. -/
theorem move_assignment_transfers_witness :
    ((exampleStore.exec 1 (.assign_move 2)) 1 = exampleStore 2 ∧
      ((exampleStore.exec 1 (.assign_move 2)) 2).m_type = .VariantTypeNull ∧
      ((exampleStore.exec 1 (.assign_move 2)) 2).empty = true ∧
      ((exampleStore.exec 1 (.assign_move 2)) 2).size = 0) ∧
    exampleStore.exec ConstNullVariant (.assign_move 2) = exampleStore ∧
    exampleStore.exec 2 (.assign_move 2) = exampleStore :=
  ⟨(move_assignment_transfers exampleStore 1 2).1 (by decide) (by decide),
    (move_assignment_transfers exampleStore ConstNullVariant 2).2.2 (Or.inl rfl),
    (move_assignment_transfers exampleStore 2 2).2.2 (Or.inr rfl)⟩

/-! ## The ConstNull tag -/

theorem eq_constNull (v : CVariant) (h : v.m_type = .VariantTypeConstNull) :
    v = .constNull := by
  cases v <;> simp [CVariant.m_type] at h
  rfl

theorem exec_constNull (st : Store) (v : Addr) (call : Call)
    (hv : (st v).m_type = .VariantTypeConstNull) : (st.exec v call) v = st v := by
  have hc := eq_constNull _ hv
  cases call with
  | assign rhs => rw [exec, operator_assign_sentinel st v _ hv]
  | assign_move rhs =>
    simp [exec, operator_assign_move, read, write, CVariant.operator_assign_move, hv]
  | push_back x => simp [exec, call, read, write, hc, CVariant.push_back, CVariant.m_type]
  | push_back_move x =>
    simp only [exec, push_back_move, hc, CVariant.push_back_move, CVariant.m_type]
    by_cases hx : v = x
    · subst hx
      simp [hc]
    · simp [Function.update_noteq hx]
  | append x =>
    simp [exec, call, read, write, hc, CVariant.append, CVariant.push_back, CVariant.m_type]
  | append_move x =>
    simp only [exec, push_back_move, hc, CVariant.push_back_move, CVariant.m_type]
    by_cases hx : v = x
    · subst hx
      simp [hc]
    · simp [Function.update_noteq hx]
  | reserve n => simp [exec, call, read, write, hc, CVariant.reserve, CVariant.m_type]
  | erase_key k => simp [exec, call, read, write, hc, CVariant.erase_key]
  | erase_position n =>
    simp [exec, call, read, write, hc, CVariant.erase_position, CVariant.m_type]
  | clear => simp [exec, call, read, write, hc, CVariant.clear]
  | index_key k => simp [exec, index_key, operator_index_key_constNull _ k hv]
  | index_position n => simp [exec]
  | assign_key k rhs =>
    have h1 : st.index_key v k = (st, .object ConstNullVariant) := by
      simp [index_key, operator_index_key_constNull _ k hv, CVariant.Slot.toRef]
    simp only [exec, assign_key, h1]
    by_cases h0 : v = ConstNullVariant
    · subst h0
      rw [operator_assign_sentinel st _ _ hv]
    · exact operator_assign_frame st _ _ v (by simpa [Ref.root] using h0)

theorem exec_list_constNull (st : Store) (v : Addr) (calls : List Call)
    (hv : (st v).m_type = .VariantTypeConstNull) :
    (calls.foldl (fun s call => s.exec v call) st) v = st v := by
  induction calls generalizing st with
  | nil => rfl
  | cons call rest ih =>
    have h1 := exec_constNull st v call hv
    simp only [List.foldl_cons]
    rw [ih (st.exec v call) (by rw [h1]; exact hv), h1]

/-- C6. ConstNull is read-only: when the object `v` is ConstNull-tagged, no
sequence of copy or move assignments into `v`, `push_back`/`append` (copy and
move), `reserve`, `erase(key)`, `erase(position)`, `clear`, mutable `v[key]`,
mutable `v[position]` and `v[key] = x` changes `v`, so `v` is still
ConstNull-tagged with `isNull()` true; the two mutable accesses return the
shared sentinel.  For `v` the sentinel itself, this is every sequence of
operations through the reference which an invalid access returns. -/
theorem constNull_read_only (st : Store) (v : Addr)
    (hv : (st v).m_type = .VariantTypeConstNull) :
    (∀ calls : List Call,
      (calls.foldl (fun s call => s.exec v call) st) v = st v ∧
      ((calls.foldl (fun s call => s.exec v call) st) v).m_type = .VariantTypeConstNull ∧
      ((calls.foldl (fun s call => s.exec v call) st) v).isNull = true) ∧
    (∀ key : String, (st.index_key v key).2 = .object ConstNullVariant) ∧
    (∀ position : Nat,
      CVariant.operator_index_position (st v) position = .ok .sentinel) := by
  refine ⟨fun calls => ?_, fun key => ?_, fun position => ?_⟩
  · have h := exec_list_constNull st v calls hv
    rw [h]
    exact ⟨rfl, hv, by simp [CVariant.isNull, hv]⟩
  · simp [index_key, operator_index_key_constNull _ key hv, CVariant.Slot.toRef]
  · rw [eq_constNull _ hv]
    rfl

/-- C6, at a concrete store: `s["k"] = x` on the string `s` at address 3 goes
through the sentinel, and a sequence of statements on the sentinel leaves it
what it was. -/
theorem constNull_read_only_witness :
    (exampleStore.index_key 3 "k").2 = .object ConstNullVariant ∧
    (exampleStore.exec 3 (.assign_key "k" 4)) ConstNullVariant
      = CVariant.ofType .VariantTypeConstNull ∧
    (∀ calls : List Call,
      (calls.foldl (fun s call => s.exec ConstNullVariant call) exampleStore) ConstNullVariant
        = exampleStore ConstNullVariant ∧
      ((calls.foldl (fun s call => s.exec ConstNullVariant call) exampleStore)
        ConstNullVariant).m_type = .VariantTypeConstNull ∧
      ((calls.foldl (fun s call => s.exec ConstNullVariant call) exampleStore)
        ConstNullVariant).isNull = true) :=
  ⟨rfl, rfl, (constNull_read_only exampleStore ConstNullVariant rfl).1⟩

end Store

namespace CVariant

/-! ## Keyed access -/

theorem map_find_insert_absent (key : String) (value : CVariant) (m : VariantMap)
    (h : map_find m key = none) : map_find (map_insert key value m) key = some value := by
  induction m with
  | nil => simp [map_insert, map_find]
  | cons p ps ih =>
    obtain ⟨k, x⟩ := p
    have hk : ¬ k = key := by
      intro hk
      simp [map_find, hk] at h
    simp only [map_find, hk, if_false] at h
    unfold map_insert
    split
    · simp [map_find]
    · split
      · simp only [map_find, hk, if_false]
        exact ih h
      · rename_i h1 h2
        rcases key_less_total key k with h3 | h3 | h3
        · exact absurd h3 h1
        · exact absurd h3.symm hk
        · exact absurd h3 h2

theorem map_find_insert_other (key other : String) (value : CVariant) (m : VariantMap)
    (h : other ≠ key) : map_find (map_insert key value m) other = map_find m other := by
  have hne : ¬ key = other := fun h' => h h'.symm
  induction m with
  | nil => simp [map_insert, map_find, hne]
  | cons p ps ih =>
    obtain ⟨k, x⟩ := p
    unfold map_insert
    split
    · simp [map_find, hne]
    · split
      · simp only [map_find, ih]
      · rfl

theorem map_insert_present (key : String) (value : CVariant) (m : VariantMap)
    (hm : keysAscending m) (h : (map_find m key).isSome = true) :
    map_insert key value m = m := by
  induction m with
  | nil => simp [map_find] at h
  | cons p ps ih =>
    obtain ⟨k, x⟩ := p
    have hp := List.pairwise_cons.mp hm
    unfold map_insert
    split
    · rename_i h1
      exfalso
      by_cases hk : k = key
      · rw [hk] at h1
        exact key_less_irrefl key h1
      · simp only [map_find, hk, if_false] at h
        obtain ⟨e, he, hke⟩ := map_find_isSome_mem ps key h
        have := hp.1 e he
        rw [hke] at this
        exact key_less_asymm _ _ h1 this
    · split
      · rename_i h1 h2
        have hk : ¬ k = key := by
          intro hk
          rw [hk] at h2
          exact key_less_irrefl key h2
        simp only [map_find, hk, if_false] at h
        rw [ih hp.2 h]
      · rfl

theorem map_insert_length_absent (key : String) (value : CVariant) (m : VariantMap)
    (h : map_find m key = none) : (map_insert key value m).length = m.length + 1 := by
  induction m with
  | nil => simp [map_insert]
  | cons p ps ih =>
    obtain ⟨k, x⟩ := p
    have hk : ¬ k = key := by
      intro hk
      simp [map_find, hk] at h
    simp only [map_find, hk, if_false] at h
    unfold map_insert
    split
    · simp
    · split
      · simp [ih h]
      · rename_i h1 h2
        rcases key_less_total key k with h3 | h3 | h3
        · exact absurd h3 h1
        · exact absurd h3.symm hk
        · exact absurd h3 h2

theorem map_insert_mem (key : String) (value : CVariant) (m : VariantMap)
    (e : String × CVariant) (he : e ∈ map_insert key value m) : e = (key, value) ∨ e ∈ m := by
  induction m with
  | nil => simpa [map_insert] using he
  | cons p ps ih =>
    obtain ⟨k, x⟩ := p
    unfold map_insert at he
    split at he
    · simpa using he
    · split at he
      · rcases List.mem_cons.mp he with h | h
        · exact Or.inr (by simp [h])
        · rcases ih h with h' | h'
          · exact Or.inl h'
          · exact Or.inr (List.mem_cons_of_mem _ h')
      · exact Or.inr he

theorem map_insert_ascending (key : String) (value : CVariant) (m : VariantMap)
    (hm : keysAscending m) : keysAscending (map_insert key value m) := by
  induction m with
  | nil => simp [map_insert, keysAscending]
  | cons p ps ih =>
    obtain ⟨k, x⟩ := p
    have hp := List.pairwise_cons.mp hm
    unfold map_insert
    split
    · rename_i h1
      refine List.pairwise_cons.mpr ⟨fun e he => ?_, hm⟩
      rcases List.mem_cons.mp he with h | h
      · rw [h]; exact h1
      · exact key_less_trans _ _ _ h1 (hp.1 e h)
    · split
      · rename_i h1 h2
        refine List.pairwise_cons.mpr ⟨fun e he => ?_, ih hp.2⟩
        rcases map_insert_mem key value ps e he with h | h
        · rw [h]; exact h2
        · exact hp.1 e h
      · exact hm

theorem map_find_set_self (m : VariantMap) (key : String) (value : CVariant)
    (h : (map_find m key).isSome = true) : map_find (map_set m key value) key = some value := by
  induction m with
  | nil => simp [map_find] at h
  | cons p ps ih =>
    obtain ⟨k, x⟩ := p
    by_cases hk : k = key
    · simp [map_set, map_find, hk]
    · simp only [map_find, hk, if_false] at h
      simp only [map_set, map_find, hk, if_false]
      exact ih h

theorem map_find_set_other (m : VariantMap) (key other : String) (value : CVariant)
    (h : other ≠ key) : map_find (map_set m key value) other = map_find m other := by
  induction m with
  | nil => simp [map_set]
  | cons p ps ih =>
    obtain ⟨k, x⟩ := p
    have hne : ¬ key = other := fun h' => h h'.symm
    by_cases hk : k = key
    · subst hk
      simp [map_set, map_find, hne]
    · by_cases hko : k = other
      · subst hko
        simp [map_set, map_find, hk]
      · simp only [map_set, map_find, hk, hko, if_false]
        exact ih

theorem map_find_index_self (m : VariantMap) (key : String) :
    (map_find (map_index m key) key).isSome = true := by
  cases h : map_find m key with
  | none => simp [map_index, map_find_insert_absent key default m h]
  | some x =>
    induction m with
    | nil => simp [map_find] at h
    | cons p ps ih =>
      obtain ⟨k, y⟩ := p
      unfold map_index map_insert
      split
      · simp [map_find]
      · split
        · rename_i h1 h2
          have hk : ¬ k = key := by
            intro hk
            rw [hk] at h2
            exact key_less_irrefl key h2
          simp only [map_find, hk, if_false] at h ⊢
          exact ih h
        · rename_i h1 h2
          rcases key_less_total key k with h3 | h3 | h3
          · exact absurd h3 h1
          · simp [map_find, h3]
          · exact absurd h3 h2

end CVariant

namespace Store

theorem index_key_view (st : Store) (a : Addr) (key : String)
    (ht : (st a).m_type = .VariantTypeNull ∨ (st a).m_type = .VariantTypeObject) :
    ∃ m : VariantMap, CVariant.entries (st a) = m ∧
      (∀ k, st.read (.member a k) = CVariant.map_find m k) ∧
      (st a).size = toUInt32 m.length ∧
      (∀ k, (st a).isMember k = (CVariant.map_find m k).isSome) ∧
      (CVariant.mapOrdered (st a) → CVariant.keysAscending m) ∧
      st.index_key a key
        = (Function.update st a (.object (CVariant.map_index m key)), .member a key) ∧
      ((CVariant.map_find m key).isSome = true → st a = .object m) := by
  cases hv : st a with
  | null =>
    refine ⟨[], rfl, fun k => ?_, rfl, fun k => rfl, fun _ => List.Pairwise.nil, ?_, ?_⟩
    · simp [read, hv, CVariant.map_find]
    · simp [index_key, hv, CVariant.operator_index_key, CVariant.m_type, CVariant.Slot.toRef]
    · intro h
      simp [CVariant.map_find] at h
  | object m =>
    refine ⟨m, rfl, fun k => ?_, rfl, fun k => rfl, fun h => h, ?_, fun _ => rfl⟩
    · simp [read, hv]
    · simp [index_key, hv, CVariant.operator_index_key, CVariant.m_type, CVariant.Slot.toRef]
  | integer _ => simp [hv, CVariant.m_type] at ht
  | unsignedinteger _ => simp [hv, CVariant.m_type] at ht
  | boolean _ => simp [hv, CVariant.m_type] at ht
  | dvalue _ => simp [hv, CVariant.m_type] at ht
  | string _ => simp [hv, CVariant.m_type] at ht
  | wstring _ => simp [hv, CVariant.m_type] at ht
  | array _ => simp [hv, CVariant.m_type] at ht
  | constNull => simp [hv, CVariant.m_type] at ht

/-- C8. Mutable keyed access and assignment, for an object `v` (at `a`) that
is Null or an Object: `v[key]` makes `v` an Object with `isMember(key)` true
and denotes the entry of `key`; when `key` was absent it inserts a Null entry,
which raises the number of entries by exactly 1 (and `size()` by 1 in
`unsigned int` arithmetic) and leaves every other key as it was; when `key`
was present nothing changes.  When the entry of `key`, if there was one, is
not ConstNull-tagged, then after `v[key] = x`, for a separate object `x` (at
`b`), the const lookup `v[key]` denotes an entry with the value of `x`, and
the presence and value of every other key are unchanged. -/
theorem keyed_access_inserts_and_assigns (st : Store) (a b : Addr) (key : String)
    (hab : a ≠ b)
    (ht : (st a).m_type = .VariantTypeNull ∨ (st a).m_type = .VariantTypeObject)
    (ho : CVariant.mapOrdered (st a)) :
    ((st.index_key a key).1 a).m_type = .VariantTypeObject ∧
    ((st.index_key a key).1 a).isMember key = true ∧
    (st.index_key a key).2 = .member a key ∧
    CVariant.mapOrdered ((st.index_key a key).1 a) ∧
    ((st a).isMember key = false →
      (st.index_key a key).1.read (.member a key) = some CVariant.default ∧
      (CVariant.entries ((st.index_key a key).1 a)).length
        = (CVariant.entries (st a)).length + 1 ∧
      ((st.index_key a key).1 a).size = ((st a).size + 1) % 2 ^ 32 ∧
      ∀ other, other ≠ key →
        (st.index_key a key).1.read (.member a other) = st.read (.member a other)) ∧
    ((st a).isMember key = true → (st.index_key a key).1 = st) ∧
    ((∀ e, st.read (.member a key) = some e → e.m_type ≠ .VariantTypeConstNull) →
      (st.assign_key a key (.object b)).read (.member a key) = some (st b) ∧
      (st.assign_key a key (.object b)).read
        ((CVariant.operator_index_key_const ((st.assign_key a key (.object b)) a) key).toRef a)
        = some (st b) ∧
      ∀ other, other ≠ key →
        (st.assign_key a key (.object b)).read (.member a other)
          = st.read (.member a other)) := by
  obtain ⟨m, hent, hread, hsize, hmem, hord, hidx, hobj⟩ := index_key_view st a key ht
  have hasc := hord ho
  have hself := CVariant.map_find_index_self m key
  have hba : b ≠ a := fun h => hab h.symm
  refine ⟨?_, ?_, ?_, ?_, fun habs => ?_, fun hpres => ?_, fun hentry => ?_⟩
  · simp [hidx, CVariant.m_type]
  · simp [hidx, CVariant.isMember, hself]
  · simp [hidx]
  · simp only [hidx, Function.update_same, CVariant.mapOrdered]
    exact CVariant.map_insert_ascending key _ m hasc
  · rw [hmem key] at habs
    have hnone : CVariant.map_find m key = none := by
      cases h : CVariant.map_find m key with
      | none => rfl
      | some x => simp [h] at habs
    refine ⟨?_, ?_, ?_, fun other hne => ?_⟩
    · simp only [hidx, read, Function.update_same, CVariant.map_index]
      exact CVariant.map_find_insert_absent key _ m hnone
    · rw [hent, hidx]
      simp only [Function.update_same, CVariant.entries, CVariant.map_index]
      exact CVariant.map_insert_length_absent key _ m hnone
    · rw [hsize, hidx]
      simp only [Function.update_same, CVariant.size, toUInt32, CVariant.map_index,
        CVariant.map_insert_length_absent key _ m hnone]
      exact Nat.add_mod _ _ _ |>.trans (by simp)
    · rw [hread other, hidx]
      simp only [read, Function.update_same, CVariant.map_index]
      exact CVariant.map_find_insert_other key other _ m hne
  · rw [hmem key] at hpres
    have hm : CVariant.map_index m key = m := CVariant.map_insert_present key _ m hasc hpres
    rw [hidx, hm, ← hobj hpres]
    simp
  · obtain ⟨e, he⟩ := Option.isSome_iff_exists.mp hself
    have hetag : e.m_type ≠ .VariantTypeConstNull := by
      cases hf : CVariant.map_find m key with
      | none =>
        have := CVariant.map_find_insert_absent key CVariant.default m hf
        rw [CVariant.map_index] at he
        rw [he] at this
        cases this
        simp [CVariant.default, CVariant.ofType, CVariant.m_type]
      | some x =>
        have hm : CVariant.map_index m key = m :=
          CVariant.map_insert_present key _ m hasc (by simp [hf])
        rw [hm, hf] at he
        cases he
        exact hentry _ (by rw [hread key, hf])
    have hdec : decide (Ref.member a key = Ref.object b) = false := by simp
    have hassign : st.assign_key a key (.object b)
        = Function.update st a
            (.object (CVariant.map_set (CVariant.map_index m key) key (st b))) := by
      simp only [assign_key, hidx, operator_assign, read, Function.update_same,
        Function.update_noteq hba, he, write, hdec,
        CVariant.operator_assign_eq e (st b) hetag, Function.update_idem]
    have hset := CVariant.map_find_set_self (CVariant.map_index m key) key (st b) hself
    refine ⟨?_, ?_, fun other hne => ?_⟩
    · simp only [hassign, read, Function.update_same]
      exact hset
    · simp only [hassign, Function.update_same, CVariant.operator_index_key_const, hset,
        Option.isSome_some, if_true, CVariant.Slot.toRef, read]
    · rw [hread other, hassign]
      simp only [read, Function.update_same,
        CVariant.map_find_set_other _ key other _ hne, CVariant.map_index]
      exact CVariant.map_find_insert_other key other _ m hne

/-- C8, at a concrete store: the absent key "c" and the present key "b" of
the object at address 2, assigned the integer at address 4. -/
theorem keyed_access_inserts_and_assigns_witness :
    ((exampleStore.index_key 2 "c").1 2).isMember "c" = true ∧
    (exampleStore.index_key 2 "c").1.read (.member 2 "c") = some CVariant.default ∧
    (exampleStore.index_key 2 "b").1 = exampleStore ∧
    (exampleStore.assign_key 2 "c" (.object 4)).read (.member 2 "c") = some (.integer 7) ∧
    (exampleStore.assign_key 2 "b" (.object 4)).read (.member 2 "b") = some (.integer 7) :=
  ⟨(keyed_access_inserts_and_assigns exampleStore 2 4 "c" (by decide) (Or.inr rfl)
      (by decide)).2.1,
    ((keyed_access_inserts_and_assigns exampleStore 2 4 "c" (by decide) (Or.inr rfl)
      (by decide)).2.2.2.2.1 rfl).1,
    (keyed_access_inserts_and_assigns exampleStore 2 4 "b" (by decide) (Or.inr rfl)
      (by decide)).2.2.2.2.2.1 rfl,
    ((keyed_access_inserts_and_assigns exampleStore 2 4 "c" (by decide) (Or.inr rfl)
      (by decide)).2.2.2.2.2.2 (fun _ he => nomatch he)).1,
    ((keyed_access_inserts_and_assigns exampleStore 2 4 "b" (by decide) (Or.inr rfl)
      (by decide)).2.2.2.2.2.2 (fun _ he => by cases he; decide)).1⟩

theorem operator_index_key_other (v : CVariant) (key : String)
    (h1 : v.m_type ≠ .VariantTypeNull) (h2 : v.m_type ≠ .VariantTypeObject) :
    CVariant.operator_index_key v key = (v, .sentinel) := by
  cases v <;> simp [CVariant.m_type] at h1 h2 <;> rfl

theorem operator_index_key_const_absent (v : CVariant) (key : String)
    (h : v.isMember key = false) : CVariant.operator_index_key_const v key = .sentinel := by
  cases v <;> try rfl
  rename_i m
  simp only [CVariant.isMember] at h
  simp [CVariant.operator_index_key_const, h]

theorem operator_index_position_out (v : CVariant) (position : Nat)
    (h : ¬ (v.m_type = .VariantTypeArray ∧ position < v.size)) :
    CVariant.operator_index_position v position = .ok .sentinel := by
  cases v <;> try rfl
  rename_i xs
  have hp : ¬ position < (CVariant.array xs).size := fun hp => h ⟨rfl, hp⟩
  simp [CVariant.operator_index_position, hp]

theorem operator_index_position_rvalue_out (n v : CVariant) (position : Nat)
    (h : ¬ (v.m_type = .VariantTypeArray ∧ position < v.size)) :
    CVariant.operator_index_position_rvalue n v position
      = .ok (v, CVariant.copy_construct n) := by
  cases v <;> try rfl
  rename_i xs
  have hp : ¬ position < (CVariant.array xs).size := fun hp => h ⟨rfl, hp⟩
  simp [CVariant.operator_index_position_rvalue, hp]

theorem sentinel_read (st : Store) (hs : st.sentinelIntact) :
    ∃ n, st.read (.object ConstNullVariant) = some n ∧
      n.m_type = .VariantTypeConstNull ∧ n.isNull = true :=
  ⟨st ConstNullVariant, rfl, hs, by simp [CVariant.isNull, show (st ConstNullVariant).m_type
    = .VariantTypeConstNull from hs]⟩

/-- C9. Keyed lookup.  The const `v[key]` changes nothing; it denotes the
mapped value when `v` is an Object containing `key`, and the static sentinel
when the key is absent or `v` is not an Object (Null included).  The mutable
`v[key]` on a variant that is neither Null nor an Object denotes the sentinel
and changes nothing.  The sentinel, as long as it has the tag it is
initialised with, is a ConstNull-tagged value with `isNull()` true. -/
theorem keyed_lookup_guarded (st : Store) (a : Addr) (key : String) :
    (st.index_key_const a key).1 = st ∧
    (∀ m x, st a = .object m → CVariant.map_find m key = some x →
      (st.index_key_const a key).2 = .member a key ∧
      st.read (st.index_key_const a key).2 = some x) ∧
    ((st a).isMember key = false →
      (st.index_key_const a key).2 = .object ConstNullVariant ∧
      (st.sentinelIntact →
        ∃ n, st.read (st.index_key_const a key).2 = some n ∧
          n.m_type = .VariantTypeConstNull ∧ n.isNull = true)) ∧
    ((st a).m_type ≠ .VariantTypeNull → (st a).m_type ≠ .VariantTypeObject →
      st.index_key a key = (st, .object ConstNullVariant) ∧
      (st.sentinelIntact →
        ∃ n, st.read (st.index_key a key).2 = some n ∧
          n.m_type = .VariantTypeConstNull ∧ n.isNull = true)) := by
  refine ⟨rfl, fun m x hm hx => ?_, fun habs => ?_, fun h1 h2 => ?_⟩
  · simp [index_key_const, hm, CVariant.operator_index_key_const, hx, CVariant.Slot.toRef,
      read]
  · have hr : (st.index_key_const a key).2 = .object ConstNullVariant := by
      simp only [index_key_const, operator_index_key_const_absent _ key habs,
        CVariant.Slot.toRef]
    rw [hr]
    exact ⟨rfl, sentinel_read st⟩
  · have hr : st.index_key a key = (st, .object ConstNullVariant) := by
      simp only [index_key, operator_index_key_other _ key h1 h2, CVariant.Slot.toRef,
        Function.update_eq_self]
    rw [hr]
    exact ⟨rfl, sentinel_read st⟩

/-- C9, at a concrete store: lookups in the object at address 2, in the string
at address 3 and in a default-constructed variant. -/
theorem keyed_lookup_guarded_witness :
    exampleStore.read (exampleStore.index_key_const 2 "b").2 = some (.string "x") ∧
    (exampleStore.index_key_const 2 "zz").2 = .object ConstNullVariant ∧
    (∃ n, exampleStore.read (exampleStore.index_key_const 5 "k").2 = some n ∧
      n.m_type = .VariantTypeConstNull ∧ n.isNull = true) ∧
    exampleStore.index_key 3 "k" = (exampleStore, .object ConstNullVariant) :=
  ⟨((keyed_lookup_guarded exampleStore 2 "b").2.1 _ _ rfl rfl).2,
    ((keyed_lookup_guarded exampleStore 2 "zz").2.2.1 rfl).1,
    ((keyed_lookup_guarded exampleStore 5 "k").2.2.1 rfl).2 (by decide),
    ((keyed_lookup_guarded exampleStore 3 "k").2.2.2 (by decide) (by decide)).1⟩

/-! ## Indexed access -/

/-- C10. Indexed access.  When `v` is an Array and `position < size()`, the
mutable and the const `v[position]` denote the element at `position` and
change nothing, and the move-qualified form returns that element and leaves a
Null one in its place.  In every other case (position not below `size()`, or
any other tag, Null included) the mutable and the const form denote the static
sentinel, the move-qualified form returns a copy of it, and nothing changes;
the sentinel, as long as it has the tag it is initialised with, is
ConstNull-tagged with `isNull()` true.  In no case does `at` raise
`std::out_of_range`. -/
theorem indexed_access_guarded (st : Store) (a : Addr) (position : Nat) :
    (∀ xs, st a = .array xs → position < (st a).size →
      ∃ x, xs[position]? = some x ∧
        st.index_position a position = .ok (st, .element a position) ∧
        st.read (.element a position) = some x ∧
        st.index_position_rvalue a position
          = .ok (Function.update st a (.array (xs.set position .null)), x)) ∧
    (¬ ((st a).m_type = .VariantTypeArray ∧ position < (st a).size) →
      st.index_position a position = .ok (st, .object ConstNullVariant) ∧
      st.index_position_rvalue a position = .ok (st, st ConstNullVariant) ∧
      (st.sentinelIntact →
        ∃ n, st.read (.object ConstNullVariant) = some n ∧ n = st ConstNullVariant ∧
          n.m_type = .VariantTypeConstNull ∧ n.isNull = true)) ∧
    (∀ e, st.index_position a position ≠ .error e ∧
      st.index_position_rvalue a position ≠ .error e) := by
  have hsize : ∀ xs : VariantArray, position < (CVariant.array xs).size →
      position < xs.length := by
    intro xs h
    simp only [CVariant.size, toUInt32] at h
    exact lt_of_lt_of_le h (Nat.mod_le _ _)
  have hn : CVariant.copy_construct (st ConstNullVariant) = st ConstNullVariant :=
    CVariant.copy_construct_eq _
  have inRange : ∀ xs, st a = .array xs → position < (st a).size →
      ∃ x, xs[position]? = some x ∧
        st.index_position a position = .ok (st, .element a position) ∧
        st.read (.element a position) = some x ∧
        st.index_position_rvalue a position
          = .ok (Function.update st a (.array (xs.set position .null)), x) := by
    intro xs hv hp
    rw [hv] at hp
    have hlen := hsize xs hp
    have hp' : position < toUInt32 xs.length := hp
    refine ⟨xs[position], List.getElem?_eq_getElem hlen, ?_, ?_, ?_⟩
    · simp [index_position, hv, CVariant.operator_index_position, CVariant.size, hp',
        CVariant.vector_at, hlen, Except.map, CVariant.Slot.toRef]
    · simp [read, hv, List.getElem?_eq_getElem hlen]
    · simp [index_position_rvalue, hv, CVariant.operator_index_position_rvalue,
        CVariant.size, hp', CVariant.vector_at, hlen, Except.map,
        CVariant.move_construct, CVariant.operator_assign_move, CVariant.m_type,
        List.getD_eq_getElem?_getD, List.getElem?_eq_getElem hlen]
  have outRange : ¬ ((st a).m_type = .VariantTypeArray ∧ position < (st a).size) →
      st.index_position a position = .ok (st, .object ConstNullVariant) ∧
      st.index_position_rvalue a position = .ok (st, st ConstNullVariant) ∧
      (st.sentinelIntact →
        ∃ n, st.read (.object ConstNullVariant) = some n ∧ n = st ConstNullVariant ∧
          n.m_type = .VariantTypeConstNull ∧ n.isNull = true) := by
    intro hnot
    refine ⟨?_, ?_, fun hs => ⟨st ConstNullVariant, rfl, rfl, hs, ?_⟩⟩
    · simp only [index_position, operator_index_position_out _ _ hnot, Except.map,
        CVariant.Slot.toRef]
    · simp only [index_position_rvalue, operator_index_position_rvalue_out _ _ _ hnot,
        Except.map, hn, Function.update_eq_self]
    · simp [CVariant.isNull, show (st ConstNullVariant).m_type = .VariantTypeConstNull from hs]
  refine ⟨inRange, outRange, fun e => ?_⟩
  by_cases h : (st a).m_type = .VariantTypeArray ∧ position < (st a).size
  · obtain ⟨xs, hv⟩ : ∃ xs, st a = .array xs := by
      cases hv : st a <;> simp [hv, CVariant.m_type] at h
      exact ⟨_, rfl⟩
    obtain ⟨x, _, h1, _, h2⟩ := inRange xs hv h.2
    rw [h1, h2]
    exact ⟨by simp, by simp⟩
  · obtain ⟨h1, h2, _⟩ := outRange h
    rw [h1, h2]
    exact ⟨by simp, by simp⟩

/-- C10, at a concrete store: positions 1 and 2 of the two-element array at
address 1, and position 0 of a default-constructed variant and of a string. -/
theorem indexed_access_guarded_witness :
    exampleStore.index_position 1 1 = .ok (exampleStore, .element 1 1) ∧
    exampleStore.index_position 1 2 = .ok (exampleStore, .object ConstNullVariant) ∧
    exampleStore.index_position 5 0 = .ok (exampleStore, .object ConstNullVariant) ∧
    (∃ n, exampleStore.read (.object ConstNullVariant) = some n ∧
      n = exampleStore ConstNullVariant ∧
      n.m_type = .VariantTypeConstNull ∧ n.isNull = true) ∧
    exampleStore.index_position_rvalue 3 0 ≠ .error .out_of_range :=
  ⟨by
      obtain ⟨x, _, h, _⟩ := (indexed_access_guarded exampleStore 1 1).1 _ rfl (by decide)
      exact h,
    ((indexed_access_guarded exampleStore 1 2).2.1 (by decide)).1,
    ((indexed_access_guarded exampleStore 5 0).2.1 (by decide)).1,
    ((indexed_access_guarded exampleStore 5 0).2.1 (by decide)).2.2 (by decide),
    ((indexed_access_guarded exampleStore 3 0).2.2 .out_of_range).2⟩

end Store

namespace CVariant

/-! ## push_back and append -/

theorem move_construct_eq (x : CVariant) : move_construct x = (x, null) := by
  simp [move_construct, operator_assign_move, m_type]

/-- C7. `push_back` and `append`, copy and move forms, of a value `x` held
by another object: on a Null variant the result is an Array with `size()` 1
whose element 0 is `x`; on an Array with elements `a` the result is the Array
with elements `a` followed by `x` (one element more, the first `a.length`
unchanged and in order, the last one `x`); on every other tag the variant is
unchanged.  A move form that appends leaves `x` Null, one that does not append
leaves `x` as it was. -/
theorem push_back_appends (self x : CVariant) :
    (self.m_type = .VariantTypeNull →
      push_back self x false = array [x] ∧ (push_back self x false).size = 1 ∧
      (push_back self x false).m_type = .VariantTypeArray ∧
      Slot.read null (push_back self x false) (.element 0) = some x ∧
      push_back_move self x = (array [x], null)) ∧
    (∀ a : VariantArray, self = array a →
      push_back self x false = array (a ++ [x]) ∧ (a ++ [x]).length = a.length + 1 ∧
      (∀ i : Nat, i < a.length → (a ++ [x])[i]? = a[i]?) ∧
      (a ++ [x])[a.length]? = some x ∧
      push_back_move self x = (array (a ++ [x]), null)) ∧
    (self.m_type ≠ .VariantTypeNull → self.m_type ≠ .VariantTypeArray →
      push_back self x false = self ∧ push_back_move self x = (self, x)) ∧
    append self x false = push_back self x false ∧
    append_move self x = push_back_move self x := by
  refine ⟨fun h => ?_, fun a h => ?_, fun h1 h2 => ?_, rfl, rfl⟩
  · cases self <;> simp [m_type] at h
    simp [push_back, push_back_move, m_type, copy_construct_eq, move_construct_eq, size,
      toUInt32, Slot.read]
  · subst h
    simp only [push_back, push_back_move, m_type, copy_construct_eq, move_construct_eq]
    refine ⟨by simp, by simp, fun i hi => ?_, by simp, by simp⟩
    exact List.getElem?_append_left hi
  · cases self <;> simp [m_type] at h1 h2 <;> simp [push_back, push_back_move, m_type]

/-- C7, at concrete inputs: one element pushed onto a default-constructed
variant, onto an array of two, and onto a string. -/
theorem push_back_appends_witness :
    (push_back default (string "x") false = array [string "x"] ∧
      (push_back default (string "x") false).size = 1 ∧
      (push_back default (string "x") false).m_type = .VariantTypeArray ∧
      Slot.read null (push_back default (string "x") false) (.element 0)
        = some (string "x") ∧
      push_back_move default (string "x") = (array [string "x"], null)) ∧
    push_back (array [integer 1, null]) (boolean true) false
      = array [integer 1, null, boolean true] ∧
    push_back (string "s") (integer 1) false = string "s" :=
  ⟨(push_back_appends default (string "x")).1 rfl,
    ((push_back_appends (array [integer 1, null]) (boolean true)).2.1 _ rfl).1,
    ((push_back_appends (string "s") (integer 1)).2.2.1 (by decide) (by decide)).1⟩

end CVariant

namespace CVariant

/-! ## Conversions -/

/-- C12. Fallback on unsupported tags: `asInteger`, `asUnsignedInteger` and
`asDouble` return exactly the fallback when the tag is Boolean, Null,
ConstNull, Array or Object; `asBoolean` does when the tag is Null, ConstNull,
Array or Object; `asString` (both overloads) when it is WideString, Null,
ConstNull, Array or Object; `asWideString` (both overloads) when it is String,
Null, ConstNull, Array or Object. -/
theorem fallback_on_unsupported_tags (rt : CRuntime) (cfg : BuildConfig) (v : CVariant)
    (fbi : Int) (fbu : Nat) (fbd : Double) (fbb : Bool) (fbs fbw : String) :
    (v.m_type ∈ [VariantType.VariantTypeBoolean, .VariantTypeNull, .VariantTypeConstNull,
        .VariantTypeArray, .VariantTypeObject] →
      asInteger rt cfg v fbi = fbi ∧ asUnsignedInteger rt cfg v fbu = fbu ∧
      asDouble rt v fbd = fbd) ∧
    (v.m_type ∈ [VariantType.VariantTypeNull, .VariantTypeConstNull, .VariantTypeArray,
        .VariantTypeObject] →
      asBoolean v fbb = fbb) ∧
    (v.m_type ∈ [VariantType.VariantTypeWideString, .VariantTypeNull, .VariantTypeConstNull,
        .VariantTypeArray, .VariantTypeObject] →
      asString rt v fbs = fbs ∧ asString_rvalue rt v fbs = fbs) ∧
    (v.m_type ∈ [VariantType.VariantTypeString, .VariantTypeNull, .VariantTypeConstNull,
        .VariantTypeArray, .VariantTypeObject] →
      asWideString rt v fbw = fbw ∧ asWideString_rvalue rt v fbw = fbw) := by
  refine ⟨fun h => ?_, fun h => ?_, fun h => ?_, fun h => ?_⟩ <;>
    cases v <;> simp [m_type] at h <;>
    simp [asInteger, asUnsignedInteger, asDouble, asBoolean, asString, asString_rvalue,
      asWideString, asWideString_rvalue]

/-- C12, at concrete inputs: an Object asked for an integer, a Null asked for
a boolean, a WideString asked for a narrow string and a String asked for a wide
one. -/
theorem fallback_on_unsupported_tags_witness :
    asInteger libc.runtime BuildConfig.linux (object [("k", integer 1)]) (-1) = -1 ∧
    asBoolean null true = true ∧
    asString libc.runtime (wstring "w") "fb" = "fb" ∧
    asWideString libc.runtime (string "s") "fb" = "fb" :=
  ⟨((fallback_on_unsupported_tags libc.runtime BuildConfig.linux (object [("k", integer 1)])
      (-1) 0 Double.zero false "" "").1 (by decide)).1,
    (fallback_on_unsupported_tags libc.runtime BuildConfig.linux null 0 0 Double.zero true
      "" "").2.1 (by decide),
    ((fallback_on_unsupported_tags libc.runtime BuildConfig.linux (wstring "w") 0 0 Double.zero
      false "fb" "").2.2.1 (by decide)).1,
    ((fallback_on_unsupported_tags libc.runtime BuildConfig.linux (string "s") 0 0 Double.zero
      false "" "fb").2.2.2 (by decide)).1⟩

end CVariant

namespace CVariant

/-- C14. Boolean coercion from text: for a narrow string `s`, `asBoolean` is
false when `s` is empty, exactly "0" or exactly "false", and true for every
other `s`, whatever the fallback; the same holds for a wide string. -/
theorem asBoolean_of_text (s : String) (fb : Bool) :
    (s = "" ∨ s = "0" ∨ s = "false" →
      asBoolean (ofString s) fb = false ∧ asBoolean (ofWString s) fb = false) ∧
    (s ≠ "" → s ≠ "0" → s ≠ "false" →
      asBoolean (ofString s) fb = true ∧ asBoolean (ofWString s) fb = true) := by
  have he : s.isEmpty = true ↔ s = "" := String.isEmpty_iff s
  refine ⟨fun h => ?_, fun h1 h2 h3 => ?_⟩
  · rcases h with h | h | h <;> subst h <;> exact ⟨rfl, rfl⟩
  · have hne : s.isEmpty = false := by
      cases hs : s.isEmpty
      · rfl
      · exact absurd (he.mp hs) h1
    simp [asBoolean, ofString, ofWString, hne, h2, h3]

/-- C14, at concrete inputs: the three false texts and four truthy ones, each
against the opposite fallback. -/
theorem asBoolean_of_text_witness :
    asBoolean (ofString "") true = false ∧ asBoolean (ofString "0") true = false ∧
    asBoolean (ofString "false") true = false ∧ asBoolean (ofString "no") false = true ∧
    asBoolean (ofString "False") false = true ∧ asBoolean (ofString "00") false = true ∧
    asBoolean (ofWString " 0") false = true :=
  ⟨((asBoolean_of_text "" true).1 (Or.inl rfl)).1,
    ((asBoolean_of_text "0" true).1 (Or.inr (Or.inl rfl))).1,
    ((asBoolean_of_text "false" true).1 (Or.inr (Or.inr rfl))).1,
    ((asBoolean_of_text "no" false).2 (by decide) (by decide) (by decide)).1,
    ((asBoolean_of_text "False" false).2 (by decide) (by decide) (by decide)).1,
    ((asBoolean_of_text "00" false).2 (by decide) (by decide) (by decide)).1,
    ((asBoolean_of_text " 0" false).2 (by decide) (by decide) (by decide)).2⟩

end CVariant

namespace CVariant

/-- C17. The 32-bit accessors are narrowing casts: `asInteger32(fb)` is the
value in the `int32_t` range that agrees with `asInteger(fb)` in the low 32
bits, and `asUnsignedInteger32(fb)` is `asUnsignedInteger(fb)` modulo `2 ^ 32`,
with no range check (an Integer holding `2 ^ 32 + 5` yields 5); when the tag
supports no integer conversion the result is the fallback itself, for a
fallback of the 32-bit type. -/
theorem narrowing_accessors (rt : CRuntime) (cfg : BuildConfig) (v : CVariant)
    (fb : Int) (fbu : Nat) :
    (asInteger32 rt cfg v fb % 2 ^ 32 = asInteger rt cfg v fb % 2 ^ 32 ∧
      -2 ^ 31 ≤ asInteger32 rt cfg v fb ∧ asInteger32 rt cfg v fb < 2 ^ 31) ∧
    asUnsignedInteger32 rt cfg v fbu = asUnsignedInteger rt cfg v fbu % 2 ^ 32 ∧
    asInteger32 rt cfg (ofInt64 (2 ^ 32 + 5)) fb = 5 ∧
    asUnsignedInteger32 rt cfg (ofUInt64 (2 ^ 32 + 5)) fbu = 5 ∧
    (v.m_type ∈ [VariantType.VariantTypeBoolean, .VariantTypeNull, .VariantTypeConstNull,
        .VariantTypeArray, .VariantTypeObject] →
      (-2 ^ 31 ≤ fb → fb < 2 ^ 31 → asInteger32 rt cfg v fb = fb) ∧
      (fbu < 2 ^ 32 → asUnsignedInteger32 rt cfg v fbu = fbu)) := by
  refine ⟨⟨?_, ?_, ?_⟩, rfl, ?_, ?_, fun h => ⟨fun h1 h2 => ?_, fun h1 => ?_⟩⟩
  · simp only [asInteger32, toInt32]
    omega
  · simp only [asInteger32, toInt32]
    omega
  · simp only [asInteger32, toInt32]
    omega
  · simp only [asInteger32, asInteger, ofInt64, toInt32]
    norm_num
  · simp only [asUnsignedInteger32, asUnsignedInteger, ofUInt64, toUInt32]
    norm_num
  · have : asInteger rt cfg v fb = fb := by
      cases v <;> simp [m_type] at h <;> simp [asInteger]
    simp only [asInteger32, toInt32, this]
    omega
  · have : asUnsignedInteger rt cfg v fbu = fbu := by
      cases v <;> simp [m_type] at h <;> simp [asUnsignedInteger]
    simp only [asUnsignedInteger32, toUInt32, this]
    omega

end CVariant

namespace Store

/-! ## Move-qualified keyed access -/

/-- C11, as the code has it. The move-qualified `v[key]` on an Object obtains
the entry with `(*m_data.map)[key]` and moves it out: afterwards `key` is a
member of `v` whether it was one or not, its entry is Null, the variant
returned is the value `key` had before (Null when `key` was absent), and every
other key has the presence and value it had; an absent key is inserted, which
raises the number of entries by 1, and a present key leaves that number as it
was.  On every other tag the call returns a copy of the static sentinel, which
is ConstNull-tagged as long as the sentinel has the tag it is initialised with,
and changes nothing. -/
theorem rvalue_keyed_access (st : Store) (a : Addr) (key : String) :
    (∀ m, st a = .object m → CVariant.mapOrdered (st a) →
      ((st.index_key_rvalue a key).1 a).m_type = .VariantTypeObject ∧
      ((st.index_key_rvalue a key).1 a).isMember key = true ∧
      (st.index_key_rvalue a key).1.read (.member a key) = some .null ∧
      (st.index_key_rvalue a key).2 = (CVariant.map_find m key).getD .null ∧
      (∀ other, other ≠ key →
        (st.index_key_rvalue a key).1.read (.member a other) = CVariant.map_find m other) ∧
      ((st a).isMember key = false →
        (CVariant.entries ((st.index_key_rvalue a key).1 a)).length = m.length + 1) ∧
      ((st a).isMember key = true →
        (CVariant.entries ((st.index_key_rvalue a key).1 a)).length = m.length)) ∧
    ((st a).m_type ≠ .VariantTypeObject →
      st.index_key_rvalue a key = (st, st ConstNullVariant) ∧
      (st.sentinelIntact →
        (st.index_key_rvalue a key).2.m_type = .VariantTypeConstNull ∧
        (st.index_key_rvalue a key).2.isNull = true)) := by
  refine ⟨fun m hv ho => ?_, fun hno => ?_⟩
  · have hasc : CVariant.keysAscending m := by
      rw [hv] at ho
      exact ho
    have hself := CVariant.map_find_index_self m key
    obtain ⟨e, he⟩ := Option.isSome_iff_exists.mp hself
    have hst : (st.index_key_rvalue a key).1 a
        = .object (CVariant.map_set (CVariant.map_index m key) key .null) := by
      simp [index_key_rvalue, hv, CVariant.operator_index_key_rvalue,
        CVariant.move_construct, CVariant.operator_assign_move, CVariant.m_type]
    have hres : (st.index_key_rvalue a key).2
        = (CVariant.map_find (CVariant.map_index m key) key).getD .null := by
      simp [index_key_rvalue, hv, CVariant.operator_index_key_rvalue,
        CVariant.move_construct, CVariant.operator_assign_move, CVariant.m_type]
    have hset := CVariant.map_find_set_self (CVariant.map_index m key) key .null hself
    have hlen : ∀ (n : VariantMap) (v : CVariant),
        (CVariant.map_set n key v).length = n.length := by
      intro n v
      induction n with
      | nil => rfl
      | cons p ps ih =>
        obtain ⟨k, x⟩ := p
        by_cases hk : k = key
        · simp [CVariant.map_set, hk]
        · simp [CVariant.map_set, hk, ih]
    refine ⟨by rw [hst]; rfl, ?_, ?_, ?_, fun other hne => ?_, fun habs => ?_, fun hpres => ?_⟩
    · rw [hst]
      simp [CVariant.isMember, hset]
    · simp only [read, hst]
      exact hset
    · rw [hres]
      cases hf : CVariant.map_find m key with
      | none =>
        rw [CVariant.map_index, CVariant.map_find_insert_absent key _ m hf]
        rfl
      | some x =>
        rw [CVariant.map_index, CVariant.map_insert_present key _ m hasc (by simp [hf]), hf]
    · simp only [read, hst]
      rw [CVariant.map_find_set_other _ key other _ hne, CVariant.map_index,
        CVariant.map_find_insert_other key other _ m hne]
    · have hnone : CVariant.map_find m key = none := by
        cases h : CVariant.map_find m key with
        | none => rfl
        | some x => simp [hv, CVariant.isMember, h] at habs
      rw [hst]
      simp only [CVariant.entries, hlen, CVariant.map_index]
      exact CVariant.map_insert_length_absent key _ m hnone
    · have hsome : (CVariant.map_find m key).isSome = true := by
        simpa [hv, CVariant.isMember] using hpres
      rw [hst]
      simp only [CVariant.entries, hlen, CVariant.map_index,
        CVariant.map_insert_present key _ m hasc hsome]
  · have hr : CVariant.operator_index_key_rvalue (st ConstNullVariant) (st a) key
        = (st a, st ConstNullVariant) := by
      cases hv : st a <;> simp [hv, CVariant.m_type] at hno <;>
        simp [CVariant.operator_index_key_rvalue, CVariant.copy_construct_eq]
    have hidx : st.index_key_rvalue a key = (st, st ConstNullVariant) := by
      simp only [index_key_rvalue, hr, Function.update_eq_self]
    refine ⟨hidx, fun hs => ?_⟩
    rw [hidx]
    exact ⟨hs, by simp [CVariant.isNull, show (st ConstNullVariant).m_type
      = .VariantTypeConstNull from hs]⟩

/-- C11, at a concrete store: the present key "b" and the absent key "zz" of
the object at address 2, and the string at address 3. -/
theorem rvalue_keyed_access_witness :
    (exampleStore.index_key_rvalue 2 "b").2 = .string "x" ∧
    (exampleStore.index_key_rvalue 2 "b").1.read (.member 2 "b") = some .null ∧
    ((exampleStore.index_key_rvalue 2 "zz").1 2).isMember "zz" = true ∧
    exampleStore.index_key_rvalue 3 "k" = (exampleStore, exampleStore ConstNullVariant) :=
  ⟨((rvalue_keyed_access exampleStore 2 "b").1 _ rfl (by decide)).2.2.2.1,
    ((rvalue_keyed_access exampleStore 2 "b").1 _ rfl (by decide)).2.2.1,
    ((rvalue_keyed_access exampleStore 2 "zz").1 _ rfl (by decide)).2.1,
    ((rvalue_keyed_access exampleStore 3 "k").2 (by decide)).1⟩

/-- C11 fails as stated: the move-qualified `v["zz"]` on the object at address
2, which has the keys "a" and "b", inserts the key "zz". -/
theorem rvalue_keyed_access_inserts :
    (exampleStore 2).isMember "zz" = false ∧ (exampleStore 2).size = 2 ∧
    ((exampleStore.index_key_rvalue 2 "zz").1 2).isMember "zz" = true ∧
    ((exampleStore.index_key_rvalue 2 "zz").1 2).size = 3 :=
  ⟨rfl, rfl, rfl, rfl⟩

end Store

namespace CVariant

/-! ## erase -/

theorem map_find_erase_self (m : VariantMap) (key : String) :
    map_find (map_erase m key) key = none := by
  induction m with
  | nil => rfl
  | cons p ps ih =>
    obtain ⟨k, x⟩ := p
    by_cases hk : k = key
    · simpa [map_erase, hk] using ih
    · simpa [map_erase, hk, map_find] using ih

theorem map_find_erase_other (m : VariantMap) (key other : String) (h : other ≠ key) :
    map_find (map_erase m key) other = map_find m other := by
  have hne : ¬ key = other := fun h' => h h'.symm
  induction m with
  | nil => rfl
  | cons p ps ih =>
    obtain ⟨k, x⟩ := p
    by_cases hk : k = key
    · subst hk
      simpa [map_erase, map_find, hne] using ih
    · by_cases hko : k = other
      · subst hko
        simp [map_erase, hk, map_find]
      · simpa [map_erase, hk, map_find, hko] using ih

theorem map_erase_absent (m : VariantMap) (key : String) (h : map_find m key = none) :
    map_erase m key = m := by
  induction m with
  | nil => rfl
  | cons p ps ih =>
    obtain ⟨k, x⟩ := p
    have hk : ¬ k = key := by
      intro hk
      simp [map_find, hk] at h
    simp only [map_find, hk, if_false] at h
    have := ih h
    simp only [map_erase] at this ⊢
    simp [hk, this]

theorem map_erase_length_present (m : VariantMap) (key : String) (hm : keysAscending m)
    (h : (map_find m key).isSome = true) : (map_erase m key).length + 1 = m.length := by
  induction m with
  | nil => simp [map_find] at h
  | cons p ps ih =>
    obtain ⟨k, x⟩ := p
    by_cases hk : k = key
    · subst hk
      have habs := map_find_head_absent k x ps hm
      have := map_erase_absent ps k habs
      simp only [map_erase] at this ⊢
      simp [this]
    · simp only [map_find, hk, if_false] at h
      have := ih (List.pairwise_cons.mp hm).2 h
      simp only [map_erase] at this ⊢
      simp [hk, this]

/-- C18. `erase`.  `erase(key)` turns a Null variant into an empty Object; on
an Object it removes the entry of `key` if there is one (afterwards
`isMember(key)` is false, there is one entry less, and every other key has the
presence and value it had) and changes nothing if there is none.
`erase(position)` turns a Null variant into an empty Array; on an Array with
`position < size()` it removes the element at `position` (`size()` drops by 1,
the elements before `position` stay, those after it move down by one in order)
and changes nothing when `position` is not below `size()`.  On every other tag
both forms change nothing. -/
theorem erase_removes (v : CVariant) (key : String) (position : Nat) :
    (v.m_type = .VariantTypeNull →
      erase_key v key = object [] ∧ erase_position v position = array []) ∧
    (∀ m, v = object m →
      (erase_key v key).m_type = .VariantTypeObject ∧
      (erase_key v key).isMember key = false ∧
      (∀ other, other ≠ key →
        map_find (entries (erase_key v key)) other = map_find m other) ∧
      (v.isMember key = false → erase_key v key = v) ∧
      (v.isMember key = true → mapOrdered v →
        (entries (erase_key v key)).length + 1 = m.length)) ∧
    (∀ a, v = array a →
      (position < v.size →
        erase_position v position = array (a.eraseIdx position) ∧
        (erase_position v position).size + 1 = v.size ∧
        (a.eraseIdx position).length + 1 = a.length ∧
        (∀ i : Nat, i < position → (a.eraseIdx position)[i]? = a[i]?) ∧
        (∀ i : Nat, position ≤ i → (a.eraseIdx position)[i]? = a[i + 1]?)) ∧
      (¬ position < v.size → erase_position v position = v)) ∧
    (v.m_type ≠ .VariantTypeNull → v.m_type ≠ .VariantTypeObject → erase_key v key = v) ∧
    (v.m_type ≠ .VariantTypeNull → v.m_type ≠ .VariantTypeArray →
      erase_position v position = v) := by
  refine ⟨fun h => ?_, fun m hv => ?_, fun a hv => ⟨fun hp => ?_, fun hp => ?_⟩,
    fun h1 h2 => ?_, fun h1 h2 => ?_⟩
  · cases v <;> simp [m_type] at h
    exact ⟨rfl, rfl⟩
  · subst hv
    refine ⟨rfl, ?_, fun other hne => ?_, fun habs => ?_, fun hpres ho => ?_⟩
    · simp [erase_key, isMember, map_find_erase_self]
    · simp [erase_key, entries, map_find_erase_other m key other hne]
    · have hnone : map_find m key = none := by
        cases h : map_find m key with
        | none => rfl
        | some x => simp [isMember, h] at habs
      simp [erase_key, map_erase_absent m key hnone]
    · simp only [erase_key, entries]
      exact map_erase_length_present m key ho hpres
  · subst hv
    have hp' : position < toUInt32 a.length := hp
    have hlen : position < a.length := lt_of_lt_of_le hp' (Nat.mod_le _ _)
    have hl : (a.eraseIdx position).length = a.length - 1 := List.length_eraseIdx_of_lt hlen
    have he : erase_position (array a) position = array (a.eraseIdx position) := by
      simp [erase_position, m_type, size, hp']
    refine ⟨he, ?_, ?_, fun i hi => ?_, fun i hi => ?_⟩
    · rw [he]
      simp only [size, toUInt32, hl] at hp' ⊢
      omega
    · omega
    · exact List.getElem?_eraseIdx_of_lt a position i hi
    · exact List.getElem?_eraseIdx_of_ge a position i hi
  · subst hv
    have hp' : ¬ position < size (array a) := hp
    simp [erase_position, m_type, hp']
  · cases v <;> simp [m_type] at h1 h2 <;> rfl
  · cases v <;> simp [m_type] at h1 h2 <;> rfl

/-- C18, at concrete inputs: a key and a position erased from small
containers, from a default-constructed variant and from a string. -/
theorem erase_removes_witness :
    erase_key default "k" = object [] ∧ erase_position default 0 = array [] ∧
    erase_key (object [("a", integer 1), ("b", integer 2)]) "a" = object [("b", integer 2)] ∧
    erase_key (object [("a", integer 1)]) "z" = object [("a", integer 1)] ∧
    erase_position (array [integer 1, integer 2, integer 3]) 1
      = array [integer 1, integer 3] ∧
    erase_position (array [integer 1]) 1 = array [integer 1] ∧
    erase_key (string "s") "k" = string "s" ∧ erase_position (string "s") 0 = string "s" :=
  ⟨((erase_removes default "k" 0).1 rfl).1, ((erase_removes default "k" 0).1 rfl).2,
    rfl,
    ((erase_removes (object [("a", integer 1)]) "z" 0).2.1 _ rfl).2.2.2.1 rfl,
    ((erase_removes (array [integer 1, integer 2, integer 3]) "k" 1).2.2.1 _ rfl).1
      (by decide) |>.1,
    ((erase_removes (array [integer 1]) "k" 1).2.2.1 _ rfl).2 (by decide),
    (erase_removes (string "s") "k" 0).2.2.2.1 (by decide) (by decide),
    (erase_removes (string "s") "k" 0).2.2.2.2 (by decide) (by decide)⟩

end CVariant

namespace CVariant

/-! ## size and empty -/

theorem String_isEmpty_eq (s : String) : s.isEmpty = decide (s.length = 0) := by
  have h1 : s.isEmpty = true ↔ s = "" := String.isEmpty_iff s
  have h2 : s.length = 0 ↔ s = "" := by
    constructor
    · intro h
      have : s.data = [] := List.length_eq_zero.mp h
      exact String.ext this
    · intro h
      rw [h]
      rfl
  cases hs : s.isEmpty
  · have : ¬ s.length = 0 := fun h => by
      have := h1.mpr (h2.mp h)
      rw [hs] at this
      exact Bool.false_ne_true this
    simp [this]
  · simp [h2.mpr (h1.mp hs)]

theorem longText_length : longText.length = 2 ^ 32 := by
  unfold longText
  exact List.length_replicate _ _

/-- C19, as the code has it. `size()` is the number of entries of an Object,
of elements of an Array, of characters of a String or WideString, reduced
modulo `2 ^ 32` by the `unsigned int` result type, and 0 for every other tag;
`empty()` is true exactly when the variant is Null or is an Object, Array,
String or WideString without entries, elements or characters.  Below `2 ^ 32`
entries, elements or characters, `size()` is that number and `empty()` is true
exactly for Null and for those four tags with `size()` 0.  Integer,
UnsignedInteger, Boolean, Double and ConstNull have `size()` 0 and `empty()`
false, so a ConstNull value has `isNull()` true, `size()` 0 and `empty()`
false. -/
theorem size_and_empty (v : CVariant) :
    v.size = v.count % 2 ^ 32 ∧
    (v.empty = true ↔ v.m_type = .VariantTypeNull ∨
      (v.m_type ∈ [VariantType.VariantTypeObject, .VariantTypeArray, .VariantTypeString,
          .VariantTypeWideString] ∧ v.count = 0)) ∧
    (v.count < 2 ^ 32 →
      v.size = v.count ∧
      (v.empty = true ↔ v.m_type = .VariantTypeNull ∨
        (v.m_type ∈ [VariantType.VariantTypeObject, .VariantTypeArray,
            .VariantTypeString, .VariantTypeWideString] ∧ v.size = 0))) ∧
    (v.m_type ∈ [VariantType.VariantTypeInteger, .VariantTypeUnsignedInteger,
        .VariantTypeBoolean, .VariantTypeDouble, .VariantTypeConstNull] →
      v.size = 0 ∧ v.empty = false) ∧
    (v.m_type = .VariantTypeConstNull →
      v.isNull = true ∧ v.size = 0 ∧ v.empty = false) := by
  have hsize : v.size = v.count % 2 ^ 32 := by
    cases v <;> simp [size, count, toUInt32]
  have hempty : v.empty = true ↔ v.m_type = .VariantTypeNull ∨
      (v.m_type ∈ [VariantType.VariantTypeObject, .VariantTypeArray, .VariantTypeString,
          .VariantTypeWideString] ∧ v.count = 0) := by
    cases v <;> simp [empty, count, m_type, String_isEmpty_eq, List.isEmpty_iff]
  refine ⟨hsize, hempty, fun hlt => ?_, fun h => ?_, fun h => ?_⟩
  · have hs : v.size = v.count := by rw [hsize, Nat.mod_eq_of_lt hlt]
    rw [hs]
    exact ⟨rfl, hempty⟩
  · cases v <;> simp [m_type] at h <;> exact ⟨rfl, rfl⟩
  · cases v <;> simp [m_type] at h
    exact ⟨rfl, rfl, rfl⟩

/-- C19 fails as stated: a String of `2 ^ 32` characters has `size()` 0, which
is not its length, and `empty()` false. -/
theorem size_wraps_on_long_text :
    (ofString longText).m_type = .VariantTypeString ∧ longText.length = 2 ^ 32 ∧
    (ofString longText).size = 0 ∧ (ofString longText).empty = false := by
  refine ⟨rfl, longText_length, ?_, ?_⟩
  · show toUInt32 longText.length = 0
    rw [longText_length]
    rfl
  · show longText.isEmpty = false
    rw [String_isEmpty_eq, longText_length]
    rfl

end CVariant

namespace Store

/-! ## swap -/

/-- C20. `swap` exchanges two variants unconditionally: after `a.swap(b)` the
object `a` has the value `b` had and `b` the value `a` had, whatever their
tags, and no other object changes; a second swap restores the store.  No
ConstNull guard stands in the way: a ConstNull-tagged `a` swapped with a `b`
of another tag is no longer ConstNull-tagged, and so the static sentinel loses
its tag when it is swapped with such a `b`. -/
theorem swap_exchanges (st : Store) (a b : Addr) :
    (st.swap a b) a = st b ∧ (st.swap a b) b = st a ∧
    (∀ c, c ≠ a → c ≠ b → (st.swap a b) c = st c) ∧
    (st.swap a b).swap a b = st ∧
    ((st a).m_type = .VariantTypeConstNull → (st b).m_type ≠ .VariantTypeConstNull →
      ((st.swap a b) a).m_type ≠ .VariantTypeConstNull ∧
      ((st.swap a b) b).m_type = .VariantTypeConstNull) ∧
    (st.sentinelIntact → (st b).m_type ≠ .VariantTypeConstNull →
      ¬ (st.swap ConstNullVariant b).sentinelIntact) := by
  have h1 : (st.swap a b) a = st b := by
    by_cases h : a = b
    · subst h
      simp [swap]
    · simp [swap, Function.update_noteq h]
  have h2 : (st.swap a b) b = st a := by simp [swap]
  refine ⟨h1, h2, fun c hca hcb => ?_, ?_, fun ha hb => ?_, fun hs hb => ?_⟩
  · simp [swap, Function.update_noteq hca, Function.update_noteq hcb]
  · funext c
    by_cases hcb : c = b
    · subst hcb
      simp only [swap, Function.update_same]
      by_cases h : a = c
      · subst h
        simp
      · simp [Function.update_noteq h]
    · by_cases hca : c = a
      · subst hca
        simp [swap, Function.update_noteq hcb]
      · simp [swap, Function.update_noteq hcb, Function.update_noteq hca]
  · rw [h1, h2]
    exact ⟨hb, ha⟩
  · intro hi
    have h0 : (st.swap ConstNullVariant b) ConstNullVariant = st b := by
      by_cases h : ConstNullVariant = b
      · rw [← h]
        simp [swap]
      · simp [swap, Function.update_noteq h]
    unfold sentinelIntact at hi
    rw [h0] at hi
    exact hb hi

/-- C20, at a concrete store: the array at address 1 and the object at
address 2 are exchanged, and the sentinel swapped with the integer at address 4
holds that integer. -/
theorem swap_exchanges_witness :
    (exampleStore.swap 1 2) 1 = exampleStore 2 ∧ (exampleStore.swap 1 2) 2 = exampleStore 1 ∧
    (exampleStore.swap 1 2).swap 1 2 = exampleStore ∧
    (exampleStore.swap ConstNullVariant 4) ConstNullVariant = .integer 7 ∧
    ¬ (exampleStore.swap ConstNullVariant 4).sentinelIntact :=
  ⟨(swap_exchanges exampleStore 1 2).1, (swap_exchanges exampleStore 1 2).2.1,
    (swap_exchanges exampleStore 1 2).2.2.2.1, rfl,
    (swap_exchanges exampleStore ConstNullVariant 4).2.2.2.2.2 (by decide) (by decide)⟩

end Store

namespace CVariant

/-! ## Doubles as text -/

/-- C13, as the code has it: a Double is converted to text.  For every
Double variant and every fallback, `asString` returns `std::to_string` of the
value and `asWideString` returns `std::to_wstring` of it, in the copying and in
the move-qualified overload; the fallback is not read. -/
theorem asString_of_double (rt : CRuntime) (d : Double) (fb : String) :
    asString rt (ofDouble d) fb = rt.doubleToString d ∧
    asString_rvalue rt (ofDouble d) fb = rt.doubleToString d ∧
    asWideString rt (ofDouble d) fb = rt.doubleToWString d ∧
    asWideString_rvalue rt (ofDouble d) fb = rt.doubleToWString d :=
  ⟨rfl, rfl, rfl, rfl⟩

/-- C13 fails as stated: the Double variant 1.5 with the fallback "fb" gives the
text "1.500000" from `asString` and from `asWideString`, not the fallback. -/
theorem asString_of_double_not_fallback :
    (ofDouble ⟨0x3FF8000000000000⟩).m_type = .VariantTypeDouble ∧
    asString libc.runtime (ofDouble ⟨0x3FF8000000000000⟩) "fb" = "1.500000" ∧
    asWideString libc.runtime (ofDouble ⟨0x3FF8000000000000⟩) "fb" = "1.500000" ∧
    asString libc.runtime (ofDouble ⟨0x3FF8000000000000⟩) "fb" ≠ "fb" ∧
    asWideString libc.runtime (ofDouble ⟨0x3FF8000000000000⟩) "fb" ≠ "fb" := by
  have h : Double.toFixed ⟨0x3FF8000000000000⟩ = "1.500000" := by decide
  refine ⟨rfl, h, h, ?_, ?_⟩
  · show Double.toFixed ⟨0x3FF8000000000000⟩ ≠ "fb"
    rw [h]; decide
  · show Double.toFixed ⟨0x3FF8000000000000⟩ ≠ "fb"
    rw [h]; decide

end CVariant

/-! ## Numeric text -/

/-- The character at an offset of the buffer that lies within the C string is
the terminating NUL exactly at the end of the C string. -/
theorem charAt_list_eq_nul (l : List Char) (n : Nat)
    (h : n ≤ (l.takeWhile (fun c => c != '\x00')).length) :
    (l ++ ['\x00']).getD n '\x00' = '\x00' ↔ n = (l.takeWhile (fun c => c != '\x00')).length := by
  induction l generalizing n with
  | nil =>
    simp at h
    subst h
    simp
  | cons c l ih =>
    by_cases hc : c = '\x00'
    · subst hc
      simp at h
      subst h
      simp
    · have htw : (c :: l).takeWhile (fun c => c != '\x00') =
          c :: l.takeWhile (fun c => c != '\x00') := by
        simp [List.takeWhile_cons, hc]
      rw [htw] at h ⊢
      cases n with
      | zero => simp [hc]
      | succ m =>
        simp only [List.length_cons, Nat.add_le_add_iff_right] at h
        simp only [List.cons_append, List.getD_cons_succ, List.length_cons,
          Nat.add_right_cancel_iff]
        exact ih m h

/-- The test `*end == 0` of the six parsing functions holds exactly when the
parser consumed the whole C string. -/
theorem charAt_eq_nul (tmp : String) (n : Nat) (h : n ≤ (c_str tmp).length) :
    charAt tmp n = '\x00' ↔ n = (c_str tmp).length :=
  charAt_list_eq_nul tmp.data n h

/-- A parsing function returns the parser's value when the parser consumed the
whole C string, and the fallback otherwise. -/
theorem parse_result {α : Type} (tmp : String) (r : α × Nat) (fb : α)
    (h : r.2 ≤ (c_str tmp).length) :
    (if charAt tmp r.2 = '\x00' then r.1 else fb) =
      if r.2 = (c_str tmp).length then r.1 else fb := by
  by_cases hn : r.2 = (c_str tmp).length
  · rw [if_pos ((charAt_eq_nul tmp r.2 h).2 hn), if_pos hn]
  · rw [if_neg (fun hc => hn ((charAt_eq_nul tmp r.2 h).1 hc)), if_neg hn]

/-- The preprocessed integer parsers consume what the runtime's parser behind
them consumes. -/
theorem strtoll_end_le (rt : CRuntime) (cfg : BuildConfig) (text : List Char)
    (h : rt.EndsInside text) :
    (strtoll rt cfg text).2 ≤ text.length ∧ (strtoull rt cfg text).2 ≤ text.length ∧
    (wcstoll rt cfg text).2 ≤ text.length ∧ (wcstoull rt cfg text).2 ≤ text.length := by
  obtain ⟨h1, h2, h3, h4, h5, h6⟩ := h
  unfold strtoll strtoull wcstoll wcstoull
  cases cfg.parsesThroughDouble <;> simp [Prod.map, *]

namespace CVariant

/-- C15, as the code has it: numeric text gives the parser's value
exactly when the parser stops at the terminating NUL of the C string.  Let
`text` be the right-trimmed text up to its first NUL character, and let the
parsers leave `end` inside it.  Then for a String and for a WideString variant
`asInteger`, `asUnsignedInteger` and `asDouble` return the value of their
parser when it consumed the whole of `text`, and the fallback otherwise.  When
`text` is empty (empty text, text of spaces, tabs, CR and LF only, text that
starts with NUL) the result is therefore the parser's value for the empty
string, and what follows an embedded NUL takes no part in the result. -/
theorem numeric_text_fallback (rt : CRuntime) (cfg : BuildConfig) (s : String)
    (fbi : Int) (fbu : Nat) (fbd : Double) (h : rt.EndsInside (c_str (trimRight s))) :
    asInteger rt cfg (string s) fbi =
      (if (strtoll rt cfg (c_str (trimRight s))).2 = (c_str (trimRight s)).length
        then (strtoll rt cfg (c_str (trimRight s))).1 else fbi) ∧
    asInteger rt cfg (wstring s) fbi =
      (if (wcstoll rt cfg (c_str (trimRight s))).2 = (c_str (trimRight s)).length
        then (wcstoll rt cfg (c_str (trimRight s))).1 else fbi) ∧
    asUnsignedInteger rt cfg (string s) fbu =
      (if (strtoull rt cfg (c_str (trimRight s))).2 = (c_str (trimRight s)).length
        then (strtoull rt cfg (c_str (trimRight s))).1 else fbu) ∧
    asUnsignedInteger rt cfg (wstring s) fbu =
      (if (wcstoull rt cfg (c_str (trimRight s))).2 = (c_str (trimRight s)).length
        then (wcstoull rt cfg (c_str (trimRight s))).1 else fbu) ∧
    asDouble rt (string s) fbd =
      (if (rt.strtod (c_str (trimRight s))).2 = (c_str (trimRight s)).length
        then (rt.strtod (c_str (trimRight s))).1 else fbd) ∧
    asDouble rt (wstring s) fbd =
      (if (rt.wcstod (c_str (trimRight s))).2 = (c_str (trimRight s)).length
        then (rt.wcstod (c_str (trimRight s))).1 else fbd) ∧
    (c_str (trimRight s) = [] →
      asInteger rt cfg (string s) fbi = (strtoll rt cfg []).1 ∧
      asInteger rt cfg (wstring s) fbi = (wcstoll rt cfg []).1 ∧
      asUnsignedInteger rt cfg (string s) fbu = (strtoull rt cfg []).1 ∧
      asUnsignedInteger rt cfg (wstring s) fbu = (wcstoull rt cfg []).1 ∧
      asDouble rt (string s) fbd = (rt.strtod []).1 ∧
      asDouble rt (wstring s) fbd = (rt.wcstod []).1) := by
  obtain ⟨e1, e2, e3, e4⟩ := strtoll_end_le rt cfg _ h
  obtain ⟨-, -, -, -, e5, e6⟩ := h
  have r1 := parse_result (trimRight s) (strtoll rt cfg (c_str (trimRight s))) fbi e1
  have r2 := parse_result (trimRight s) (wcstoll rt cfg (c_str (trimRight s))) fbi e3
  have r3 := parse_result (trimRight s) (strtoull rt cfg (c_str (trimRight s))) fbu e2
  have r4 := parse_result (trimRight s) (wcstoull rt cfg (c_str (trimRight s))) fbu e4
  have r5 := parse_result (trimRight s) (rt.strtod (c_str (trimRight s))) fbd e5
  have r6 := parse_result (trimRight s) (rt.wcstod (c_str (trimRight s))) fbd e6
  have c1 : asInteger rt cfg (string s) fbi = _ := r1
  have c2 : asInteger rt cfg (wstring s) fbi = _ := r2
  have c3 : asUnsignedInteger rt cfg (string s) fbu = _ := r3
  have c4 : asUnsignedInteger rt cfg (wstring s) fbu = _ := r4
  have c5 : asDouble rt (string s) fbd = _ := r5
  have c6 : asDouble rt (wstring s) fbd = _ := r6
  refine ⟨c1, c2, c3, c4, c5, c6, ?_⟩
  intro hnil
  rw [c1, c2, c3, c4, c5, c6]
  rw [hnil] at e1 e2 e3 e4 e5 e6 ⊢
  simp only [List.length_nil, Nat.le_zero_eq] at e1 e2 e3 e4 e5 e6 ⊢
  rw [if_pos e1, if_pos e2, if_pos e3, if_pos e4, if_pos e5, if_pos e6]
  exact ⟨rfl, rfl, rfl, rfl, rfl, rfl⟩

/-- Witness of `numeric_text_fallback`: the C library's parsers on the text
"12abc" and on the text "42  ". -/
theorem numeric_text_fallback_witness :
    libc.runtime.EndsInside (c_str (trimRight "12abc")) ∧
    asInteger libc.runtime BuildConfig.darwin (string "12abc") (-1) = -1 ∧
    asInteger libc.runtime BuildConfig.darwin (string "42  ") (-1) = 42 :=
  ⟨by decide,
    (numeric_text_fallback libc.runtime BuildConfig.darwin "12abc" (-1) 0 Double.zero
      (by decide)).1.trans (by decide),
    (numeric_text_fallback libc.runtime BuildConfig.darwin "42  " (-1) 0 Double.zero
      (by decide)).1.trans (by decide)⟩

/-- C15 fails as stated where the parse does not advance and at an embedded NUL:
with the C library's parsers, empty text and text of trimmed white space give
0 and not the fallback, on the build that calls `strtoll` and on the build that
parses through `strtod`, and the text "12", NUL, "abc" gives 12. -/
theorem numeric_text_not_fallback :
    asInteger libc.runtime BuildConfig.darwin (string "") (-1) = 0 ∧
    asInteger libc.runtime BuildConfig.linux (string "") (-1) = 0 ∧
    asInteger libc.runtime BuildConfig.darwin (string " \t\r\n") (-1) = 0 ∧
    asInteger libc.runtime BuildConfig.darwin (wstring "") (-1) = 0 ∧
    asUnsignedInteger libc.runtime BuildConfig.darwin (string "") 7 = 0 ∧
    asDouble libc.runtime (string "") Double.nan = Double.zero ∧
    asInteger libc.runtime BuildConfig.darwin (string "12\x00abc") (-1) = 12 ∧
    asInteger libc.runtime BuildConfig.linux (string "12\x00abc") (-1) = 12 ∧
    asDouble libc.runtime (string "1.5\x00abc") Double.nan = ⟨0x3FF8000000000000⟩ := by
  refine ⟨?_, ?_, ?_, ?_, ?_, ?_, ?_, ?_, ?_⟩ <;> decide!

end CVariant

/-! ## Integer text -/

namespace libc

/-- A decimal digit is one of the characters `0` to `9`. -/
theorem isDigitIn_ten (c : Char) : isDigitIn 10 c = true ↔ 48 ≤ c.toNat ∧ c.toNat ≤ 57 := by
  unfold isDigitIn digitValue
  simp only [decide_eq_true_eq]
  split_ifs <;> omega

/-- A decimal digit is no white space. -/
theorem isspace_digit (c : Char) (h : isDigitIn 10 c = true) : isspace c = false := by
  rw [isDigitIn_ten] at h
  unfold isspace
  simp only [Bool.or_eq_false_iff, Bool.and_eq_false_iff, decide_eq_false_iff_not]
  omega

/-- A decimal digit does not continue after itself in the sense of a sign. -/
theorem digit_ne (c d : Char) (h : isDigitIn 10 c = true) (hd : d.toNat < 48 ∨ 57 < d.toNat) :
    c ≠ d := by
  rw [isDigitIn_ten] at h
  rintro rfl
  omega

/-- The characters that cannot continue a number are no digits of base 8, 10
or 16 markers. -/
theorem continuesNumber_false (c : Char) (h : continuesNumber c = false) :
    isDigitIn 10 c = false ∧ isDigitIn 8 c = false ∧ c ≠ '.' ∧ c ≠ 'e' ∧ c ≠ 'E' ∧ c ≠ 'x' ∧
      c ≠ 'X' := by
  unfold continuesNumber at h
  simp only [Bool.or_eq_false_iff, beq_eq_false_iff_ne, ne_eq] at h
  obtain ⟨⟨⟨⟨⟨h1, h2⟩, h3⟩, h4⟩, h5⟩, h6⟩ := h
  refine ⟨h1, ?_, h2, h3, h4, h5, h6⟩
  unfold isDigitIn at h1 ⊢
  simp only [decide_eq_false_iff_not] at h1 ⊢
  omega

/-- Dropping a prefix on which the test holds, before a rest whose first
character fails it. -/
theorem dropWhile_append_stop (p : Char → Bool) (l rest : List Char) (hl : ∀ c ∈ l, p c = true)
    (hr : ∀ c ∈ rest.head?, p c = false) : (l ++ rest).dropWhile p = rest := by
  induction l with
  | nil =>
    cases rest with
    | nil => rfl
    | cons c r =>
      have := hr c (by simp)
      simp [List.dropWhile_cons, this]
  | cons a l ih =>
    have ha := hl a (by simp)
    simp only [List.cons_append, List.dropWhile_cons, ha, if_true]
    exact ih (fun c hc => hl c (by simp [hc]))

/-- Taking a prefix on which the test holds, before a rest whose first
character fails it. -/
theorem takeWhile_append_stop (p : Char → Bool) (l rest : List Char) (hl : ∀ c ∈ l, p c = true)
    (hr : ∀ c ∈ rest.head?, p c = false) : (l ++ rest).takeWhile p = l := by
  induction l with
  | nil =>
    cases rest with
    | nil => rfl
    | cons c r =>
      have := hr c (by simp)
      simp [List.takeWhile_cons, this]
  | cons a l ih =>
    have ha := hl a (by simp)
    simp only [List.cons_append, List.takeWhile_cons, ha, if_true]
    rw [ih (fun c hc => hl c (by simp [hc]))]

end libc

namespace libc

/-- The first character of decimal digits followed by a rest. -/
theorem head_digits (digits tail : List Char) (hne : digits ≠ []) :
    ∃ d ds, digits = d :: ds ∧ (digits ++ tail).head? = some d := by
  cases digits with
  | nil => exact absurd rfl hne
  | cons d ds => exact ⟨d, ds, rfl, rfl⟩

/-- Decimal digits without a superfluous leading zero, followed by nothing or
by a character that cannot continue the number, are the subject sequence of an
integer with base 0, and denote their decimal value. -/
theorem integerSubject_decimal (digits tail : List Char) (hne : digits ≠ [])
    (hd : ∀ c ∈ digits, isDigitIn 10 c = true)
    (hlead : digits = ['0'] ∨ digits.head? ≠ some '0')
    (ht : ∀ c ∈ tail.head?, continuesNumber c = false) :
    integerSubject (digits ++ tail) = some (digitsValue 10 digits, digits.length) := by
  rcases hlead with h0 | h0
  · subst h0
    have hx : startsHex (['0'] ++ tail) = false := by
      cases tail with
      | nil => rfl
      | cons c r =>
        obtain ⟨-, -, -, -, -, hx1, hx2⟩ := continuesNumber_false c (ht c (by simp))
        simp [startsHex, hx1, hx2]
    have htw : (['0'] ++ tail).takeWhile (isDigitIn 8) = ['0'] :=
      takeWhile_append_stop _ _ _ (by simp; decide)
        (fun c hc => (continuesNumber_false c (ht c hc)).2.1)
    unfold integerSubject
    rw [hx]
    simp only [Bool.false_and, Bool.false_eq_true, if_false]
    have hb : ((['0'] ++ tail).head? == some '0') = true := rfl
    rw [hb]
    simp only [if_true]
    rw [htw]
    rfl
  · obtain ⟨d, ds, hds, hh⟩ := head_digits digits tail hne
    have hd0 : ((digits ++ tail).head? == some '0') = false := by
      rw [hh]
      rw [hds] at h0
      simpa using h0
    have hx : startsHex (digits ++ tail) = false := by
      unfold startsHex
      rw [hd0, Bool.false_and]
    have htw : (digits ++ tail).takeWhile (isDigitIn 10) = digits :=
      takeWhile_append_stop _ _ _ hd (fun c hc => (continuesNumber_false c (ht c hc)).1)
    unfold integerSubject
    rw [hx, hd0]
    simp only [Bool.false_and, Bool.false_eq_true, if_false]
    rw [htw]
    have : digits.isEmpty = false := by rw [hds]; rfl
    rw [this]
    simp

/-- Dropping the white space in front of a signed run of digits. -/
theorem dropWhile_isspace (ws sign digits tail : List Char)
    (hws : ∀ c ∈ ws, isspace c = true) (hsign : sign = [] ∨ sign = ['-'] ∨ sign = ['+'])
    (hne : digits ≠ []) (hd : ∀ c ∈ digits, isDigitIn 10 c = true) :
    (ws ++ sign ++ digits ++ tail).dropWhile isspace = sign ++ digits ++ tail := by
  rw [List.append_assoc, List.append_assoc, ← List.append_assoc sign]
  apply dropWhile_append_stop _ _ _ hws
  obtain ⟨d, ds, hds, -⟩ := head_digits digits tail hne
  have hdd := isspace_digit d (hd d (by rw [hds]; simp))
  rcases hsign with rfl | rfl | rfl
  · rw [hds]
    intro c hc
    simp at hc
    rw [← hc]; exact hdd
  · intro c hc
    simp at hc
    rw [← hc]; rfl
  · intro c hc
    simp at hc
    rw [← hc]; rfl

/-- The sign in front of a run of digits: its length and whether it is a
minus. -/
theorem sign_digits (sign digits tail : List Char)
    (hsign : sign = [] ∨ sign = ['-'] ∨ sign = ['+'])
    (hne : digits ≠ []) (hd : ∀ c ∈ digits, isDigitIn 10 c = true) :
    signLength (sign ++ digits ++ tail) = sign.length ∧
    isMinus (sign ++ digits ++ tail) = decide (sign = ['-']) ∧
    (sign ++ digits ++ tail).drop sign.length = digits ++ tail := by
  obtain ⟨d, ds, hds, -⟩ := head_digits digits tail hne
  have hdd := hd d (by rw [hds]; simp)
  have h1 : d ≠ '-' := digit_ne d '-' hdd (by decide)
  have h2 : d ≠ '+' := digit_ne d '+' hdd (by decide)
  rcases hsign with rfl | rfl | rfl
  · subst hds
    simp [signLength, isMinus, h1, h2]
  · simp [signLength, isMinus]
  · simp [signLength, isMinus]

/-- The function `strtoll` on a decimal integer literal. -/
theorem strtoll_decimal (ws sign digits tail : List Char)
    (hws : ∀ c ∈ ws, isspace c = true) (hsign : sign = [] ∨ sign = ['-'] ∨ sign = ['+'])
    (hne : digits ≠ []) (hd : ∀ c ∈ digits, isDigitIn 10 c = true)
    (hlead : digits = ['0'] ∨ digits.head? ≠ some '0')
    (ht : ∀ c ∈ tail.head?, continuesNumber c = false) :
    strtoll (ws ++ sign ++ digits ++ tail) =
      (if sign = ['-'] then max (-(digitsValue 10 digits : Int)) (-(2 ^ 63))
        else min (digitsValue 10 digits : Int) (2 ^ 63 - 1), (ws ++ sign ++ digits).length) := by
  obtain ⟨s1, s2, s3⟩ := sign_digits sign digits tail hsign hne hd
  unfold strtoll
  simp only [dropWhile_isspace ws sign digits tail hws hsign hne hd, s1, s2, s3,
    integerSubject_decimal digits tail hne hd hlead ht]
  simp only [List.length_append, decide_eq_true_eq]
  congr 1
  omega

end libc

/-- The characters which `trimRight` removes. -/
theorem mem_trimmed (c : Char) :
    c ∈ [' ', '\n', '\r', '\t'] ↔ ([' ', '\n', '\r', '\t'].contains c) = true := by
  simp

/-- The function `trimRight` removes a tail of spaces, tabs, CR and LF after a
text which does not end in one of them. -/
theorem trimRight_append (kept dropped : List Char)
    (hd : ∀ c ∈ dropped, c ∈ [' ', '\n', '\r', '\t'])
    (hk : ∀ c ∈ kept.getLast?, c ∉ [' ', '\n', '\r', '\t'])
    (hlen : kept.length < 2 ^ 64) :
    trimRight (String.mk (kept ++ dropped)) = String.mk kept := by
  have hdrop : (kept ++ dropped).reverse.dropWhile (fun c => [' ', '\n', '\r', '\t'].contains c) =
      kept.reverse := by
    rw [List.reverse_append]
    apply libc.dropWhile_append_stop
    · intro c hc
      exact (mem_trimmed c).1 (hd c (List.mem_reverse.1 hc))
    · intro c hc
      rw [List.head?_reverse] at hc
      have := hk c hc
      rw [mem_trimmed] at this
      simpa using this
  unfold trimRight find_last_not_of
  simp only [hdrop]
  cases hr : kept.reverse with
  | nil =>
    have : kept = [] := List.reverse_eq_nil_iff.1 hr
    subst this
    simp [npos]
  | cons c r =>
    have hl : (c :: r).length = kept.length := by rw [← hr, List.length_reverse]
    simp only [hl]
    have hpos : 0 < kept.length := by rw [← hl]; simp
    have : (kept.length - 1 + 1) % 2 ^ 64 = kept.length := by
      rw [Nat.sub_add_cancel hpos, Nat.mod_eq_of_lt hlen]
    rw [this, List.take_left']
    rfl

/-- Every text splits into a part that does not end in a trimmed character and
a tail of trimmed characters. -/
theorem exists_trim_split (rest : List Char) :
    ∃ rk rd, rest = rk ++ rd ∧ (∀ c ∈ rd, c ∈ [' ', '\n', '\r', '\t']) ∧
      (∀ c ∈ rk.getLast?, c ∉ [' ', '\n', '\r', '\t']) := by
  induction rest using List.reverseRecOn with
  | nil => exact ⟨[], [], rfl, by simp, by simp⟩
  | append_singleton l a ih =>
    by_cases ha : a ∈ [' ', '\n', '\r', '\t']
    · obtain ⟨rk, rd, h1, h2, h3⟩ := ih
      refine ⟨rk, rd ++ [a], by rw [h1, List.append_assoc], ?_, h3⟩
      intro c hc
      rcases List.mem_append.1 hc with h | h
      · exact h2 c h
      · rw [List.mem_singleton.1 h]; exact ha
    · refine ⟨l ++ [a], [], by simp, by simp, ?_⟩
      intro c hc
      simp at hc
      rw [← hc]; exact ha

/-- The C string of a text whose front holds no NUL. -/
theorem c_str_append (pre tail : List Char) (hp : ∀ c ∈ pre, c ≠ '\x00') :
    c_str (String.mk (pre ++ tail)) = pre ++ tail.takeWhile (fun c => c != '\x00') := by
  unfold c_str
  show (pre ++ tail).takeWhile _ = _
  induction pre with
  | nil => rfl
  | cons a l ih =>
    have ha : (a != '\x00') = true := by simpa using hp a (by simp)
    simp only [List.cons_append, List.takeWhile_cons, ha, if_true]
    rw [ih (fun c hc => hp c (by simp [hc]))]

/-- White space, a sign and decimal digits hold no NUL, and the last of them
is no trimmed character. -/
theorem literal_chars (ws sign digits : List Char)
    (hws : ∀ c ∈ ws, libc.isspace c = true) (hsign : sign = [] ∨ sign = ['-'] ∨ sign = ['+'])
    (hne : digits ≠ []) (hd : ∀ c ∈ digits, libc.isDigitIn 10 c = true) :
    (∀ c ∈ ws ++ sign ++ digits, c ≠ '\x00') ∧
    (∀ c ∈ (ws ++ sign ++ digits).getLast?, c ∉ [' ', '\n', '\r', '\t']) := by
  constructor
  · intro c hc
    rcases List.mem_append.1 hc with h | h
    · rcases List.mem_append.1 h with h | h
      · have := hws c h
        rintro rfl
        exact absurd this (by decide)
      · rcases hsign with rfl | rfl | rfl
        · simp at h
        · rw [List.mem_singleton.1 h]; decide
        · rw [List.mem_singleton.1 h]; decide
    · exact libc.digit_ne c _ (hd c h) (by decide)
  · intro c hc
    rw [List.getLast?_append_of_ne_nil _ hne] at hc
    have hm : c ∈ digits := List.mem_of_mem_getLast? hc
    have h := hd c hm
    intro hmem
    simp only [List.mem_cons, List.mem_singleton, List.not_mem_nil, or_false] at hmem
    rcases hmem with rfl | rfl | rfl | rfl <;> exact absurd h (by decide)

/-- The function `str2int64` as a test on the parser's result. -/
theorem str2int64_eq (rt : CRuntime) (cfg : BuildConfig) (str : String) (fb : Int) :
    str2int64 rt cfg str fb =
      if charAt (trimRight str) (strtoll rt cfg (c_str (trimRight str))).2 = '\x00'
        then (strtoll rt cfg (c_str (trimRight str))).1 else fb := rfl

/-- The function `str2int64` returns the parser's value for an integer literal
between white space when the parser stops after the last digit. -/
theorem str2int64_number (rt : CRuntime) (cfg : BuildConfig)
    (ws sign digits trailing : List Char) (fb v : Int)
    (hws : ∀ c ∈ ws, libc.isspace c = true) (hsign : sign = [] ∨ sign = ['-'] ∨ sign = ['+'])
    (hne : digits ≠ []) (hd : ∀ c ∈ digits, libc.isDigitIn 10 c = true)
    (htrail : ∀ c ∈ trailing, c ∈ [' ', '\n', '\r', '\t'])
    (hlen : (ws ++ sign ++ digits).length < 2 ^ 64)
    (hparse : strtoll rt cfg (ws ++ sign ++ digits) = (v, (ws ++ sign ++ digits).length)) :
    str2int64 rt cfg (String.mk (ws ++ sign ++ digits ++ trailing)) fb = v := by
  obtain ⟨h0, hlast⟩ := literal_chars ws sign digits hws hsign hne hd
  have hc : c_str (String.mk (ws ++ sign ++ digits)) = ws ++ sign ++ digits := by
    have := c_str_append (ws ++ sign ++ digits) [] h0
    simpa using this
  rw [str2int64_eq, trimRight_append _ _ htrail hlast hlen, hc, hparse]
  have := (charAt_eq_nul (String.mk (ws ++ sign ++ digits)) (ws ++ sign ++ digits).length
    (by rw [hc])).2 (by rw [hc])
  rw [if_pos this]

/-- The function `str2int64` returns the fallback when a character other than
NUL follows the literal and the parser stops in front of it. -/
theorem str2int64_garbage (rt : CRuntime) (cfg : BuildConfig)
    (ws sign digits : List Char) (c : Char) (rest : List Char) (fb : Int)
    (hws : ∀ c ∈ ws, libc.isspace c = true) (hsign : sign = [] ∨ sign = ['-'] ∨ sign = ['+'])
    (hne : digits ≠ []) (hd : ∀ c ∈ digits, libc.isDigitIn 10 c = true)
    (hc0 : c ≠ '\x00') (hct : c ∉ [' ', '\n', '\r', '\t'])
    (hlen : (ws ++ sign ++ digits ++ c :: rest).length < 2 ^ 64)
    (hparse : ∀ tail, (strtoll rt cfg (ws ++ sign ++ digits ++ c :: tail)).2 =
      (ws ++ sign ++ digits).length) :
    str2int64 rt cfg (String.mk (ws ++ sign ++ digits ++ c :: rest)) fb = fb := by
  obtain ⟨h0, -⟩ := literal_chars ws sign digits hws hsign hne hd
  obtain ⟨rk, rd, hsplit, hrd, hrk⟩ := exists_trim_split rest
  have hlast : ∀ x ∈ (ws ++ sign ++ digits ++ c :: rk).getLast?, x ∉ [' ', '\n', '\r', '\t'] := by
    intro x hx
    rw [List.getLast?_append_of_ne_nil _ (List.cons_ne_nil c rk)] at hx
    cases rk with
    | nil =>
      simp at hx
      rw [← hx]; exact hct
    | cons a l =>
      rw [List.getLast?_cons_cons] at hx
      exact hrk x hx
  have hlen2 : (ws ++ sign ++ digits ++ c :: rk).length < 2 ^ 64 := by
    rw [hsplit] at hlen
    simp only [List.length_append, List.length_cons] at hlen ⊢
    omega
  have htext : ws ++ sign ++ digits ++ c :: rest = (ws ++ sign ++ digits ++ c :: rk) ++ rd := by
    rw [hsplit]; simp
  have hc : c_str (String.mk (ws ++ sign ++ digits ++ c :: rk)) =
      ws ++ sign ++ digits ++ c :: rk.takeWhile (fun c => c != '\x00') := by
    rw [c_str_append _ _ h0]
    have : (c != '\x00') = true := by simpa using hc0
    simp [List.takeWhile_cons, this]
  rw [htext, str2int64_eq, trimRight_append _ _ hrd hlast hlen2, hc]
  have hp := hparse (rk.takeWhile (fun c => c != '\x00'))
  have hne2 : ¬ charAt (String.mk (ws ++ sign ++ digits ++ c :: rk))
      (strtoll rt cfg (ws ++ sign ++ digits ++ c :: rk.takeWhile (fun c => c != '\x00'))).2 =
      '\x00' := by
    rw [hp]
    intro h
    have := (charAt_eq_nul _ _ (by rw [hc]; simp)).1 h
    rw [hc] at this
    simp at this
  rw [if_neg hne2]

namespace Double

/-- The fuelled search finds the binary logarithm. -/
theorem floorLog2Fuel_eq (fuel n : Nat) (h : n ≤ fuel) : floorLog2Fuel fuel n = Nat.log2 n := by
  induction fuel generalizing n with
  | zero =>
    have : n = 0 := by omega
    subst this
    rw [Nat.log2]
    simp [floorLog2Fuel]
  | succ f ih =>
    rw [Nat.log2, floorLog2Fuel]
    by_cases h2 : n < 2
    · rw [if_pos h2, if_neg (by omega)]
    · rw [if_neg h2, if_pos (by omega), ih (n / 2) (by omega)]

/-- The position of the leading bit is the binary logarithm. -/
theorem floorLog2_eq (n : Nat) : floorLog2 n = Nat.log2 n := floorLog2Fuel_eq n n (Nat.le_refl n)

/-- The binary logarithm of a number shifted left. -/
theorem log2_shift (n j : Nat) (hn : n ≠ 0) : Nat.log2 (n * 2 ^ j) = Nat.log2 n + j := by
  have hpos : n * 2 ^ j ≠ 0 := Nat.mul_ne_zero hn (by positivity)
  apply Nat.le_antisymm
  · apply Nat.le_of_lt_succ
    rw [Nat.log2_lt hpos]
    have : n < 2 ^ (Nat.log2 n + 1) := Nat.lt_log2_self
    calc n * 2 ^ j < 2 ^ (Nat.log2 n + 1) * 2 ^ j :=
          Nat.mul_lt_mul_of_pos_right this (by positivity)
      _ = 2 ^ (Nat.log2 n + j).succ := by rw [← pow_add]; congr 1; omega
  · rw [Nat.le_log2 hpos, pow_add]
    exact Nat.mul_le_mul_right _ (Nat.log2_self_le hn)

/-- The fields of the bit pattern of a normal number with the exponent `k` of
at most 52 and the 53-bit significand `m`, and of its opposite. -/
theorem fields_of_bits (k m : Nat) (hk : k ≤ 52) (h1 : 2 ^ 52 ≤ m) (h2 : m < 2 ^ 53) :
    exponent ⟨(k + 1022) * 2 ^ 52 + m⟩ = k + 1023 ∧
    fraction ⟨(k + 1022) * 2 ^ 52 + m⟩ = m - 2 ^ 52 ∧
    sign ⟨(k + 1022) * 2 ^ 52 + m⟩ = 0 ∧
    exponent (negate ⟨(k + 1022) * 2 ^ 52 + m⟩) = k + 1023 ∧
    fraction (negate ⟨(k + 1022) * 2 ^ 52 + m⟩) = m - 2 ^ 52 ∧
    sign (negate ⟨(k + 1022) * 2 ^ 52 + m⟩) = 1 := by
  have e52 : (2 : Nat) ^ 52 = 4503599627370496 := by norm_num
  have e53 : (2 : Nat) ^ 53 = 9007199254740992 := by norm_num
  have e63 : (2 : Nat) ^ 63 = 9223372036854775808 := by norm_num
  have e64 : (2 : Nat) ^ 64 = 18446744073709551616 := by norm_num
  have e11 : (2 : Nat) ^ 11 = 2048 := by norm_num
  simp only [exponent, fraction, sign, negate, e52, e53, e63, e64, e11] at h1 h2 ⊢
  refine ⟨?_, ?_, ?_, ?_, ?_, ?_⟩ <;> omega

end Double

namespace Double

/-- Rounding an exact quotient changes nothing. -/
theorem roundHalfEven_exact (q den : Nat) (hden : 0 < den) : roundHalfEven (q * den) den = q := by
  unfold roundHalfEven
  rw [Nat.mul_mod_left, Nat.mul_div_cancel _ hden, if_pos (by omega)]

/-- The bit pattern of `(double)n` for a positive integer below `2 ^ 53`: the
exponent is the position of the leading bit, the significand is `n` shifted to
53 bits. -/
theorem ofNat_bits (n : Nat) (hn1 : 1 ≤ n) (hn2 : n < 2 ^ 53) :
    ofNat n = ⟨(Nat.log2 n + 1022) * 2 ^ 52 + n * 2 ^ (52 - Nat.log2 n)⟩ ∧
    Nat.log2 n ≤ 52 ∧ 2 ^ 52 ≤ n * 2 ^ (52 - Nat.log2 n) ∧ n * 2 ^ (52 - Nat.log2 n) < 2 ^ 53 := by
  have hn0 : n ≠ 0 := by omega
  have hk : Nat.log2 n ≤ 52 := Nat.le_of_lt_succ ((Nat.log2_lt hn0).2 hn2)
  have hlo : 2 ^ 52 ≤ n * 2 ^ (52 - Nat.log2 n) := by
    calc 2 ^ 52 = 2 ^ Nat.log2 n * 2 ^ (52 - Nat.log2 n) := by
          rw [← pow_add]; congr 1; omega
      _ ≤ n * 2 ^ (52 - Nat.log2 n) := Nat.mul_le_mul_right _ (Nat.log2_self_le hn0)
  have hhi : n * 2 ^ (52 - Nat.log2 n) < 2 ^ 53 := by
    calc n * 2 ^ (52 - Nat.log2 n) < 2 ^ (Nat.log2 n + 1) * 2 ^ (52 - Nat.log2 n) :=
          Nat.mul_lt_mul_of_pos_right Nat.lt_log2_self (by positivity)
      _ = 2 ^ 53 := by rw [← pow_add]; congr 1; omega
  refine ⟨?_, hk, hlo, hhi⟩
  have hN : floorLog2 (n * 2 ^ 1074) = Nat.log2 n + 1074 := by
    rw [floorLog2_eq, log2_shift n 1074 hn0]
  have h1 : floorLog2 1 = 0 := by
    rw [floorLog2_eq]
    have := (Nat.log2_lt (n := 1) (k := 1) (by omega)).2 (by norm_num)
    omega
  have hle : 1 * 2 ^ (Nat.log2 n + 1074 - 0) ≤ n * 2 ^ 1074 := by
    rw [Nat.one_mul, Nat.sub_zero, pow_add]
    exact Nat.mul_le_mul_right _ (Nat.log2_self_le hn0)
  have hs : Nat.log2 n + 1074 - 0 - 52 = Nat.log2 n + 1022 := by omega
  have hsplit : n * 2 ^ 1074 = n * 2 ^ (52 - Nat.log2 n) * (1 * 2 ^ (Nat.log2 n + 1022)) := by
    have e : 52 - Nat.log2 n + (Nat.log2 n + 1022) = 1074 := by omega
    rw [Nat.one_mul, Nat.mul_assoc, ← pow_add, e]
  have hround : roundHalfEven (n * 2 ^ 1074) (1 * 2 ^ (Nat.log2 n + 1022)) =
      n * 2 ^ (52 - Nat.log2 n) := by
    rw [hsplit]
    exact roundHalfEven_exact _ _ (by positivity)
  have hmin : min ((Nat.log2 n + 1022) * 2 ^ 52 + n * 2 ^ (52 - Nat.log2 n)) (2047 * 2 ^ 52) =
      (Nat.log2 n + 1022) * 2 ^ 52 + n * 2 ^ (52 - Nat.log2 n) := by
    apply Nat.min_eq_left
    have e52 : (2 : Nat) ^ 52 = 4503599627370496 := by norm_num
    have e53 : (2 : Nat) ^ 53 = 9007199254740992 := by norm_num
    rw [e53] at hhi
    rw [e52]
    omega
  unfold ofNat ofRat
  simp only [hN, h1, if_pos hle, hs, hround, hmin]

/-- The integer part of `(double)n` is `n`, and that of its opposite is `-n`,
for every `n` up to `2 ^ 53`. -/
theorem truncate_ofNat (n : Nat) (hn : n ≤ 2 ^ 53) :
    (ofNat n).truncate = some (n : Int) ∧ (ofNat n).negate.truncate = some (-(n : Int)) := by
  rcases Nat.eq_zero_or_pos n with h0 | hpos
  · subst h0
    constructor <;> decide!
  rcases Nat.lt_or_ge n (2 ^ 53) with hlt | hge
  · obtain ⟨hb, hk, hlo, hhi⟩ := ofNat_bits n hpos hlt
    obtain ⟨f1, f2, f3, f4, f5, f6⟩ := fields_of_bits (Nat.log2 n) _ hk hlo hhi
    rw [hb]
    have hm : 2 ^ 52 + (n * 2 ^ (52 - Nat.log2 n) - 2 ^ 52) = n * 2 ^ (52 - Nat.log2 n) := by
      omega
    have hmag : (if Nat.log2 n + 1023 = 0 then 0
        else if 1075 ≤ Nat.log2 n + 1023 then
          n * 2 ^ (52 - Nat.log2 n) * 2 ^ (Nat.log2 n + 1023 - 1075)
        else n * 2 ^ (52 - Nat.log2 n) / 2 ^ (1075 - (Nat.log2 n + 1023))) = n := by
      rw [if_neg (by omega)]
      by_cases h52 : Nat.log2 n = 52
      · rw [if_pos (by omega), h52]
        simp
      · rw [if_neg (by omega)]
        have : 1075 - (Nat.log2 n + 1023) = 52 - Nat.log2 n := by omega
        rw [this, Nat.mul_div_cancel _ (by positivity)]
    unfold truncate
    rw [f1, f2, f3, f4, f5, f6, hm, hmag]
    have hne : ¬ (Nat.log2 n + 1023 = 2047) := by omega
    simp [hne]
  · have : n = 2 ^ 53 := Nat.le_antisymm hn hge
    subst this
    constructor <;> decide!

end Double

namespace libc

/-- The function `tolower` leaves a decimal digit as it is. -/
theorem tolower_digit (c : Char) (h : isDigitIn 10 c = true) : tolower c = c := by
  rw [isDigitIn_ten] at h
  unfold tolower
  rw [if_neg (by omega)]

/-- A run of decimal digits, followed by nothing or by a character that cannot
continue the number, read as a decimal floating constant. -/
theorem floatConstant_decimal (digits tail : List Char) (hne : digits ≠ [])
    (hd : ∀ c ∈ digits, isDigitIn 10 c = true)
    (ht : ∀ c ∈ tail.head?, continuesNumber c = false) :
    floatConstant 10 10 'e' 'E' (digits ++ tail) =
      some (Double.ofNat (digitsValue 10 digits), digits.length) := by
  have htw : (digits ++ tail).takeWhile (isDigitIn 10) = digits :=
    takeWhile_append_stop _ _ _ hd (fun c hc => (continuesNumber_false c (ht c hc)).1)
  have hpoint : (tail.head? == some '.') = false := by
    cases tail with
    | nil => rfl
    | cons c r =>
      have := (continuesNumber_false c (ht c (by simp))).2.2.1
      simpa using this
  have hexp : exponentPart 'e' 'E' tail = (false, 0, 0) := by
    unfold exponentPart
    cases tail with
    | nil => rfl
    | cons c r =>
      obtain ⟨-, -, -, h1, h2, -, -⟩ := continuesNumber_false c (ht c (by simp))
      simp [h1, h2]
  have hemp : digits.isEmpty = false := by
    cases digits with
    | nil => exact absurd rfl hne
    | cons d ds => rfl
  unfold floatConstant
  simp only [htw, List.drop_left, hpoint, hemp, Bool.false_and, Bool.false_eq_true, if_false,
    Nat.add_zero, List.length_nil, hexp, List.append_nil, pow_zero, Nat.mul_one]
  rfl

/-- A run of decimal digits, followed by nothing or by a character that cannot
continue the number, is the subject sequence of a floating-point number. -/
theorem floatSubject_decimal (digits tail : List Char) (hne : digits ≠ [])
    (hd : ∀ c ∈ digits, isDigitIn 10 c = true)
    (ht : ∀ c ∈ tail.head?, continuesNumber c = false) :
    floatSubject (digits ++ tail) =
      some (Double.ofNat (digitsValue 10 digits), digits.length) := by
  obtain ⟨d, ds, hds, hh⟩ := head_digits digits tail hne
  have hdd := hd d (by rw [hds]; simp)
  have hlow := tolower_digit d hdd
  have hi : d ≠ 'i' := digit_ne d 'i' hdd (by decide)
  have hn : d ≠ 'n' := digit_ne d 'n' hdd (by decide)
  have hx : startsHex (digits ++ tail) = false := by
    rw [hds]
    cases ds with
    | nil =>
      cases tail with
      | nil => simp [startsHex]
      | cons c r =>
        obtain ⟨-, -, -, -, -, hx1, hx2⟩ := continuesNumber_false c (ht c (by simp))
        simp [startsHex, hx1, hx2]
    | cons d2 r =>
      have hd2 := hd d2 (by rw [hds]; simp)
      have hx1 : d2 ≠ 'x' := digit_ne d2 'x' hd2 (by decide)
      have hx2 : d2 ≠ 'X' := digit_ne d2 'X' hd2 (by decide)
      simp [startsHex, hx1, hx2]
  have h8 : ¬ ((digits ++ tail).take 8).map tolower = ['i', 'n', 'f', 'i', 'n', 'i', 't', 'y'] := by
    rw [hds]
    intro h
    simp only [List.cons_append, List.take_succ_cons, List.map_cons, List.cons.injEq] at h
    exact hi (hlow ▸ h.1)
  have h3 : ¬ ((digits ++ tail).take 3).map tolower = ['i', 'n', 'f'] := by
    rw [hds]
    intro h
    simp only [List.cons_append, List.take_succ_cons, List.map_cons, List.cons.injEq] at h
    exact hi (hlow ▸ h.1)
  have h3n : ¬ ((digits ++ tail).take 3).map tolower = ['n', 'a', 'n'] := by
    rw [hds]
    intro h
    simp only [List.cons_append, List.take_succ_cons, List.map_cons, List.cons.injEq] at h
    exact hn (hlow ▸ h.1)
  unfold floatSubject
  rw [if_neg h8, if_neg h3, if_neg h3n, hx]
  simp only [Bool.false_and, Bool.false_eq_true, if_false]
  exact floatConstant_decimal digits tail hne hd ht

/-- The function `strtod` on a decimal integer literal. -/
theorem strtod_decimal (ws sign digits tail : List Char)
    (hws : ∀ c ∈ ws, isspace c = true) (hsign : sign = [] ∨ sign = ['-'] ∨ sign = ['+'])
    (hne : digits ≠ []) (hd : ∀ c ∈ digits, isDigitIn 10 c = true)
    (ht : ∀ c ∈ tail.head?, continuesNumber c = false) :
    strtod (ws ++ sign ++ digits ++ tail) =
      (if sign = ['-'] then (Double.ofNat (digitsValue 10 digits)).negate
        else Double.ofNat (digitsValue 10 digits), (ws ++ sign ++ digits).length) := by
  obtain ⟨s1, s2, s3⟩ := sign_digits sign digits tail hsign hne hd
  unfold strtod
  simp only [dropWhile_isspace ws sign digits tail hws hsign hne hd, s1, s2, s3,
    floatSubject_decimal digits tail hne hd ht]
  simp only [List.length_append, decide_eq_true_eq]
  congr 1
  omega

/-- The C library reads decimal integers with `strtod` as `ReadsIntegers`
asks. -/
theorem runtime_readsIntegers : runtime.ReadsIntegers :=
  fun ws sign digits rest hws hsign hne hd ht => strtod_decimal ws sign digits rest hws hsign hne hd ht

/-- The cast of the C library truncates in range as `TruncatesInRange` asks. -/
theorem runtime_truncatesInRange : runtime.TruncatesInRange := by
  intro d t ht h1 h2
  show doubleToInt64 d = t
  unfold doubleToInt64
  rw [ht]
  simp only
  rw [if_pos ⟨h1, h2⟩]

end libc

namespace CVariant

/-- C16, as the code has it: integer text parses through surrounding
white space and rejects trailing garbage, within the reach of the parser the
build selects.  Take white space `ws`, an optional sign and a non-empty run of
decimal digits.  The build either calls the C library's `strtoll` with base 0,
and then the digits have no superfluous leading zero (which base 0 would read
as octal), or it replaces `strtoll` by a cast of `strtod` (lines 22-27), which
reads decimal integers correctly rounded and whose cast truncates in range.
Then (1) followed by any run of spaces, tabs, CR and LF, the text gives the
integer `n` it denotes, for `n` in the range of `int64_t` and, on the `strtod`
build, of magnitude at most `2 ^ 53`; (2) followed by a character that is not
NUL, is not a space, tab, CR or LF and cannot continue a numeric token (every
letter but `e`, `E`, `x`, `X` is one), and then by anything, the text gives the
fallback. -/
theorem integer_text (rt : CRuntime) (cfg : BuildConfig) (ws sign digits : List Char) (fb : Int)
    (hws : ∀ c ∈ ws, libc.isspace c = true)
    (hsign : sign = [] ∨ sign = ['-'] ∨ sign = ['+'])
    (hne : digits ≠ [])
    (hd : ∀ c ∈ digits, libc.isDigitIn 10 c = true)
    (hrt : (cfg.parsesThroughDouble = false ∧ rt.strtoll = libc.strtoll ∧
        (digits = ['0'] ∨ digits.head? ≠ some '0')) ∨
      (cfg.parsesThroughDouble = true ∧ rt.ReadsIntegers ∧ rt.TruncatesInRange)) :
    (∀ trailing : List Char, (∀ c ∈ trailing, c ∈ [' ', '\n', '\r', '\t']) →
      (ws ++ sign ++ digits ++ trailing).length < 2 ^ 64 →
      -(2 ^ 63) ≤ literalValue sign digits → literalValue sign digits < 2 ^ 63 →
      (cfg.parsesThroughDouble = true → libc.digitsValue 10 digits ≤ 2 ^ 53) →
      asInteger rt cfg (ofString (String.mk (ws ++ sign ++ digits ++ trailing))) fb =
        literalValue sign digits) ∧
    (∀ (c : Char) (rest : List Char), c ≠ '\x00' → c ∉ [' ', '\n', '\r', '\t'] →
      libc.continuesNumber c = false →
      (ws ++ sign ++ digits ++ c :: rest).length < 2 ^ 64 →
      asInteger rt cfg (ofString (String.mk (ws ++ sign ++ digits ++ c :: rest))) fb = fb) := by
  constructor
  · intro trailing htrail hlen hlo hhi h53
    have hlen2 : (ws ++ sign ++ digits).length < 2 ^ 64 := by
      simp only [List.length_append] at hlen ⊢
      omega
    apply str2int64_number rt cfg ws sign digits trailing fb _ hws hsign hne hd htrail hlen2
    rcases hrt with ⟨hcfg, hll, hlead⟩ | ⟨hcfg, hread, htrunc⟩
    · have h := libc.strtoll_decimal ws sign digits [] hws hsign hne hd hlead (by simp)
      rw [List.append_nil] at h
      unfold strtoll
      rw [hcfg, hll, h]
      simp only [Bool.false_eq_true, if_false]
      congr 1
      unfold literalValue at hlo hhi ⊢
      by_cases hs : sign = ['-']
      · simp only [if_pos hs] at hlo hhi ⊢
        exact max_eq_left hlo
      · simp only [if_neg hs] at hlo hhi ⊢
        exact min_eq_left (by omega)
    · have h := hread ws sign digits [] hws hsign hne hd (by simp)
      rw [List.append_nil] at h
      obtain ⟨t1, t2⟩ := Double.truncate_ofNat (libc.digitsValue 10 digits) (h53 hcfg)
      unfold strtoll
      rw [hcfg, h]
      simp only [if_true, Prod.map, id]
      congr 1
      unfold literalValue at hlo hhi ⊢
      by_cases hs : sign = ['-']
      · simp only [if_pos hs] at hlo hhi ⊢
        exact htrunc _ _ t2 hlo hhi
      · simp only [if_neg hs] at hlo hhi ⊢
        exact htrunc _ _ t1 hlo hhi
  · intro c rest hc0 hct hcn hlen
    apply str2int64_garbage rt cfg ws sign digits c rest fb hws hsign hne hd hc0 hct hlen
    intro tail
    rcases hrt with ⟨hcfg, hll, hlead⟩ | ⟨hcfg, hread, -⟩
    · have h := libc.strtoll_decimal ws sign digits (c :: tail) hws hsign hne hd hlead
        (by intro x hx; simp at hx; rw [← hx]; exact hcn)
      unfold strtoll
      rw [hcfg, hll, h]
      rfl
    · have h := hread ws sign digits (c :: tail) hws hsign hne hd
        (by intro x hx; simp at hx; rw [← hx]; exact hcn)
      unfold strtoll
      rw [hcfg, h]
      rfl

/-- Witness of `integer_text`: with the C library's parsers, "  42  " gives 42
and "12abc" gives the fallback on the build that calls `strtoll`, and a tab,
"-42", a space and LF give -42 and "12abc" the fallback on the build that
parses through `strtod`. -/
theorem integer_text_witness :
    asInteger libc.runtime BuildConfig.darwin (ofString "  42  ") (-1) = 42 ∧
    asInteger libc.runtime BuildConfig.darwin (ofString "12abc") (-1) = -1 ∧
    asInteger libc.runtime BuildConfig.linux (ofString "\t-42 \n") (-1) = -42 ∧
    asInteger libc.runtime BuildConfig.linux (ofString "12abc") (-1) = -1 :=
  ⟨(integer_text libc.runtime BuildConfig.darwin [' ', ' '] [] ['4', '2'] (-1) (by decide)
      (by decide) (by decide) (by decide) (Or.inl ⟨rfl, rfl, by decide⟩)).1 [' ', ' ']
      (by decide) (by decide) (by decide) (by decide) (by decide),
    (integer_text libc.runtime BuildConfig.darwin [] [] ['1', '2'] (-1) (by decide)
      (by decide) (by decide) (by decide) (Or.inl ⟨rfl, rfl, by decide⟩)).2 'a' ['b', 'c']
      (by decide) (by decide) (by decide) (by decide),
    (integer_text libc.runtime BuildConfig.linux ['\t'] ['-'] ['4', '2'] (-1) (by decide)
      (by decide) (by decide) (by decide)
      (Or.inr ⟨rfl, libc.runtime_readsIntegers, libc.runtime_truncatesInRange⟩)).1 [' ', '\n']
      (by decide) (by decide) (by decide) (by decide) (by decide),
    (integer_text libc.runtime BuildConfig.linux [] [] ['1', '2'] (-1) (by decide)
      (by decide) (by decide) (by decide)
      (Or.inr ⟨rfl, libc.runtime_readsIntegers, libc.runtime_truncatesInRange⟩)).2 'a' ['b', 'c']
      (by decide) (by decide) (by decide) (by decide)⟩

/-- C16 fails as stated on a leading zero and beyond 53 bits: with the C library's
parsers, the build that calls `strtoll` reads "010" as the octal number 8 and
rejects "08", and the build that parses through `strtod` reads
"9007199254740993" (`2 ^ 53 + 1`) as 9007199254740992. -/
theorem integer_text_misread :
    asInteger libc.runtime BuildConfig.darwin (ofString "010") (-1) = 8 ∧
    asInteger libc.runtime BuildConfig.darwin (ofString "08") (-1) = -1 ∧
    asInteger libc.runtime BuildConfig.linux (ofString "9007199254740993") (-1) =
      9007199254740992 := by
  refine ⟨?_, ?_, ?_⟩ <;> decide!

end CVariant

namespace CVariant

/-! ## The extent of reflexivity -/

mutual
/-- Where no Double occurs, no NaN occurs. -/
theorem containsNaN_of_no_double : ∀ v : CVariant, containsDouble v = false →
    containsNaN v = false
  | integer _, _ => rfl
  | unsignedinteger _, _ => rfl
  | boolean _, _ => rfl
  | dvalue _, h => by simp [containsDouble] at h
  | string _, _ => rfl
  | wstring _, _ => rfl
  | array a, h => by
    simp only [containsDouble] at h
    simp only [containsNaN]
    exact containsNaNArray_of_no_double a h
  | object m, h => by
    simp only [containsDouble] at h
    simp only [containsNaN]
    exact containsNaNMap_of_no_double m h
  | null, _ => rfl
  | constNull, _ => rfl
theorem containsNaNArray_of_no_double : ∀ a : VariantArray, containsDoubleArray a = false →
    containsNaNArray a = false
  | [], _ => rfl
  | x :: xs, h => by
    simp only [containsDoubleArray, Bool.or_eq_false_iff] at h
    simp only [containsNaNArray, Bool.or_eq_false_iff]
    exact ⟨containsNaN_of_no_double x h.1, containsNaNArray_of_no_double xs h.2⟩
theorem containsNaNMap_of_no_double : ∀ m : VariantMap, containsDoubleMap m = false →
    containsNaNMap m = false
  | [], _ => rfl
  | (_, x) :: m, h => by
    simp only [containsDoubleMap, Bool.or_eq_false_iff] at h
    simp only [containsNaNMap, Bool.or_eq_false_iff]
    exact ⟨containsNaN_of_no_double x h.1, containsNaNMap_of_no_double m h.2⟩
end

mutual
/-- A variant that is `==` to itself holds no Null- or ConstNull-tagged value
at any depth. -/
theorem containsNull_of_eq_self : ∀ v : CVariant, operator_eq v v = true →
    containsNull v = false
  | integer _, _ => rfl
  | unsignedinteger _, _ => rfl
  | boolean _, _ => rfl
  | dvalue _, _ => rfl
  | string _, _ => rfl
  | wstring _, _ => rfl
  | array a, h => by
    simp only [operator_eq, Bool.and_eq_true] at h
    simp only [containsNull]
    exact containsNullArray_of_equal_self a h.2
  | object m, h => by
    simp only [operator_eq, Bool.and_eq_true] at h
    simp only [containsNull]
    exact containsNullMap_of_equal_self m h.2
  | null, h => by simp [operator_eq] at h
  | constNull, h => by simp [operator_eq] at h
theorem containsNullArray_of_equal_self : ∀ a : VariantArray, vector_equal a a = true →
    containsNullArray a = false
  | [], _ => rfl
  | x :: xs, h => by
    simp only [vector_equal, Bool.and_eq_true] at h
    simp only [containsNullArray, Bool.or_eq_false_iff]
    exact ⟨containsNull_of_eq_self x h.1, containsNullArray_of_equal_self xs h.2⟩
theorem containsNullMap_of_equal_self : ∀ m : VariantMap, map_equal m m = true →
    containsNullMap m = false
  | [], _ => rfl
  | (_, x) :: m, h => by
    simp only [map_equal, Bool.and_eq_true] at h
    simp only [containsNullMap, Bool.or_eq_false_iff]
    exact ⟨containsNull_of_eq_self x h.1.2, containsNullMap_of_equal_self m h.2⟩
end

/-- A variant with `isNull()` true holds a null: itself. -/
theorem containsNull_of_isNull (x : CVariant) (h : x.isNull = true) : containsNull x = true := by
  cases x <;> simp [isNull, m_type] at h <;> rfl

/-- An array with a null element holds a null. -/
theorem containsNullArray_of_mem (a : VariantArray) (x : CVariant) (hx : x ∈ a)
    (h : containsNull x = true) : containsNullArray a = true := by
  induction a with
  | nil => simp at hx
  | cons y ys ih =>
    simp only [containsNullArray, Bool.or_eq_true]
    rcases List.mem_cons.1 hx with rfl | hm
    · exact Or.inl h
    · exact Or.inr (ih hm)

/-- An object with a null value holds a null. -/
theorem containsNullMap_of_mem (m : VariantMap) (e : String × CVariant) (he : e ∈ m)
    (h : containsNull e.2 = true) : containsNullMap m = true := by
  induction m with
  | nil => simp at he
  | cons p ps ih =>
    obtain ⟨k, y⟩ := p
    simp only [containsNullMap, Bool.or_eq_true]
    rcases List.mem_cons.1 he with rfl | hm
    · exact Or.inl h
    · exact Or.inr (ih hm)

/-- C21. The extent of reflexivity.  A variant that is `==` to itself holds no
Null- or ConstNull-tagged value at any depth (itself, an element, a value of
an object); and for a variant in which no Double occurs, `v == v` is true
exactly when it holds none.  A copy of `v`, copy constructed or assigned to a
target that is not ConstNull-tagged, has the value of `v`, so it compares equal
to `v`, on either side of `==`, exactly under the same condition.  Hence an
Array with an element, or an Object with a value, whose `isNull()` is true is
unequal to its own copy and to itself. -/
theorem reflexivity_extent (v : CVariant) :
    (operator_eq v v = true → containsNull v = false) ∧
    (containsDouble v = false →
      (operator_eq v v = true ↔ containsNull v = false) ∧
      (operator_eq (copy_construct v) v = true ↔ containsNull v = false) ∧
      (operator_eq v (copy_construct v) = true ↔ containsNull v = false) ∧
      ∀ t : CVariant, t.m_type ≠ .VariantTypeConstNull →
        (operator_eq (operator_assign t v false) v = true ↔ containsNull v = false) ∧
        (operator_eq v (operator_assign t v false) = true ↔ containsNull v = false)) ∧
    (∀ a : VariantArray, v = array a → (∃ x ∈ a, x.isNull = true) →
      operator_eq v v = false ∧ operator_eq (copy_construct v) v = false ∧
      operator_eq v (copy_construct v) = false) ∧
    (∀ m : VariantMap, v = object m → (∃ e ∈ m, e.2.isNull = true) →
      operator_eq v v = false ∧ operator_eq (copy_construct v) v = false ∧
      operator_eq v (copy_construct v) = false) := by
  have hnull : containsNull v = true → operator_eq v v = false := by
    intro h
    cases he : operator_eq v v with
    | false => rfl
    | true => rw [containsNull_of_eq_self v he] at h; exact absurd h (by decide)
  refine ⟨containsNull_of_eq_self v, fun hd => ?_, fun a ha hx => ?_, fun m hm he => ?_⟩
  · have hiff : operator_eq v v = true ↔ containsNull v = false :=
      ⟨containsNull_of_eq_self v,
        fun hn => operator_eq_self v hn (containsNaN_of_no_double v hd)⟩
    refine ⟨hiff, ?_, ?_, fun t ht => ?_⟩
    · rw [copy_construct_eq]; exact hiff
    · rw [copy_construct_eq]; exact hiff
    · rw [operator_assign_eq t v ht]; exact ⟨hiff, hiff⟩
  · obtain ⟨x, hxa, hxn⟩ := hx
    have hc : containsNull v = true := by
      rw [ha]
      simp only [containsNull]
      exact containsNullArray_of_mem a x hxa (containsNull_of_isNull x hxn)
    rw [copy_construct_eq]
    exact ⟨hnull hc, hnull hc, hnull hc⟩
  · obtain ⟨e, hem, hen⟩ := he
    have hc : containsNull v = true := by
      rw [hm]
      simp only [containsNull]
      exact containsNullMap_of_mem m e hem (containsNull_of_isNull e.2 hen)
    rw [copy_construct_eq]
    exact ⟨hnull hc, hnull hc, hnull hc⟩

/-- Witness of `reflexivity_extent`: a nested array without nulls is `==` to
itself and to its copy; the array whose second element is an object with a Null
value holds a null and is unequal to its copy; the object with a ConstNull
value is unequal to its copy. -/
theorem reflexivity_extent_witness :
    containsDouble (array [integer 1, object [("k", string "s")]]) = false ∧
    operator_eq (array [integer 1, object [("k", string "s")]])
      (array [integer 1, object [("k", string "s")]]) = true ∧
    operator_eq (copy_construct (array [integer 1, object [("k", string "s")]]))
      (array [integer 1, object [("k", string "s")]]) = true ∧
    operator_eq (copy_construct (array [integer 1, object [("k", null)]]))
      (array [integer 1, object [("k", null)]]) = false ∧
    operator_eq (copy_construct (array [integer 1, null])) (array [integer 1, null]) = false ∧
    operator_eq (copy_construct (object [("k", constNull)])) (object [("k", constNull)]) = false :=
  ⟨rfl,
    ((reflexivity_extent (array [integer 1, object [("k", string "s")]])).2.1 rfl).1.2 rfl,
    ((reflexivity_extent (array [integer 1, object [("k", string "s")]])).2.1 rfl).2.1.2 rfl,
    by
      have h := ((reflexivity_extent (array [integer 1, object [("k", null)]])).2.1 rfl).2.1
      cases he : operator_eq (copy_construct (array [integer 1, object [("k", null)]]))
          (array [integer 1, object [("k", null)]]) with
      | false => rfl
      | true => exact absurd (h.1 he) (by decide),
    ((reflexivity_extent (array [integer 1, null])).2.2.1 _ rfl
      ⟨null, by simp, rfl⟩).2.1,
    ((reflexivity_extent (object [("k", constNull)])).2.2.2 _ rfl
      ⟨("k", constNull), by simp, rfl⟩).2.1⟩

end CVariant

namespace CVariant

/-! ## Propagation of the ConstNull tag -/

/-- Writing back the mapped value of a key changes nothing. -/
theorem map_set_find_self (m : VariantMap) (key : String) (x : CVariant)
    (h : map_find m key = some x) : map_set m key x = m := by
  induction m with
  | nil => rfl
  | cons p ps ih =>
    obtain ⟨k, y⟩ := p
    by_cases hk : k = key
    · simp only [map_find, hk, if_true, Option.some.injEq] at h
      simp [map_set, hk, h]
    · simp only [map_find, hk, if_false] at h
      simp [map_set, hk, ih h]

/-- Writing back an element changes nothing. -/
theorem set_getElem_self (xs : VariantArray) (position : Nat) (x : CVariant)
    (h : xs[position]? = some x) : xs.set position x = xs := by
  induction xs generalizing position with
  | nil => rfl
  | cons y ys ih =>
    cases position with
    | zero =>
      simp only [List.getElem?_cons_zero, Option.some.injEq] at h
      simp [h]
    | succ n =>
      simp only [List.getElem?_cons_succ] at h
      simp [ih n h]

end CVariant

namespace Store

/-- A write through an lvalue that exists is read back. -/
theorem read_write_self (st : Store) (r : Ref) (t v : CVariant) (h : st.read r = some t) :
    (st.write r v).read r = some v := by
  cases r with
  | object a => simp [write, read]
  | member a key =>
    cases hst : st a <;> simp only [read, hst] at h <;> try exact absurd h (by simp)
    rename_i m
    simp only [write, hst, read, Function.update_same]
    exact CVariant.map_find_set_self m key v (by rw [h]; rfl)
  | element a position =>
    cases hst : st a <;> simp only [read, hst] at h <;> try exact absurd h (by simp)
    rename_i xs
    simp only [write, hst, read, Function.update_same]
    have hlt : position < xs.length := by
      by_contra hge
      rw [List.getElem?_eq_none (by omega)] at h
      exact absurd h (by simp)
    simp [List.getElem?_set, hlt]

/-- Writing back what an lvalue holds changes nothing. -/
theorem write_read_self (st : Store) (r : Ref) (t : CVariant) (h : st.read r = some t) :
    st.write r t = st := by
  cases r with
  | object a =>
    simp only [read, Option.some.injEq] at h
    simp [write, ← h]
  | member a key =>
    cases hst : st a <;> simp only [read, hst] at h <;> try exact absurd h (by simp)
    rename_i m
    simp only [write, hst, CVariant.map_set_find_self m key t h]
    rw [← hst, Function.update_eq_self]
  | element a position =>
    cases hst : st a <;> simp only [read, hst] at h <;> try exact absurd h (by simp)
    rename_i xs
    simp only [write, hst, CVariant.set_getElem_self xs position t h]
    rw [← hst, Function.update_eq_self]

/-- A write into one complete object leaves the lvalues of another as they
are. -/
theorem read_write_other (st : Store) (r this : Ref) (v : CVariant)
    (h : this.root ≠ r.root) : (st.write r v).read this = st.read this := by
  have hf := write_frame st r v this.root h
  cases this <;> simp only [Ref.root] at hf <;> simp only [read, hf]

/-- A write through an lvalue leaves a different lvalue as it is, unless one
of the two is the complete object that holds the other. -/
theorem read_write_apart (st : Store) (r this : Ref) (v : CVariant) (hne : this ≠ r)
    (h1 : this ≠ .object r.root) (h2 : r ≠ .object this.root) :
    (st.write r v).read this = st.read this := by
  by_cases hroot : this.root = r.root
  · cases this with
    | object a => exact absurd (congrArg Ref.object hroot) h1
    | member a key =>
      cases r with
      | object b =>
        simp only [Ref.root] at hroot
        exact absurd (by rw [hroot]; rfl) h2
      | member b other =>
        simp only [Ref.root] at hroot
        subst hroot
        have hk : key ≠ other := fun h => hne (by rw [h])
        cases hst : st a <;> simp only [write, read, hst]
        simp only [Function.update_same]
        exact CVariant.map_find_set_other _ other key v hk
      | element b position =>
        simp only [Ref.root] at hroot
        subst hroot
        cases hst : st a <;> simp only [write, read, hst]
        simp only [Function.update_same]
    | element a position =>
      cases r with
      | object b =>
        simp only [Ref.root] at hroot
        exact absurd (by rw [hroot]; rfl) h2
      | member b key =>
        simp only [Ref.root] at hroot
        subst hroot
        cases hst : st a <;> simp only [write, read, hst]
        simp only [Function.update_same]
      | element b other =>
        simp only [Ref.root] at hroot
        subst hroot
        have hp : other ≠ position := fun h => hne (by rw [h])
        cases hst : st a <;> simp only [write, read, hst]
        simp only [Function.update_same]
        exact List.getElem?_set_ne hp
  · exact read_write_other st r this v hroot

/-- Assignments to a ConstNull-tagged lvalue, copying or moving, change
nothing in the store. -/
theorem assign_constNull_fixed (st : Store) (this : Ref) (c : CVariant)
    (h : st.read this = some c) (hc : c.m_type = .VariantTypeConstNull) (x : Ref) :
    st.operator_assign this x = st ∧ st.operator_assign_move this x = st := by
  cases hx : st.read x with
  | none => simp [operator_assign, operator_assign_move, h, hx]
  | some r =>
    constructor
    · simp only [operator_assign, h, hx, CVariant.operator_assign_guard c r _ hc]
      exact write_read_self st this c h
    · simp only [operator_assign_move, h, hx, CVariant.operator_assign_move, hc, beq_self_eq_true,
        Bool.true_or, if_true]
      rw [write_read_self st x r hx]
      exact write_read_self st this c h

/-- A sequence of assignments to a ConstNull-tagged lvalue, each copying
(`false`) or moving (`true`) from some lvalue, changes nothing in the store. -/
theorem assign_list_constNull_fixed (st : Store) (this : Ref) (c : CVariant)
    (h : st.read this = some c) (hc : c.m_type = .VariantTypeConstNull)
    (xs : List (Bool × Ref)) : st.assignAll this xs = st := by
  unfold assignAll
  induction xs with
  | nil => rfl
  | cons x rest ih =>
    obtain ⟨h1, h2⟩ := assign_constNull_fixed st this c h hc x.2
    simp only [List.foldl_cons]
    cases hx : x.1 <;> simp only [hx, if_true, Bool.false_eq_true, if_false, h1, h2] <;> exact ih

/-- C22. The ConstNull tag propagates through copies and is then permanent
under assignment.  Let `this` be an lvalue (a variable, an Object entry or an
Array element) whose tag is not ConstNull, and `rhs` an lvalue with a
ConstNull-tagged value.  An object copy constructed from `rhs` is
ConstNull-tagged.  Unless `rhs` is an entry or element of the object `this`
(an assignment which destroys `rhs` before it is read), after `this = rhs` and
after `this = std::move(rhs)` the lvalue `this` holds a ConstNull-tagged
value.  After each of the three, every sequence of copy and
move assignments to the new ConstNull-tagged variant, from whatever lvalues,
leaves the whole store as it is: nothing is stored and nothing is moved from.
In particular, while the sentinel has the tag it is initialised with, after
`this = o[key]` with a const lookup of a key that `o` does not hold, `this`
holds a ConstNull-tagged value and a following `this = x` changes nothing. -/
theorem constNull_propagates (st : Store) (this : Ref) (t : CVariant)
    (ht : st.read this = some t) (htt : t.m_type ≠ .VariantTypeConstNull) :
    (∀ (rhs : Ref) (r : CVariant), st.read rhs = some r → r.m_type = .VariantTypeConstNull →
      (∀ (a : Addr) (xs : List (Bool × Ref)),
        ((st.copy_construct a rhs) a).m_type = .VariantTypeConstNull ∧
        (st.copy_construct a rhs).assignAll (.object a) xs = st.copy_construct a rhs) ∧
      (this ≠ .object rhs.root →
        (st.operator_assign this rhs).read this = some .constNull ∧
        (st.operator_assign_move this rhs).read this = some .constNull ∧
        ∀ xs : List (Bool × Ref),
          (st.operator_assign this rhs).assignAll this xs = st.operator_assign this rhs ∧
          (st.operator_assign_move this rhs).assignAll this xs =
            st.operator_assign_move this rhs)) ∧
    (∀ (o : Addr) (key : String), st.sentinelIntact → (st o).isMember key = false →
      (st.operator_assign this (st.index_key_const o key).2).read this = some .constNull ∧
      ∀ x : Ref,
        ((st.operator_assign this (st.index_key_const o key).2).operator_assign this x).read this
          = some .constNull ∧
        (st.operator_assign this (st.index_key_const o key).2).operator_assign this x =
          st.operator_assign this (st.index_key_const o key).2) := by
  have hne : ∀ (rhs : Ref) (r : CVariant), st.read rhs = some r →
      r.m_type = .VariantTypeConstNull → this ≠ rhs := by
    intro rhs r hr hrt h
    rw [h, hr] at ht
    simp only [Option.some.injEq] at ht
    exact htt (ht ▸ hrt)
  have hassign : ∀ (rhs : Ref) (r : CVariant), st.read rhs = some r →
      r.m_type = .VariantTypeConstNull →
      (st.operator_assign this rhs).read this = some .constNull := by
    intro rhs r hr hrt
    have hdec : decide (this = rhs) = false := by simp [hne rhs r hr hrt]
    simp only [operator_assign, ht, hr, hdec, CVariant.operator_assign_eq t r htt]
    rw [read_write_self st this t r ht, eq_constNull r hrt]
  have hmove : ∀ (rhs : Ref) (r : CVariant), st.read rhs = some r →
      r.m_type = .VariantTypeConstNull → this ≠ .object rhs.root →
      (st.operator_assign_move this rhs).read this = some .constNull := by
    intro rhs r hr hrt hsep
    have hdec : decide (this = rhs) = false := by simp [hne rhs r hr hrt]
    have hres : CVariant.operator_assign_move t r false = (r, .null) := by
      simp [CVariant.operator_assign_move, htt]
    have hout : rhs ≠ .object this.root := by
      intro h
      have hr2 : st this.root = r := by
        rw [h] at hr
        simpa [read] using hr
      have hc := eq_constNull r hrt
      cases this with
      | object a => exact hne rhs r hr hrt (by rw [h]; rfl)
      | member a key =>
        simp only [Ref.root] at hr2
        simp [read, hr2, hc] at ht
      | element a position =>
        simp only [Ref.root] at hr2
        simp [read, hr2, hc] at ht
    simp only [operator_assign_move, ht, hr, hdec, hres]
    have hthis : (st.write rhs .null).read this = some t := by
      rw [read_write_apart st rhs this .null (hne rhs r hr hrt) hsep hout, ht]
    rw [read_write_self _ this t r hthis, eq_constNull r hrt]
  refine ⟨fun rhs r hr hrt => ⟨fun a xs => ?_, fun hsep => ?_⟩, fun o key hs hk => ?_⟩
  · have hc : st.copy_construct a rhs = Function.update st a r := by
      simp only [copy_construct, hr, CVariant.copy_construct_eq]
    have hread : (st.copy_construct a rhs).read (.object a) = some r := by
      rw [hc]; simp [read]
    refine ⟨?_, assign_list_constNull_fixed _ _ r hread hrt xs⟩
    rw [hc, Function.update_same]
    exact hrt
  · have h1 := hassign rhs r hr hrt
    have h2 := hmove rhs r hr hrt hsep
    exact ⟨h1, h2, fun xs =>
      ⟨assign_list_constNull_fixed _ _ _ h1 rfl xs, assign_list_constNull_fixed _ _ _ h2 rfl xs⟩⟩
  · have hsrc : (st.index_key_const o key).2 = .object ConstNullVariant := by
      simp [index_key_const, operator_index_key_const_absent _ key hk, CVariant.Slot.toRef]
    rw [hsrc]
    have h1 := hassign (.object ConstNullVariant) (st ConstNullVariant) rfl hs
    refine ⟨h1, fun x => ?_⟩
    have hfix := (assign_constNull_fixed _ this _ h1 rfl x).1
    rw [hfix]
    exact ⟨h1, rfl⟩

/-- Witness of `constNull_propagates` in the example store: the entry "b" of
the object at address 2 and the element 0 of the array at address 1 take the
ConstNull tag from the sentinel, by a copy and by a move, and the const lookup
of the missing key "zz" makes the entry "b" ConstNull-tagged. -/
theorem constNull_propagates_witness :
    exampleStore.read (.member 2 "b") = some (.string "x") ∧
    (exampleStore.operator_assign (.member 2 "b") (.object ConstNullVariant)).read
      (.member 2 "b") = some .constNull ∧
    (exampleStore.operator_assign_move (.element 1 0) (.object ConstNullVariant)).read
      (.element 1 0) = some .constNull ∧
    (exampleStore.operator_assign (.member 2 "b") (exampleStore.index_key_const 2 "zz").2).read
      (.member 2 "b") = some .constNull ∧
    ((exampleStore.operator_assign (.member 2 "b")
      (exampleStore.index_key_const 2 "zz").2).operator_assign (.member 2 "b") (.object 4)).read
      (.member 2 "b") = some .constNull :=
  ⟨rfl,
    ((constNull_propagates exampleStore (.member 2 "b") (.string "x") rfl (by decide)).1
      (.object ConstNullVariant) .constNull rfl rfl).2 (by decide) |>.1,
    ((constNull_propagates exampleStore (.element 1 0) (.integer 1) rfl (by decide)).1
      (.object ConstNullVariant) .constNull rfl rfl).2 (by decide) |>.2.1,
    ((constNull_propagates exampleStore (.member 2 "b") (.string "x") rfl (by decide)).2
      2 "zz" (by decide) rfl).1,
    (((constNull_propagates exampleStore (.member 2 "b") (.string "x") rfl (by decide)).2
      2 "zz" (by decide) rfl).2 (.object 4)).1⟩

end Store
